import Mathlib

/-!
# TDL language engine — verification of the core pipeline

Shallow embedding of the TDL configuration-language engine
(`src/engine/lexer.ts`, `src/engine/parser.ts`, `src/engine/validator.ts`,
`src/engine/types.ts`, `src/specs/link16/*`) and proofs about it.

Modelling conventions:
* TypeScript strings are Lean `String`s; source text is a `List Char`.
* TypeScript `number` values stored in AST property values are modelled as
  `Rat` (exact rational arithmetic).  Every numeric literal the language can
  produce is a finite decimal, and the claims under study only compare sums
  of such values against integer bounds.
* JavaScript template interpolation of a number (`${n}`) is modelled by
  `jsNumStr`, which agrees with JavaScript on integral values (the only
  values interpolated in the statements proved here).
* Span `offset`/`length` fields are `Int`, because the parser's `mergeSpans`
  computes a length by subtraction.
* Fallible TypeScript functions returning `null`/`undefined` are modelled
  with `Option`.
-/

namespace Tdl

/-- `types.ts` — `SourceSpan`: (1-based line, 1-based column, 0-based offset,
length).  Fields are `Int` as explained in the header. -/
structure SourceSpan where
  line : Int
  column : Int
  offset : Int
  length : Int
deriving DecidableEq, Repr

/-- `types.ts` — `TokenType`. -/
inductive TokenType where
  | string | number | percent | duration | boolean | hexNumber
  | keyword | identifier | jmessage
  | lbrace | rbrace | lbracket | rbracket | colon | comma
  | greaterThanOrEqual | lessThanOrEqual | greaterThan | lessThan
  | equalEqual | notEqual
  | comment | whitespace | newline
  | eof | unknown
deriving DecidableEq, Repr

/-- `types.ts` — `Token`. -/
structure Token where
  type : TokenType
  value : String
  span : SourceSpan
deriving DecidableEq, Repr

/-- `types.ts` — `KEYWORDS`. -/
def KEYWORDS : List String :=
  ["network", "terminal", "net", "subnetwork", "member",
   "messages", "filters", "inbound", "outbound",
   "accept", "drop", "where",
   "link", "classification", "track_number", "platform_type",
   "role", "subscribes", "transmits", "net_number",
   "npg", "stacked", "stacking_level", "tsdf", "participants",
   "enabled", "operating_mode", "data_rate", "unit_id", "forwarding",
   "quality", "age"]

/-- `types.ts` — `PropertyValue` tagged union. -/
inductive PropertyValue where
  | string (value : String)
  | number (value : Rat)
  | percent (value : Rat)
  | duration (value : String)
  | boolean (value : Bool)
  | identifier (value : String)
  | hex (value : String)
  | array (value : List String)
deriving DecidableEq, Repr

/-- `types.ts` — `PropertyAssignment` (the optional `comment` field is never
set by the parser and never read by the validator; it is omitted). -/
structure PropertyAssignment where
  key : String
  value : PropertyValue
  span : SourceSpan
deriving DecidableEq, Repr

/-- `types.ts` — `TerminalDeclaration`. -/
structure TerminalDeclaration where
  name : String
  properties : List PropertyAssignment
  span : SourceSpan
deriving DecidableEq, Repr

/-- `types.ts` — `NetDeclaration`. -/
structure NetDeclaration where
  name : String
  properties : List PropertyAssignment
  span : SourceSpan
deriving DecidableEq, Repr

/-- `types.ts` — `MemberDeclaration`. -/
structure MemberDeclaration where
  name : String
  properties : List PropertyAssignment
  span : SourceSpan
deriving DecidableEq, Repr

/-- `types.ts` — `SubnetworkDeclaration`. -/
structure SubnetworkDeclaration where
  name : String
  properties : List PropertyAssignment
  members : List MemberDeclaration
  span : SourceSpan
deriving DecidableEq, Repr

/-- `types.ts` — `MessageEntry`. -/
structure MessageEntry where
  messageId : String
  properties : List PropertyAssignment
  span : SourceSpan
deriving DecidableEq, Repr

/-- `types.ts` — `MessageCatalog`. -/
structure MessageCatalog where
  entries : List MessageEntry
  span : SourceSpan
deriving DecidableEq, Repr

/-- `types.ts` — the comparison operator of a `ConditionExpression`. -/
inductive CompareOp where
  | ge | le | gt | lt | eq | ne
deriving DecidableEq, Repr

/-- `types.ts` — `ConditionExpression`. -/
structure ConditionExpression where
  field : String
  operator : CompareOp
  value : String
  span : SourceSpan
deriving DecidableEq, Repr

/-- `types.ts` — `WhereClause`. -/
structure WhereClause where
  condition : ConditionExpression
  span : SourceSpan
deriving DecidableEq, Repr

/-- `types.ts` — `FilterRule.action`. -/
inductive FilterAction where
  | accept | drop
deriving DecidableEq, Repr

/-- `types.ts` — `FilterRule`. -/
structure FilterRule where
  action : FilterAction
  messageId : String
  whereClause : Option WhereClause
  span : SourceSpan
deriving DecidableEq, Repr

/-- `types.ts` — `FilterBlock`. -/
structure FilterBlock where
  inbound : List FilterRule
  outbound : List FilterRule
  span : SourceSpan
deriving DecidableEq, Repr

/-- `types.ts` — `NetworkDeclaration`. -/
structure NetworkDeclaration where
  name : String
  properties : List PropertyAssignment
  terminals : List TerminalDeclaration
  nets : List NetDeclaration
  subnetworks : List SubnetworkDeclaration
  messages : Option MessageCatalog
  filters : Option FilterBlock
  span : SourceSpan
deriving DecidableEq, Repr

/-- `types.ts` — `DocumentNode`. -/
structure DocumentNode where
  networks : List NetworkDeclaration
  span : SourceSpan
deriving DecidableEq, Repr

/-- `types.ts` — `DiagnosticSeverity`. -/
inductive Severity where
  | error | warning | info | hint
deriving DecidableEq, Repr

/-- `types.ts` — `Diagnostic`. -/
structure Diagnostic where
  message : String
  severity : Severity
  span : SourceSpan
  rule : Option String := none
  specRef : Option String := none
deriving DecidableEq, Repr

/-- `types.ts` — `ParseResult`. -/
structure ParseResult where
  ast : DocumentNode
  diagnostics : List Diagnostic
deriving DecidableEq, Repr

/-! ## Spec database (`src/specs/link16`)

The validator reads only the `id`, `name`, `validNPGs` and `specRef` fields
of the static tables, so those are the fields embedded here; the prose
`description` and message `fields` entries are never consulted. -/

/-- `specs/link16/npgs.ts` — the `id` column of `LINK16_NPGS`, in table
order.  `allNPGIds()` returns exactly this list. -/
def allNPGIds : List String :=
  ["NPG_A", "NPG_B", "NPG_2", "NPG_3", "NPG_4", "NPG_5", "NPG_6",
   "NPG_7", "NPG_8", "NPG_9", "NPG_14", "NPG_15", "NPG_16", "NPG_27"]

/-- `specs/link16/messages.ts` — `JMessageDefinition` (validator-relevant
fields). -/
structure JMessageDef where
  id : String
  name : String
  validNPGs : List String
  specRef : String
deriving DecidableEq, Repr

/-- `specs/link16/messages.ts` — `LINK16_MESSAGES`, in table order. -/
def LINK16_MESSAGES : List JMessageDef :=
  [⟨"J0/0", "Initial Entry", ["NPG_A", "NPG_B"], "MIL-STD-6016 §A.0.0"⟩,
   ⟨"J0/3", "Net Test", ["NPG_A", "NPG_B"], "MIL-STD-6016 §A.0.3"⟩,
   ⟨"J1/0", "Net Control", ["NPG_A", "NPG_B"], "MIL-STD-6016 §A.1.0"⟩,
   ⟨"J2/0", "Direct PPLI", ["NPG_A", "NPG_3", "NPG_8"], "MIL-STD-6016 §A.2.0"⟩,
   ⟨"J2/2", "Indirect PPLI", ["NPG_A", "NPG_2"], "MIL-STD-6016 §A.2.2"⟩,
   ⟨"J2/3", "PPLI Platform", ["NPG_A", "NPG_2", "NPG_3"], "MIL-STD-6016 §A.2.3"⟩,
   ⟨"J2/5", "PPLI IFF/SIF", ["NPG_A", "NPG_2", "NPG_3", "NPG_8"], "MIL-STD-6016 §A.2.5"⟩,
   ⟨"J3/0", "Reference Point", ["NPG_3", "NPG_7", "NPG_9"], "MIL-STD-6016 §A.3.0"⟩,
   ⟨"J3/2", "Air Track", ["NPG_7", "NPG_9"], "MIL-STD-6016 §A.3.2"⟩,
   ⟨"J3/3", "Surface Track", ["NPG_7", "NPG_9"], "MIL-STD-6016 §A.3.3"⟩,
   ⟨"J3/4", "Subsurface Track", ["NPG_7", "NPG_9"], "MIL-STD-6016 §A.3.4"⟩,
   ⟨"J3/5", "Land Track", ["NPG_7", "NPG_9"], "MIL-STD-6016 §A.3.5"⟩,
   ⟨"J3/6", "Space Track", ["NPG_7", "NPG_9"], "MIL-STD-6016 §A.3.6"⟩,
   ⟨"J7/0", "Attack Order", ["NPG_6", "NPG_15"], "MIL-STD-6016 §A.7.0"⟩,
   ⟨"J7/1", "Attack Response", ["NPG_6", "NPG_15"], "MIL-STD-6016 §A.7.1"⟩,
   ⟨"J7/2", "Attack Acknowledgement", ["NPG_6", "NPG_15"], "MIL-STD-6016 §A.7.2"⟩,
   ⟨"J7/3", "Weapons Free", ["NPG_6", "NPG_15"], "MIL-STD-6016 §A.7.3"⟩,
   ⟨"J9/0", "Mission Assignment", ["NPG_4"], "MIL-STD-6016 §A.9.0"⟩,
   ⟨"J10/2", "Status Report", ["NPG_4", "NPG_15"], "MIL-STD-6016 §A.10.2"⟩,
   ⟨"J12/0", "EW Control/Coordination", ["NPG_5", "NPG_14"], "MIL-STD-6016 §A.12.0"⟩,
   ⟨"J12/2", "Target Sorting", ["NPG_5", "NPG_14"], "MIL-STD-6016 §A.12.2"⟩,
   ⟨"J12/6", "Parametric Information", ["NPG_5", "NPG_14"], "MIL-STD-6016 §A.12.6"⟩,
   ⟨"J13/2", "General Point", ["NPG_4", "NPG_9", "NPG_27"], "MIL-STD-6016 §A.13.2"⟩,
   ⟨"J13/5", "General Area", ["NPG_4", "NPG_9", "NPG_27"], "MIL-STD-6016 §A.13.5"⟩]

/-- `specs/link16/messages.ts` — `findJMessage`. -/
def findJMessage (id : String) : Option JMessageDef :=
  LINK16_MESSAGES.find? (fun m => m.id == id)

/-- `specs/link16/messages.ts` — `allJMessageIds`. -/
def allJMessageIds : List String :=
  LINK16_MESSAGES.map (fun m => m.id)

/-- `validator.ts` — `VALID_LINK16_ROLE_IDS` (the `id` column of
`LINK16_ROLES` in `specs/link16/enums.ts`). -/
def VALID_LINK16_ROLE_IDS : List String :=
  ["NetControlStation", "Participant", "ForwardTell", "Relay"]

/-- `validator.ts` — `VALID_LINK22_ROLE_IDS` (from `LINK22_ROLES`). -/
def VALID_LINK22_ROLE_IDS : List String :=
  ["Controller", "Participant"]

/-- `validator.ts` — `VALID_PLATFORM_TYPE_IDS` (the `id` column of
`LINK16_PLATFORM_TYPES` in `specs/link16/enums.ts`, in table order). -/
def VALID_PLATFORM_TYPE_IDS : List String :=
  ["E3A", "E3B", "E3D", "E2C", "E2D", "E7A",
   "F16C", "F16D", "F15C", "F15E", "F18C", "F18E", "F18F",
   "F35A", "F35B", "F35C", "EF2000", "RAFALE", "TORNADO",
   "P8A", "MQ9", "RQ4",
   "DDG", "CG", "CVN", "FFG", "LPD",
   "PATRIOT", "THAAD", "SHORAD", "GCS", "AOC"]

/-- `validator.ts` — `VALID_CLASSIFICATION_IDS` (from
`CLASSIFICATION_LEVELS`). -/
def VALID_CLASSIFICATION_IDS : List String :=
  ["UNCLASSIFIED", "CONFIDENTIAL", "SECRET", "TOP_SECRET"]

/-- `validator.ts` — `VALID_LINK22_OPERATING_MODE_IDS` (from
`LINK22_OPERATING_MODES`). -/
def VALID_LINK22_OPERATING_MODE_IDS : List String :=
  ["NetSlotted", "Contention", "Hybrid"]

/-- `validator.ts` — `VALID_LINK22_DATA_RATE_IDS` (from
`LINK22_DATA_RATES`). -/
def VALID_LINK22_DATA_RATE_IDS : List String :=
  ["Low", "Medium", "High"]

/-! ## JavaScript-value helpers -/

/-- The `type` tag string of a `PropertyValue`, as TypeScript's
discriminated-union tag (used verbatim in one diagnostic message). -/
def PropertyValue.typeName : PropertyValue → String
  | .string _ => "string"
  | .number _ => "number"
  | .percent _ => "percent"
  | .duration _ => "duration"
  | .boolean _ => "boolean"
  | .identifier _ => "identifier"
  | .hex _ => "hex"
  | .array _ => "array"

/-- Smallest `k ≤ 40` with `den ∣ 10^k`, if any. -/
def decExp (den : Nat) : Option Nat :=
  (List.range 41).find? (fun k => 10 ^ k % den == 0)

/-- Decimal rendering of `m / 10^k` for natural `m` (no trailing-zero
stripping needed: callers pass minimal `k`). -/
def natDecString (m k : Nat) : String :=
  if k = 0 then toString m
  else
    let s := (toString m).data
    if s.length ≤ k then
      String.mk ('0' :: '.' :: (List.replicate (k - s.length) '0' ++ s))
    else
      String.mk (s.take (s.length - k) ++ '.' :: s.drop (s.length - k))

/-- JavaScript template interpolation `${n}` of a number, for the exact
rationals this embedding stores: integral values print as in JavaScript,
finite decimals print with minimal digits (also as in JavaScript for the
magnitudes the language produces).  Rationals with an infinite decimal
expansion cannot arise from lexed literals; they fall back to `num/den`. -/
def jsNumStr (q : Rat) : String :=
  let sign := if q.num < 0 then "-" else ""
  match decExp q.den with
  | some k => sign ++ natDecString (q.num.natAbs * (10 ^ k / q.den)) k
  | none => sign ++ toString q.num.natAbs ++ "/" ++ toString q.den

/-- JavaScript `Array.join(sep)` / template use of `join(', ')`. -/
def joinComma (l : List String) : String :=
  String.intercalate ", " l

/-- JavaScript `Set` iteration order over an inserted list: first
occurrences, in insertion order (used for the `participant-reference`
message text). -/
def jsSetList : List String → List String :=
  go []
where
  go (seen : List String) : List String → List String
    | [] => []
    | x :: xs => if x ∈ seen then go seen xs else x :: go (x :: seen) xs

/-- JavaScript `String.toLowerCase()` (character-wise lowering; the hex
lexemes it is applied to are ASCII). -/
def jsToLower (s : String) : String :=
  String.mk (s.data.map Char.toLower)

/-- JavaScript `Map.get` on an insertion-ordered association list. -/
def assocGet {α β : Type} [BEq α] (m : List (α × β)) (k : α) : Option β :=
  (m.find? (fun e => e.1 == k)).map (fun e => e.2)

/-- JavaScript `Map.set` on an insertion-ordered association list:
replaces the value of an existing key in place, else appends. -/
def assocSet {α β : Type} [BEq α] (m : List (α × β)) (k : α) (v : β) :
    List (α × β) :=
  match m with
  | [] => [(k, v)]
  | e :: rest => if e.1 == k then (k, v) :: rest else e :: assocSet rest k v

/-! ## Validator (`src/engine/validator.ts`)

Each rule below is a function from the node it inspects to the list of
diagnostics its loop pushes, in push order; `validate` and the two
dispatching functions thread the shared `diag` array exactly as the
source does. -/

/-- `validator.ts` — `getPropertyValue(properties, key)`: find the first
property whose key matches, then return its value only when that value is
an identifier or a string. -/
def getPropertyValue (properties : List PropertyAssignment) (key : String) :
    Option String :=
  match properties.find? (fun p => p.key == key) with
  | none => none
  | some p =>
    match p.value with
    | .identifier v => some v
    | .string v => some v
    | _ => none

/-- First property with the given key (`properties.find(p => p.key === k)`). -/
def findProp (properties : List PropertyAssignment) (key : String) :
    Option PropertyAssignment :=
  properties.find? (fun p => p.key == key)

/-- `validator.ts` — the `ncs-required` rule inside
`validateLink16Network`: zero NCS terminals is one error on the network
span; more than one is an error on each extra terminal (`.slice(1)`). -/
def ncsRequiredP (n : NetworkDeclaration) : List Diagnostic :=
  let ncsTerminals := n.terminals.filter
    (fun t => getPropertyValue t.properties "role" == some "NetControlStation")
  if ncsTerminals.length = 0 then
    [{ message := "A Link 16 network must have exactly one terminal with role NetControlStation.",
       severity := .error, span := n.span, rule := some "ncs-required",
       specRef := some "MIL-STD-6016 §3.2.1" }]
  else
    (ncsTerminals.drop 1).map (fun ncs =>
      { message := "Multiple NCS terminals defined. Only one NetControlStation is allowed per network.",
        severity := .error, span := ncs.span, rule := some "ncs-required",
        specRef := some "MIL-STD-6016 §3.2.1" })

/-- `validator.ts` — the accumulation loop of `validateTsdfBudget`:
total of the (first) `tsdf` property of each net when percent-typed,
with the `(name, tsdf)` pairs collected alongside. -/
def tsdfScan (nets : List NetDeclaration) : Rat × List (String × Rat) :=
  nets.foldl
    (fun acc net =>
      match findProp net.properties "tsdf" with
      | some p =>
        match p.value with
        | .percent v => (acc.1 + v, acc.2 ++ [(net.name, v)])
        | _ => acc
      | none => acc)
    (0, [])

/-- `validator.ts` — `validateTsdfBudget` (rule `total-tsdf-budget`). -/
def validateTsdfBudgetP (n : NetworkDeclaration) : List Diagnostic :=
  let s := tsdfScan n.nets
  if s.1 > 100 then
    [{ message := "Total TSDF across all nets is " ++ jsNumStr s.1 ++
         "%, which exceeds the 100% budget. Nets: " ++
         joinComma (s.2.map (fun e => e.1 ++ " (" ++ jsNumStr e.2 ++ "%)")) ++ ".",
       severity := .error, span := n.span, rule := some "total-tsdf-budget",
       specRef := some "MIL-STD-6016 §4.3.2" }]
  else if s.1 > 90 then
    [{ message := "Total TSDF is " ++ jsNumStr s.1 ++
         "%, which is close to the 100% budget limit. Consider reducing to allow for future expansion.",
       severity := .warning, span := n.span, rule := some "total-tsdf-budget",
       specRef := some "MIL-STD-6016 §4.3.2" }]
  else []

/-- `validator.ts` — the inner `some` of `validateNpgSubscriberCoverage`:
does some *other* terminal (by name) subscribe to the NPG? -/
def hasSubscriber (terminals : List TerminalDeclaration) (tname npgId : String) :
    Bool :=
  terminals.any (fun other =>
    if other.name == tname then false
    else
      match findProp other.properties "subscribes" with
      | some p =>
        match p.value with
        | .array xs => xs.contains npgId
        | _ => false
      | none => false)

/-- `validator.ts` — `validateNpgSubscriberCoverage`
(rule `npg-subscriber-coverage`). -/
def validateNpgSubscriberCoverageP (n : NetworkDeclaration) : List Diagnostic :=
  n.terminals.flatMap (fun t =>
    match findProp t.properties "transmits" with
    | some tp =>
      match tp.value with
      | .array npgs =>
        npgs.flatMap (fun npgId =>
          if hasSubscriber n.terminals t.name npgId then []
          else
            [{ message := "Terminal '" ++ t.name ++ "' transmits on " ++ npgId ++
                 " but no other terminal subscribes to it. Messages will have no recipients.",
               severity := .warning, span := tp.span,
               rule := some "npg-subscriber-coverage",
               specRef := some "MIL-STD-6016 §5.1.4" }])
      | _ => []
    | none => [])

/-- `validator.ts` — `validatePpliRequired` (rule `ppli-required`). -/
def validatePpliRequiredP (n : NetworkDeclaration) : List Diagnostic :=
  n.terminals.flatMap (fun t =>
    match findProp t.properties "subscribes" with
    | some p =>
      match p.value with
      | .array xs =>
        if xs.contains "NPG_A" || xs.contains "NPG_B" then []
        else
          [{ message := "Terminal '" ++ t.name ++
               "' does not subscribe to NPG_A or NPG_B. All terminals should have a PPLI-capable NPG for position reporting.",
             severity := .warning, span := t.span, rule := some "ppli-required",
             specRef := some "MIL-STD-6016 §3.3.1" }]
      | _ => []
    | none => [])

/-- `validator.ts` — `validateMessageNpgMatch` (rule `message-npg-match`). -/
def validateMessageNpgMatchP (n : NetworkDeclaration) : List Diagnostic :=
  match n.messages with
  | none => []
  | some catalog =>
    catalog.entries.flatMap (fun entry =>
      match findProp entry.properties "npg" with
      | some np =>
        match np.value with
        | .identifier npgId =>
          match findJMessage entry.messageId with
          | some msgDef =>
            if msgDef.validNPGs.contains npgId then []
            else
              [{ message := "Message " ++ entry.messageId ++ " (" ++ msgDef.name ++
                   ") is assigned to " ++ npgId ++ ", but it is only valid on: " ++
                   joinComma msgDef.validNPGs ++ ".",
                 severity := .error, span := entry.span,
                 rule := some "message-npg-match", specRef := some msgDef.specRef }]
          | none => []
        | _ => []
      | none => [])

/-- `validator.ts` — `validateStackingConsistency`
(rule `stacking-consistency`). -/
def validateStackingConsistencyP (n : NetworkDeclaration) : List Diagnostic :=
  n.nets.flatMap (fun net =>
    let stackedProp := findProp net.properties "stacked"
    let stackingLevelProp := findProp net.properties "stacking_level"
    let part1 : List Diagnostic :=
      match stackedProp with
      | some sp =>
        match sp.value with
        | .boolean true =>
          match stackingLevelProp with
          | none =>
            [{ message := "Net '" ++ net.name ++
                 "' has stacked: true but no stacking_level specified. Must be 2 or 4.",
               severity := .error, span := net.span,
               rule := some "stacking-consistency",
               specRef := some "MIL-STD-6016 §4.4.1" }]
          | some lp =>
            match lp.value with
            | .number level =>
              if level ≠ 2 ∧ level ≠ 4 then
                [{ message := "Net '" ++ net.name ++ "' stacking_level is " ++
                     jsNumStr level ++ ". Must be 2 or 4.",
                   severity := .error, span := lp.span,
                   rule := some "stacking-consistency",
                   specRef := some "MIL-STD-6016 §4.4.1" }]
              else []
            | _ => []
        | _ => []
      | none => []
    let stackedFalsy : Bool :=
      match stackedProp with
      | none => true
      | some sp =>
        match sp.value with
        | .boolean b => !b
        | _ => false
    let part2 : List Diagnostic :=
      match stackingLevelProp with
      | some lp =>
        if stackedFalsy then
          [{ message := "Net '" ++ net.name ++
               "' has stacking_level but stacked is not true.",
             severity := .warning, span := lp.span,
             rule := some "stacking-consistency",
             specRef := some "MIL-STD-6016 §4.4.1" }]
        else []
      | none => []
    part1 ++ part2)

/-- `validator.ts` — `validateNpgReferences` (rule `valid-npg-reference`);
the terminal loop walks *all* properties keyed `subscribes`/`transmits`,
the net loop only the first `npg` property. -/
def validateNpgReferencesP (n : NetworkDeclaration) : List Diagnostic :=
  (n.terminals.flatMap (fun t =>
    t.properties.flatMap (fun p =>
      if (p.key == "subscribes" || p.key == "transmits") then
        match p.value with
        | .array xs =>
          xs.flatMap (fun npgId =>
            if allNPGIds.contains npgId then []
            else
              [{ message := "Unknown NPG '" ++ npgId ++ "'. Valid NPGs: " ++
                   joinComma allNPGIds ++ ".",
                 severity := .error, span := p.span,
                 rule := some "valid-npg-reference" }])
        | _ => []
      else []))) ++
  (n.nets.flatMap (fun net =>
    match findProp net.properties "npg" with
    | some p =>
      match p.value with
      | .identifier npgId =>
        if allNPGIds.contains npgId then []
        else
          [{ message := "Unknown NPG '" ++ npgId ++ "' in net '" ++ net.name ++ "'.",
             severity := .error, span := p.span,
             rule := some "valid-npg-reference" }]
      | _ => []
    | none => []))

/-- `validator.ts` — `validateJMessageReferences`
(rule `valid-j-message-reference`). -/
def validateJMessageReferencesP (n : NetworkDeclaration) : List Diagnostic :=
  match n.messages with
  | none => []
  | some catalog =>
    catalog.entries.flatMap (fun entry =>
      if allJMessageIds.contains entry.messageId then []
      else
        [{ message := "Unknown J-message '" ++ entry.messageId ++
             "'. Check the message identifier.",
           severity := .error, span := entry.span,
           rule := some "valid-j-message-reference" }])

/-- `validator.ts` — `validateParticipantReferences`
(rule `participant-reference`); `terminalNames` is a JS `Set`, hence the
de-duplicated name list in the message. -/
def validateParticipantReferencesP (n : NetworkDeclaration) : List Diagnostic :=
  let terminalNames := n.terminals.map (fun t => t.name)
  n.nets.flatMap (fun net =>
    match findProp net.properties "participants" with
    | some p =>
      match p.value with
      | .array names =>
        names.flatMap (fun name =>
          if terminalNames.contains name then []
          else
            [{ message := "Unknown terminal '" ++ name ++ "' in net '" ++
                 net.name ++ "' participants. Defined terminals: " ++
                 joinComma (jsSetList terminalNames) ++ ".",
               severity := .error, span := p.span,
               rule := some "participant-reference" }])
      | _ => []
    | none => [])

/-- `validator.ts` — the loop of `validateTrackNumberUniqueness`, with the
JS `Map` as an association list and the JS truthiness test on the stored
name (`if (existing)`). -/
def trackUniqGo (m : List (Rat × String)) :
    List TerminalDeclaration → List Diagnostic
  | [] => []
  | t :: ts =>
    match findProp t.properties "track_number" with
    | some p =>
      match p.value with
      | .number tn =>
        match assocGet m tn with
        | some existing =>
          if existing ≠ "" then
            { message := "Duplicate track number " ++ jsNumStr tn ++
                ". Also used by terminal '" ++ existing ++ "'.",
              severity := .error, span := p.span,
              rule := some "track-number-uniqueness" } :: trackUniqGo m ts
          else trackUniqGo (assocSet m tn t.name) ts
        | none => trackUniqGo (assocSet m tn t.name) ts
      | _ => trackUniqGo m ts
    | none => trackUniqGo m ts

/-- `validator.ts` — `validateTrackNumberUniqueness`
(rule `track-number-uniqueness`). -/
def validateTrackNumberUniquenessP (n : NetworkDeclaration) : List Diagnostic :=
  trackUniqGo [] n.terminals

/-- `validator.ts` — the loop of `validateNetNumberUniqueness`. -/
def netUniqGo (m : List (Rat × String)) :
    List NetDeclaration → List Diagnostic
  | [] => []
  | net :: ns =>
    match findProp net.properties "net_number" with
    | some p =>
      match p.value with
      | .number nn =>
        match assocGet m nn with
        | some existing =>
          if existing ≠ "" then
            { message := "Duplicate net number " ++ jsNumStr nn ++
                ". Also used by net '" ++ existing ++ "'.",
              severity := .error, span := p.span,
              rule := some "net-number-uniqueness" } :: netUniqGo m ns
          else netUniqGo (assocSet m nn net.name) ns
        | none => netUniqGo (assocSet m nn net.name) ns
      | _ => netUniqGo m ns
    | none => netUniqGo m ns

/-- `validator.ts` — `validateNetNumberUniqueness`
(rule `net-number-uniqueness`). -/
def validateNetNumberUniquenessP (n : NetworkDeclaration) : List Diagnostic :=
  netUniqGo [] n.nets

/-- `validator.ts` — `validateClassification` (rule `valid-classification`). -/
def validateClassificationP (n : NetworkDeclaration) : List Diagnostic :=
  match findProp n.properties "classification" with
  | some p =>
    match p.value with
    | .identifier v =>
      if VALID_CLASSIFICATION_IDS.contains v then []
      else
        [{ message := "Invalid classification '" ++ v ++ "'. Expected one of: " ++
             joinComma VALID_CLASSIFICATION_IDS ++ ".",
           severity := .error, span := p.span,
           rule := some "valid-classification" }]
    | _ => []
  | none => []

/-- `validator.ts` — `validateLink16TerminalProperties`: per terminal, the
`valid-role`, `valid-platform-type`, `valid-track-number` checks, then the
missing-role `required-property` warning, in source order. -/
def validateLink16TerminalPropertiesP (n : NetworkDeclaration) :
    List Diagnostic :=
  n.terminals.flatMap (fun t =>
    let roleProp := findProp t.properties "role"
    let rolePart : List Diagnostic :=
      match roleProp with
      | some p =>
        match p.value with
        | .identifier v =>
          if VALID_LINK16_ROLE_IDS.contains v then []
          else
            [{ message := "Invalid Link 16 role '" ++ v ++ "'. Expected one of: " ++
                 joinComma VALID_LINK16_ROLE_IDS ++ ".",
               severity := .error, span := p.span, rule := some "valid-role",
               specRef := some "MIL-STD-6016 §3.2" }]
        | _ => []
      | none => []
    let platPart : List Diagnostic :=
      match findProp t.properties "platform_type" with
      | some p =>
        match p.value with
        | .identifier v =>
          if VALID_PLATFORM_TYPE_IDS.contains v then []
          else
            [{ message := "Unknown platform type '" ++ v ++
                 "'. Check the identifier against known platform types.",
               severity := .warning, span := p.span,
               rule := some "valid-platform-type" }]
        | _ => []
      | none => []
    let trackPart : List Diagnostic :=
      match findProp t.properties "track_number" with
      | some p =>
        match p.value with
        | .number tn =>
          if tn < 0 ∨ tn > 77777 then
            [{ message := "Track number " ++ jsNumStr tn ++
                 " is out of range. Must be between 00000 and 77777 (octal).",
               severity := .error, span := p.span,
               rule := some "valid-track-number",
               specRef := some "MIL-STD-6016 §3.4.1" }]
          else []
        | _ => []
      | none => []
    let noRolePart : List Diagnostic :=
      match roleProp with
      | some _ => []
      | none =>
        [{ message := "Terminal '" ++ t.name ++
             "' has no role specified. Expected one of: " ++
             joinComma VALID_LINK16_ROLE_IDS ++ ".",
           severity := .warning, span := t.span,
           rule := some "required-property" }]
    rolePart ++ platPart ++ trackPart ++ noRolePart)

/-- `validator.ts` — `validateLink16NetProperties`: per net, the
`valid-net-number` and `valid-tsdf` range checks, then the missing
`net_number` `required-property` warning. -/
def validateLink16NetPropertiesP (n : NetworkDeclaration) : List Diagnostic :=
  n.nets.flatMap (fun net =>
    let nnProp := findProp net.properties "net_number"
    let nnPart : List Diagnostic :=
      match nnProp with
      | some p =>
        match p.value with
        | .number v =>
          if v < 0 ∨ v > 127 then
            [{ message := "Net number " ++ jsNumStr v ++
                 " is out of range. Must be between 0 and 127.",
               severity := .error, span := p.span,
               rule := some "valid-net-number",
               specRef := some "MIL-STD-6016 §4.2.1" }]
          else []
        | _ => []
      | none => []
    let tsdfPart : List Diagnostic :=
      match findProp net.properties "tsdf" with
      | some p =>
        match p.value with
        | .percent v =>
          if v < 0 ∨ v > 100 then
            [{ message := "TSDF " ++ jsNumStr v ++
                 "% is out of range. Must be between 0% and 100%.",
               severity := .error, span := p.span, rule := some "valid-tsdf",
               specRef := some "MIL-STD-6016 §4.3.2" }]
          else []
        | _ => []
      | none => []
    let noNnPart : List Diagnostic :=
      match nnProp with
      | some _ => []
      | none =>
        [{ message := "Net '" ++ net.name ++ "' has no net_number specified.",
           severity := .warning, span := net.span,
           rule := some "required-property" }]
    nnPart ++ tsdfPart ++ noNnPart)

/-- `validator.ts` — the `link22-forwarding` loop of `validateLink22Network`. -/
def link22ForwardingP (n : NetworkDeclaration) : List Diagnostic :=
  n.subnetworks.flatMap (fun sub =>
    let membersWithForwarding := sub.members.filter
      (fun m => getPropertyValue m.properties "forwarding" == some "enabled")
    if sub.members.length > 0 ∧ membersWithForwarding.length = 0 then
      [{ message := "Subnetwork '" ++ sub.name ++
           "' has no member with forwarding enabled. At least one member must have forwarding: enabled.",
         severity := .error, span := sub.span, rule := some "link22-forwarding",
         specRef := some "STANAG 5522 §6.2" }]
    else [])

/-- `validator.ts` — the `link22-controller-required` loop of
`validateLink22Network`. -/
def link22ControllerRequiredP (n : NetworkDeclaration) : List Diagnostic :=
  n.subnetworks.flatMap (fun sub =>
    let controllers := sub.members.filter
      (fun m => getPropertyValue m.properties "role" == some "Controller")
    if controllers.length = 0 then
      [{ message := "Subnetwork '" ++ sub.name ++
           "' has no Controller. At least one member must have role: Controller.",
         severity := .error, span := sub.span,
         rule := some "link22-controller-required",
         specRef := some "STANAG 5522 §4.2" }]
    else [])

/-- `validator.ts` — `validateLink22SubnetworkProperties`: per subnetwork
the `valid-operating-mode` and `valid-data-rate` checks, then per member
`valid-role`, `valid-unit-id`, `valid-forwarding` and the two
`required-property` warnings, in source order. -/
def validateLink22SubnetworkPropertiesP (n : NetworkDeclaration) :
    List Diagnostic :=
  n.subnetworks.flatMap (fun sub =>
    let modePart : List Diagnostic :=
      match findProp sub.properties "operating_mode" with
      | some p =>
        match p.value with
        | .identifier v =>
          if VALID_LINK22_OPERATING_MODE_IDS.contains v then []
          else
            [{ message := "Invalid operating mode '" ++ v ++
                 "'. Expected one of: " ++
                 joinComma VALID_LINK22_OPERATING_MODE_IDS ++ ".",
               severity := .error, span := p.span,
               rule := some "valid-operating-mode",
               specRef := some "STANAG 5522 §5.2" }]
        | _ => []
      | none => []
    let ratePart : List Diagnostic :=
      match findProp sub.properties "data_rate" with
      | some p =>
        match p.value with
        | .identifier v =>
          if VALID_LINK22_DATA_RATE_IDS.contains v then []
          else
            [{ message := "Invalid data rate '" ++ v ++ "'. Expected one of: " ++
                 joinComma VALID_LINK22_DATA_RATE_IDS ++ ".",
               severity := .error, span := p.span, rule := some "valid-data-rate",
               specRef := some "STANAG 5522 §6.1" }]
        | _ => []
      | none => []
    let memberParts : List Diagnostic :=
      sub.members.flatMap (fun mem =>
        let roleProp := findProp mem.properties "role"
        let rolePart : List Diagnostic :=
          match roleProp with
          | some p =>
            match p.value with
            | .identifier v =>
              if VALID_LINK22_ROLE_IDS.contains v then []
              else
                [{ message := "Invalid Link 22 role '" ++ v ++
                     "'. Expected one of: " ++
                     joinComma VALID_LINK22_ROLE_IDS ++ ".",
                   severity := .error, span := p.span, rule := some "valid-role",
                   specRef := some "STANAG 5522 §4.2" }]
            | _ => []
          | none => []
        let uidProp := findProp mem.properties "unit_id"
        let uidPart : List Diagnostic :=
          match uidProp with
          | some p =>
            match p.value with
            | .hex _ => []
            | v =>
              [{ message := "unit_id must be a hex value (e.g. 0x1A3F), got " ++
                   v.typeName ++ ".",
                 severity := .error, span := p.span, rule := some "valid-unit-id",
                 specRef := some "STANAG 5522 §4.1" }]
          | none => []
        let fwdPart : List Diagnostic :=
          match findProp mem.properties "forwarding" with
          | some p =>
            match p.value with
            | .identifier v =>
              if v ≠ "enabled" ∧ v ≠ "disabled" then
                [{ message := "Invalid forwarding value '" ++ v ++
                     "'. Expected 'enabled' or 'disabled'.",
                   severity := .error, span := p.span,
                   rule := some "valid-forwarding",
                   specRef := some "STANAG 5522 §6.2" }]
              else []
            | _ => []
          | none => []
        let noRolePart : List Diagnostic :=
          match roleProp with
          | some _ => []
          | none =>
            [{ message := "Member '" ++ mem.name ++
                 "' has no role specified. Expected one of: " ++
                 joinComma VALID_LINK22_ROLE_IDS ++ ".",
               severity := .warning, span := mem.span,
               rule := some "required-property" }]
        let noUidPart : List Diagnostic :=
          match uidProp with
          | some _ => []
          | none =>
            [{ message := "Member '" ++ mem.name ++
                 "' has no unit_id specified. A hex unit identifier is required.",
               severity := .warning, span := mem.span,
               rule := some "required-property",
               specRef := some "STANAG 5522 §4.1" }]
        rolePart ++ uidPart ++ fwdPart ++ noRolePart ++ noUidPart)
    modePart ++ ratePart ++ memberParts)

/-- `validator.ts` — the loop of `validateLink22UnitIdUniqueness`: the JS
`Map` keyed by the lower-cased hex lexeme; on a hit the guard is
`existing && existing !== member.name` (push, no insertion), otherwise the
member is recorded. -/
def uidUniqGo (m : List (String × String)) :
    List MemberDeclaration → List Diagnostic
  | [] => []
  | mem :: rest =>
    match findProp mem.properties "unit_id" with
    | some p =>
      match p.value with
      | .hex v =>
        let uid := jsToLower v
        match assocGet m uid with
        | some existing =>
          if existing ≠ "" ∧ existing ≠ mem.name then
            { message := "Duplicate unit_id " ++ v ++ ". Also used by member '" ++
                existing ++ "'.",
              severity := .warning, span := p.span,
              rule := some "unit-id-uniqueness",
              specRef := some "STANAG 5522 §4.1" } :: uidUniqGo m rest
          else uidUniqGo (assocSet m uid mem.name) rest
        | none => uidUniqGo (assocSet m uid mem.name) rest
      | _ => uidUniqGo m rest
    | none => uidUniqGo m rest

/-- `validator.ts` — `validateLink22UnitIdUniqueness`
(rule `unit-id-uniqueness`); the nested subnetwork/member loops share one
map, so they are the single loop over the concatenated member lists. -/
def validateLink22UnitIdUniquenessP (n : NetworkDeclaration) :
    List Diagnostic :=
  uidUniqGo [] (n.subnetworks.flatMap (fun sub => sub.members))

/-- `validator.ts` — `validateLink16Network`: the Link-16 rule suite in
call order. -/
def validateLink16NetworkP (n : NetworkDeclaration) : List Diagnostic :=
  ncsRequiredP n ++ validateTsdfBudgetP n ++ validateNpgSubscriberCoverageP n ++
  validatePpliRequiredP n ++ validateMessageNpgMatchP n ++
  validateStackingConsistencyP n ++ validateNpgReferencesP n ++
  validateJMessageReferencesP n ++ validateParticipantReferencesP n ++
  validateLink16TerminalPropertiesP n ++ validateLink16NetPropertiesP n ++
  validateClassificationP n

/-- `validator.ts` — `validateLink22Network`: the Link-22 rule suite in
call order. -/
def validateLink22NetworkP (n : NetworkDeclaration) : List Diagnostic :=
  link22ForwardingP n ++ link22ControllerRequiredP n ++
  validateLink22SubnetworkPropertiesP n ++ validateClassificationP n ++
  validateLink22UnitIdUniquenessP n

/-- Span of the first `link` property (`network.properties.find(...)!.span`);
the non-null assertion is sound at its use site, where `getPropertyValue`
returned a value, so a fallback span stands in for the impossible case. -/
def linkPropSpan (n : NetworkDeclaration) : SourceSpan :=
  match findProp n.properties "link" with
  | some p => p.span
  | none => ⟨1, 1, 0, 0⟩

/-- `validator.ts` — the `link` dispatch at the top of `validateNetwork`:
`Link16`/`Link22` run their suites; any other *truthy* value is a
`valid-link-type` error; an absent, non-identifier/string, or empty-string
value does nothing. -/
def linkDispatchP (n : NetworkDeclaration) : List Diagnostic :=
  match getPropertyValue n.properties "link" with
  | some s =>
    if s = "Link16" then validateLink16NetworkP n
    else if s = "Link22" then validateLink22NetworkP n
    else if s ≠ "" then
      [{ message := "Unknown link type '" ++ s ++
           "'. Expected 'Link16' or 'Link22'.",
         severity := .error, span := linkPropSpan n,
         rule := some "valid-link-type" }]
    else []
  | none => []

/-- `validator.ts` — `validateNetwork`, with the shared `diag` array
threaded exactly as the source pushes into it: link dispatch, then
`validateTrackNumberUniqueness`, then `validateNetNumberUniqueness`. -/
def validateNetwork (n : NetworkDeclaration) (diag : List Diagnostic) :
    List Diagnostic :=
  let diag := diag ++ linkDispatchP n
  let diag := diag ++ validateTrackNumberUniquenessP n
  diag ++ validateNetNumberUniquenessP n

/-- `validator.ts` — `validate`: one pass over the document's networks,
pushing into a single diagnostics array. -/
def validate (doc : DocumentNode) : List Diagnostic :=
  doc.networks.foldl (fun diagnostics network => validateNetwork network diagnostics) []

/-- The per-network diagnostics: the concatenation the threading of
`validateNetwork` produces. -/
def validateNetworkP (n : NetworkDeclaration) : List Diagnostic :=
  linkDispatchP n ++ validateTrackNumberUniquenessP n ++
  validateNetNumberUniquenessP n

/-! ## Theorems -/

/-- Extraction of an identifier/string property value (the test
`prop.value.type === 'identifier' || prop.value.type === 'string'`). -/
def identOrString : PropertyValue → Option String
  | .identifier v => some v
  | .string v => some v
  | _ => none

/-- The property lookup as the spec's words describe it: the first property
whose key matches **and** whose value is an identifier or string.  Stated
for comparison with `getPropertyValue`, which is translated from the
source. -/
def getPropertyValueSpec (properties : List PropertyAssignment) (key : String) :
    Option String :=
  (properties.find? (fun p => p.key == key && (identOrString p.value).isSome)).bind
    (fun p => identOrString p.value)

/-- A span used by the concrete example documents below. -/
def sp (o : Int) : SourceSpan := ⟨1, 1 + o, o, 1⟩

/-- C4, counterexample: with a `number`-valued `k` property before an
`identifier`-valued one, the source's lookup stops at the first matching
key and returns `none`, while the claimed lookup skips it and returns the
identifier. -/
theorem getPropertyValue_not_skipping :
    getPropertyValue
      [⟨"k", .number 5, sp 0⟩, ⟨"k", .identifier "x", sp 1⟩] "k" = none ∧
    getPropertyValueSpec
      [⟨"k", .number 5, sp 0⟩, ⟨"k", .identifier "x", sp 1⟩] "k" = some "x" := by
  constructor <;> rfl

/-- C4, amended: `getPropertyValue` is decided by the *first* property whose
key matches, regardless of its value's variant: it returns `some v` exactly
when the list splits as `l₁ ++ p :: l₂` with no key match in `l₁`, `p`
matching, and `p`'s value an identifier or string carrying `v`; it returns
`none` exactly when no key matches at all or the first match carries
another variant. -/
theorem getPropertyValue_first_match_decides
    (props : List PropertyAssignment) (key : String) :
    (∀ v, getPropertyValue props key = some v ↔
      ∃ l₁ p l₂, props = l₁ ++ p :: l₂ ∧ (∀ q ∈ l₁, q.key ≠ key) ∧
        p.key = key ∧ identOrString p.value = some v) ∧
    (getPropertyValue props key = none ↔
      (∀ q ∈ props, q.key ≠ key) ∨
      ∃ l₁ p l₂, props = l₁ ++ p :: l₂ ∧ (∀ q ∈ l₁, q.key ≠ key) ∧
        p.key = key ∧ identOrString p.value = none) := by
  induction props with
  | nil =>
    constructor
    · intro v
      constructor
      · intro h
        simp [getPropertyValue] at h
      · rintro ⟨l₁, p, l₂, h, -, -, -⟩
        exact absurd h (by simp)
    · constructor
      · intro _
        left
        simp
      · intro _
        rfl
  | cons q props ih =>
    by_cases hq : q.key = key
    · constructor
      · intro v
        constructor
        · intro h
          refine ⟨[], q, props, by simp, by simp, hq, ?_⟩
          simpa [getPropertyValue, hq] using h
        · rintro ⟨l₁, p, l₂, hsplit, hnone, hkey, hval⟩
          match l₁, hsplit with
          | [], hsplit =>
            cases List.cons.injEq .. ▸ hsplit |>.1
            simpa [getPropertyValue, hq] using hval
          | r :: l₁, hsplit =>
            have : r = q := (List.cons.injEq .. ▸ hsplit).1.symm
            exact absurd (this ▸ hq) (hnone r (by simp))
      · constructor
        · intro h
          right
          refine ⟨[], q, props, by simp, by simp, hq, ?_⟩
          simpa [getPropertyValue, hq] using h
        · rintro (hall | ⟨l₁, p, l₂, hsplit, hnone, hkey, hval⟩)
          · exact absurd hq (hall q (by simp))
          · match l₁, hsplit with
            | [], hsplit =>
              cases List.cons.injEq .. ▸ hsplit |>.1
              simpa [getPropertyValue, hq] using hval
            | r :: l₁, hsplit =>
              have : r = q := (List.cons.injEq .. ▸ hsplit).1.symm
              exact absurd (this ▸ hq) (hnone r (by simp))
    · have step : getPropertyValue (q :: props) key = getPropertyValue props key := by
        simp [getPropertyValue, hq]
      constructor
      · intro v
        rw [step, (ih.1 v)]
        constructor
        · rintro ⟨l₁, p, l₂, hsplit, hnone, hkey, hval⟩
          refine ⟨q :: l₁, p, l₂, by simp [hsplit], ?_, hkey, hval⟩
          intro r hr
          rcases List.mem_cons.mp hr with h | h
          · exact h ▸ hq
          · exact hnone r h
        · rintro ⟨l₁, p, l₂, hsplit, hnone, hkey, hval⟩
          match l₁, hsplit with
          | [], hsplit =>
            have : p = q := (List.cons.injEq .. ▸ hsplit).1.symm
            exact absurd (this ▸ hkey) hq
          | r :: l₁, hsplit =>
            have h1 : props = l₁ ++ p :: l₂ := (List.cons.injEq .. ▸ hsplit).2
            exact ⟨l₁, p, l₂, h1, fun s hs => hnone s (by simp [hs]), hkey, hval⟩
      · rw [step, ih.2]
        constructor
        · rintro (hall | ⟨l₁, p, l₂, hsplit, hnone, hkey, hval⟩)
          · left
            intro r hr
            rcases List.mem_cons.mp hr with h | h
            · exact h ▸ hq
            · exact hall r h
          · right
            refine ⟨q :: l₁, p, l₂, by simp [hsplit], ?_, hkey, hval⟩
            intro r hr
            rcases List.mem_cons.mp hr with h | h
            · exact h ▸ hq
            · exact hnone r h
        · rintro (hall | ⟨l₁, p, l₂, hsplit, hnone, hkey, hval⟩)
          · left
            exact fun r hr => hall r (by simp [hr])
          · match l₁, hsplit with
            | [], hsplit =>
              have : p = q := (List.cons.injEq .. ▸ hsplit).1.symm
              exact absurd (this ▸ hkey) hq
            | r :: l₁, hsplit =>
              have h1 : props = l₁ ++ p :: l₂ := (List.cons.injEq .. ▸ hsplit).2
              exact Or.inr ⟨l₁, p, l₂, h1, fun s hs => hnone s (by simp [hs]), hkey, hval⟩

/-! ### C10 — unit-id uniqueness and letter case -/

/-- A diagnostic without its message text. -/
def dropMsg (d : Diagnostic) :
    Severity × SourceSpan × Option String × Option String :=
  (d.severity, d.span, d.rule, d.specRef)

/-- What `validateLink22UnitIdUniqueness` actually keys on, member by
member: the member name, the *lower-cased* hex lexeme of its first
`unit_id` property, and that property's span.  Members whose first
`unit_id` property is missing or not hex-valued contribute nothing. -/
def memTrace (members : List MemberDeclaration) :
    List (String × String × SourceSpan) :=
  members.filterMap (fun mem =>
    match findProp mem.properties "unit_id" with
    | some p =>
      match p.value with
      | .hex v => some (mem.name, jsToLower v, p.span)
      | _ => none
    | none => none)

/-- `memTrace` of a whole network (subnetwork member lists concatenated in
order, as the validator's nested loops visit them). -/
def uidTrace (n : NetworkDeclaration) : List (String × String × SourceSpan) :=
  memTrace (n.subnetworks.flatMap (fun sub => sub.members))

/-- `uidUniqGo` replayed on a trace, producing message-less diagnostics. -/
def uidProjGo (m : List (String × String)) :
    List (String × String × SourceSpan) →
      List (Severity × SourceSpan × Option String × Option String)
  | [] => []
  | (name, uid, span) :: rest =>
    match assocGet m uid with
    | some existing =>
      if existing ≠ "" ∧ existing ≠ name then
        (Severity.warning, span, some "unit-id-uniqueness",
          some "STANAG 5522 §4.1") :: uidProjGo m rest
      else uidProjGo (assocSet m uid name) rest
    | none => uidProjGo (assocSet m uid name) rest

/-- Modulo message text, `uidUniqGo` is a function of the trace alone. -/
theorem uidUniqGo_proj (members : List MemberDeclaration)
    (m : List (String × String)) :
    (uidUniqGo m members).map dropMsg = uidProjGo m (memTrace members) := by
  induction members generalizing m with
  | nil => rfl
  | cons mem rest ih =>
    cases hf : findProp mem.properties "unit_id" with
    | none =>
      simp only [uidUniqGo, memTrace, List.filterMap_cons, hf]
      exact ih m
    | some p =>
      cases hv : p.value with
      | hex v =>
        simp only [uidUniqGo, memTrace, List.filterMap_cons, hf, hv]
        rw [uidProjGo]
        cases hg : assocGet m (jsToLower v) with
        | none =>
          simp only [hg]
          exact ih _
        | some existing =>
          simp only [hg]
          by_cases hguard : existing ≠ "" ∧ existing ≠ mem.name
          · rw [if_pos hguard, if_pos hguard, List.map_cons]
            exact congrArg _ (ih m)
          · rw [if_neg hguard, if_neg hguard]
            exact ih _
      | string v =>
        simp only [uidUniqGo, memTrace, List.filterMap_cons, hf, hv]
        exact ih m
      | number v =>
        simp only [uidUniqGo, memTrace, List.filterMap_cons, hf, hv]
        exact ih m
      | percent v =>
        simp only [uidUniqGo, memTrace, List.filterMap_cons, hf, hv]
        exact ih m
      | duration v =>
        simp only [uidUniqGo, memTrace, List.filterMap_cons, hf, hv]
        exact ih m
      | boolean v =>
        simp only [uidUniqGo, memTrace, List.filterMap_cons, hf, hv]
        exact ih m
      | identifier v =>
        simp only [uidUniqGo, memTrace, List.filterMap_cons, hf, hv]
        exact ih m
      | array v =>
        simp only [uidUniqGo, memTrace, List.filterMap_cons, hf, hv]
        exact ih m

/-- The Link-22 fixture for the C10 counterexample: one subnetwork with
members `A` and `B`, `B`'s `unit_id` hex lexeme given by the argument. -/
def l22net (uid : String) : NetworkDeclaration :=
  { name := "X"
    properties := [⟨"link", .identifier "Link22", sp 2⟩]
    terminals := []
    nets := []
    subnetworks :=
      [⟨"S", [],
        [⟨"A", [⟨"unit_id", .hex "0x1A3F", sp 0⟩], sp 10⟩,
         ⟨"B", [⟨"unit_id", .hex uid, sp 1⟩], sp 11⟩], sp 12⟩]
    messages := none
    filters := none
    span := sp 13 }

/-- C10, counterexample: replacing member `B`'s `unit_id` `0x1A3F` by the
case-variant `0x1a3f` changes the emitted `unit-id-uniqueness`
diagnostics, because the duplicate warning's message cites the raw
lexeme.  (Both variants do fire the warning — see the amended theorem.) -/
theorem unitIdUniqueness_not_literally_case_invariant :
    validateLink22UnitIdUniquenessP (l22net "0x1A3F") ≠
      validateLink22UnitIdUniquenessP (l22net "0x1a3f") := by
  decide

/-- C10, amended: the `unit-id-uniqueness` diagnostics are case-insensitive
in the `unit_id` lexemes *up to message text*: (i) any two networks whose
members present the same name/lower-cased-unit-id/span trace — in
particular, networks differing only in unit-id letter case — emit the same
warnings at the same spans with the same severity, rule and spec-ref; and
(ii) two differently-named members whose unit ids agree modulo case are
warned as duplicates on the second member's `unit_id` span. -/
theorem unitIdUniqueness_case_insensitive :
    (∀ n₁ n₂ : NetworkDeclaration, uidTrace n₁ = uidTrace n₂ →
      (validateLink22UnitIdUniquenessP n₁).map dropMsg =
        (validateLink22UnitIdUniquenessP n₂).map dropMsg) ∧
    (∀ (n : NetworkDeclaration) (a b u : String) (s₁ s₂ : SourceSpan),
      uidTrace n = [(a, u, s₁), (b, u, s₂)] → a ≠ "" → a ≠ b →
      (validateLink22UnitIdUniquenessP n).map dropMsg =
        [(Severity.warning, s₂, some "unit-id-uniqueness",
          some "STANAG 5522 §4.1")]) := by
  constructor
  · intro n₁ n₂ h
    rw [validateLink22UnitIdUniquenessP, validateLink22UnitIdUniquenessP,
      uidUniqGo_proj, uidUniqGo_proj]
    exact congrArg _ h
  · intro n a b u s₁ s₂ h ha hab
    rw [validateLink22UnitIdUniquenessP, uidUniqGo_proj]
    show uidProjGo [] (uidTrace n) = _
    rw [h]
    show uidProjGo [(u, a)] [(b, u, s₂)] = _
    have hget : assocGet [(u, a)] u = some a := by
      simp [assocGet, List.find?]
    simp only [uidProjGo, hget]
    have : a ≠ "" ∧ a ≠ b := ⟨ha, hab⟩
    rw [if_pos this]

/-! ### Rule codes emitted by each rule function -/

/-- Every `ncs-required` diagnostic carries that rule code. -/
theorem rules_ncsRequired {n : NetworkDeclaration} {d : Diagnostic}
    (hd : d ∈ ncsRequiredP n) : d.rule = some "ncs-required" := by
  simp only [ncsRequiredP] at hd
  split at hd
  · simp_all
  · obtain ⟨x, -, rfl⟩ := List.mem_map.mp hd
    rfl

/-- Every `total-tsdf-budget` diagnostic carries that rule code. -/
theorem rules_tsdfBudget {n : NetworkDeclaration} {d : Diagnostic}
    (hd : d ∈ validateTsdfBudgetP n) : d.rule = some "total-tsdf-budget" := by
  simp only [validateTsdfBudgetP] at hd
  split at hd
  · simp_all
  · split at hd <;> simp_all

/-- Rule code of `npg-subscriber-coverage` diagnostics. -/
theorem rules_npgSubscriberCoverage {n : NetworkDeclaration} {d : Diagnostic}
    (hd : d ∈ validateNpgSubscriberCoverageP n) :
    d.rule = some "npg-subscriber-coverage" := by
  simp only [validateNpgSubscriberCoverageP, List.mem_flatMap] at hd
  obtain ⟨t, -, hd⟩ := hd
  split at hd
  · split at hd
    · obtain ⟨x, -, hd⟩ := List.mem_flatMap.mp hd
      split at hd <;> simp_all
    all_goals simp_all
  · simp_all

/-- Rule code of `ppli-required` diagnostics. -/
theorem rules_ppliRequired {n : NetworkDeclaration} {d : Diagnostic}
    (hd : d ∈ validatePpliRequiredP n) : d.rule = some "ppli-required" := by
  simp only [validatePpliRequiredP, List.mem_flatMap] at hd
  obtain ⟨t, -, hd⟩ := hd
  split at hd
  · split at hd
    · split at hd <;> simp_all
    all_goals simp_all
  · simp_all

/-- Rule code of `message-npg-match` diagnostics. -/
theorem rules_messageNpgMatch {n : NetworkDeclaration} {d : Diagnostic}
    (hd : d ∈ validateMessageNpgMatchP n) : d.rule = some "message-npg-match" := by
  simp only [validateMessageNpgMatchP] at hd
  split at hd
  · simp_all
  · obtain ⟨e, -, hd⟩ := List.mem_flatMap.mp hd
    split at hd
    · split at hd
      · split at hd
        · split at hd <;> simp_all
        · simp_all
      all_goals simp_all
    · simp_all

/-- Rule code of `stacking-consistency` diagnostics. -/
theorem rules_stackingConsistency {n : NetworkDeclaration} {d : Diagnostic}
    (hd : d ∈ validateStackingConsistencyP n) :
    d.rule = some "stacking-consistency" := by
  simp only [validateStackingConsistencyP, List.mem_flatMap] at hd
  obtain ⟨net, -, hd⟩ := hd
  rw [List.mem_append] at hd
  rcases hd with h | h <;> (repeat' split at h) <;> simp_all

/-- Rule code of `valid-npg-reference` diagnostics. -/
theorem rules_npgReferences {n : NetworkDeclaration} {d : Diagnostic}
    (hd : d ∈ validateNpgReferencesP n) : d.rule = some "valid-npg-reference" := by
  simp only [validateNpgReferencesP, List.mem_append, List.mem_flatMap] at hd
  rcases hd with ⟨t, -, ⟨p, -, h⟩⟩ | ⟨net, -, h⟩
  · split at h
    · split at h
      · obtain ⟨x, -, h⟩ := List.mem_flatMap.mp h
        split at h <;> simp_all
      all_goals simp_all
    · simp_all
  · repeat' split at h
    all_goals simp_all

/-- Rule code of `valid-j-message-reference` diagnostics. -/
theorem rules_jMessageReferences {n : NetworkDeclaration} {d : Diagnostic}
    (hd : d ∈ validateJMessageReferencesP n) :
    d.rule = some "valid-j-message-reference" := by
  simp only [validateJMessageReferencesP] at hd
  split at hd
  · simp_all
  · obtain ⟨e, -, hd⟩ := List.mem_flatMap.mp hd
    split at hd <;> simp_all

/-- Rule code of `participant-reference` diagnostics. -/
theorem rules_participantReferences {n : NetworkDeclaration} {d : Diagnostic}
    (hd : d ∈ validateParticipantReferencesP n) :
    d.rule = some "participant-reference" := by
  simp only [validateParticipantReferencesP, List.mem_flatMap] at hd
  obtain ⟨net, -, hd⟩ := hd
  split at hd
  · split at hd
    · obtain ⟨x, -, hd⟩ := List.mem_flatMap.mp hd
      split at hd <;> simp_all
    all_goals simp_all
  · simp_all

/-- Rule code of `valid-classification` diagnostics. -/
theorem rules_classification {n : NetworkDeclaration} {d : Diagnostic}
    (hd : d ∈ validateClassificationP n) : d.rule = some "valid-classification" := by
  simp only [validateClassificationP] at hd
  repeat' split at hd
  all_goals simp_all

/-- Rule codes of the Link-16 terminal property checks. -/
theorem rules_link16TerminalProperties {n : NetworkDeclaration} {d : Diagnostic}
    (hd : d ∈ validateLink16TerminalPropertiesP n) :
    d.rule = some "valid-role" ∨ d.rule = some "valid-platform-type" ∨
      d.rule = some "valid-track-number" ∨ d.rule = some "required-property" := by
  simp only [validateLink16TerminalPropertiesP, List.mem_flatMap,
    List.mem_append] at hd
  obtain ⟨t, -, hd⟩ := hd
  rcases hd with ((h | h) | h) | h <;> (repeat' split at h) <;> simp_all

/-- Rule codes of the Link-16 net property checks. -/
theorem rules_link16NetProperties {n : NetworkDeclaration} {d : Diagnostic}
    (hd : d ∈ validateLink16NetPropertiesP n) :
    d.rule = some "valid-net-number" ∨ d.rule = some "valid-tsdf" ∨
      d.rule = some "required-property" := by
  simp only [validateLink16NetPropertiesP, List.mem_flatMap,
    List.mem_append] at hd
  obtain ⟨net, -, hd⟩ := hd
  rcases hd with (h | h) | h <;> (repeat' split at h) <;> simp_all

/-- Rule code of `link22-forwarding` diagnostics. -/
theorem rules_link22Forwarding {n : NetworkDeclaration} {d : Diagnostic}
    (hd : d ∈ link22ForwardingP n) : d.rule = some "link22-forwarding" := by
  simp only [link22ForwardingP, List.mem_flatMap] at hd
  obtain ⟨s, -, hd⟩ := hd
  split at hd <;> simp_all

/-- Rule code of `link22-controller-required` diagnostics. -/
theorem rules_link22ControllerRequired {n : NetworkDeclaration} {d : Diagnostic}
    (hd : d ∈ link22ControllerRequiredP n) :
    d.rule = some "link22-controller-required" := by
  simp only [link22ControllerRequiredP, List.mem_flatMap] at hd
  obtain ⟨s, -, hd⟩ := hd
  split at hd <;> simp_all

/-- Rule codes of the Link-22 subnetwork/member property checks. -/
theorem rules_link22SubnetworkProperties {n : NetworkDeclaration} {d : Diagnostic}
    (hd : d ∈ validateLink22SubnetworkPropertiesP n) :
    d.rule = some "valid-operating-mode" ∨ d.rule = some "valid-data-rate" ∨
      d.rule = some "valid-role" ∨ d.rule = some "valid-unit-id" ∨
      d.rule = some "valid-forwarding" ∨ d.rule = some "required-property" := by
  simp only [validateLink22SubnetworkPropertiesP, List.mem_flatMap,
    List.mem_append] at hd
  obtain ⟨s, -, hd⟩ := hd
  rcases hd with (h | h) | ⟨mem, -, h⟩
  · repeat' split at h
    all_goals simp_all
  · repeat' split at h
    all_goals simp_all
  · rcases h with (((h | h) | h) | h) | h <;> (repeat' split at h) <;> simp_all

/-- Rule code of `track-number-uniqueness` diagnostics. -/
theorem rules_trackUniq {m : List (Rat × String)}
    {ts : List TerminalDeclaration} {d : Diagnostic}
    (hd : d ∈ trackUniqGo m ts) : d.rule = some "track-number-uniqueness" := by
  induction ts generalizing m with
  | nil => simp [trackUniqGo] at hd
  | cons t ts ih =>
    rw [trackUniqGo] at hd
    repeat' split at hd
    all_goals first
      | exact ih hd
      | (rcases List.mem_cons.mp hd with h | h
         · subst h; rfl
         · exact ih h)

/-- Rule code of `net-number-uniqueness` diagnostics. -/
theorem rules_netUniq {m : List (Rat × String)}
    {ns : List NetDeclaration} {d : Diagnostic}
    (hd : d ∈ netUniqGo m ns) : d.rule = some "net-number-uniqueness" := by
  induction ns generalizing m with
  | nil => simp [netUniqGo] at hd
  | cons net ns ih =>
    rw [netUniqGo] at hd
    repeat' split at hd
    all_goals first
      | exact ih hd
      | (rcases List.mem_cons.mp hd with h | h
         · subst h; rfl
         · exact ih h)

/-- Rule code of `unit-id-uniqueness` diagnostics. -/
theorem rules_uidUniq {m : List (String × String)}
    {ms : List MemberDeclaration} {d : Diagnostic}
    (hd : d ∈ uidUniqGo m ms) : d.rule = some "unit-id-uniqueness" := by
  induction ms generalizing m with
  | nil => simp [uidUniqGo] at hd
  | cons mem ms ih =>
    simp only [uidUniqGo] at hd
    repeat' split at hd
    all_goals first
      | exact ih hd
      | (rcases List.mem_cons.mp hd with h | h
         · subst h; rfl
         · exact ih h)

/-- Diagnostics lists all of whose rule codes differ from `r` filter to
nothing. -/
theorem filter_rule_nil {l : List Diagnostic} {r : String}
    (h : ∀ d ∈ l, d.rule ≠ some r) :
    l.filter (fun d => d.rule == some r) = [] := by
  rw [List.filter_eq_nil_iff]
  intro d hd
  simp only [beq_iff_eq]
  exact h d hd

/-- Diagnostics lists all of whose rule codes equal `r` filter to
themselves. -/
theorem filter_rule_self {l : List Diagnostic} {r : String}
    (h : ∀ d ∈ l, d.rule = some r) :
    l.filter (fun d => d.rule == some r) = l := by
  rw [List.filter_eq_self]
  intro d hd
  simp only [beq_iff_eq]
  exact h d hd

/-! ### C2 — total-tsdf-budget -/

/-- C2 fixture: two nets whose `tsdf` percents sum to 110, inside a network
with the given property list. -/
def tsdfNets : List NetDeclaration :=
  [⟨"A", [⟨"tsdf", .percent 60, sp 21⟩], sp 22⟩,
   ⟨"B", [⟨"tsdf", .percent 50, sp 23⟩], sp 24⟩]

/-- C2 fixture: network over `tsdfNets` with the given properties. -/
def tsdfNet (props : List PropertyAssignment) : NetworkDeclaration :=
  ⟨"X", props, [], tsdfNets, [], none, none, sp 20⟩

/-- The 110% total of the fixture nets. -/
theorem tsdfScan_tsdfNets : tsdfScan tsdfNets = (110, [("A", 60), ("B", 50)]) := by
  norm_num [tsdfScan, tsdfNets, findProp]

/-- C2, counterexample: a network whose nets' `tsdf` percents sum to 110
(> 100) but which has no `link` property gets **no** `total-tsdf-budget`
diagnostic at all — `validateTsdfBudget` only runs on the Link-16 path. -/
theorem totalTsdfBudget_skipped_without_link16 :
    (tsdfScan (tsdfNet []).nets).1 > 100 ∧
      validate ⟨[tsdfNet []], sp 25⟩ = [] := by
  constructor
  · show (tsdfScan tsdfNets).1 > 100
    rw [tsdfScan_tsdfNets]
    norm_num
  · decide

/-- C2, amended: *for a network whose `link` property resolves to `Link16`*,
the `total-tsdf-budget` diagnostics of the network are exactly: one error
whose message cites the sum when the nets' `tsdf` percents total more than
100, one warning when the total is above 90 and at most 100, and nothing
otherwise. -/
theorem totalTsdfBudget_link16_cases (n : NetworkDeclaration)
    (h : getPropertyValue n.properties "link" = some "Link16") :
    (validateNetworkP n).filter (fun d => d.rule == some "total-tsdf-budget") =
      (if (tsdfScan n.nets).1 > 100 then
        [{ message := "Total TSDF across all nets is " ++ jsNumStr (tsdfScan n.nets).1 ++
             "%, which exceeds the 100% budget. Nets: " ++
             joinComma ((tsdfScan n.nets).2.map
               (fun e => e.1 ++ " (" ++ jsNumStr e.2 ++ "%)")) ++ ".",
           severity := .error, span := n.span, rule := some "total-tsdf-budget",
           specRef := some "MIL-STD-6016 §4.3.2" }]
      else if (tsdfScan n.nets).1 > 90 then
        [{ message := "Total TSDF is " ++ jsNumStr (tsdfScan n.nets).1 ++
             "%, which is close to the 100% budget limit. Consider reducing to allow for future expansion.",
           severity := .warning, span := n.span, rule := some "total-tsdf-budget",
           specRef := some "MIL-STD-6016 §4.3.2" }]
      else []) := by
  have hred : linkDispatchP n = validateLink16NetworkP n := by
    rw [linkDispatchP, h]
    simp
  rw [validateNetworkP, hred, validateLink16NetworkP]
  simp only [List.filter_append]
  rw [@filter_rule_nil (ncsRequiredP n) _ (fun d hd => by rw [rules_ncsRequired hd]; decide),
    @filter_rule_nil (validateNpgSubscriberCoverageP n) _
      (fun d hd => by rw [rules_npgSubscriberCoverage hd]; decide),
    @filter_rule_nil (validatePpliRequiredP n) _
      (fun d hd => by rw [rules_ppliRequired hd]; decide),
    @filter_rule_nil (validateMessageNpgMatchP n) _
      (fun d hd => by rw [rules_messageNpgMatch hd]; decide),
    @filter_rule_nil (validateStackingConsistencyP n) _
      (fun d hd => by rw [rules_stackingConsistency hd]; decide),
    @filter_rule_nil (validateNpgReferencesP n) _
      (fun d hd => by rw [rules_npgReferences hd]; decide),
    @filter_rule_nil (validateJMessageReferencesP n) _
      (fun d hd => by rw [rules_jMessageReferences hd]; decide),
    @filter_rule_nil (validateParticipantReferencesP n) _
      (fun d hd => by rw [rules_participantReferences hd]; decide),
    @filter_rule_nil (validateLink16TerminalPropertiesP n) _
      (fun d hd => by
        rcases rules_link16TerminalProperties hd with h | h | h | h <;>
          rw [h] <;> decide),
    @filter_rule_nil (validateLink16NetPropertiesP n) _
      (fun d hd => by
        rcases rules_link16NetProperties hd with h | h | h <;> rw [h] <;> decide),
    @filter_rule_nil (validateClassificationP n) _
      (fun d hd => by rw [rules_classification hd]; decide),
    @filter_rule_nil (validateTrackNumberUniquenessP n) _
      (fun d hd => by rw [rules_trackUniq hd]; decide),
    @filter_rule_nil (validateNetNumberUniquenessP n) _
      (fun d hd => by rw [rules_netUniq hd]; decide),
    @filter_rule_self (validateTsdfBudgetP n) _
      (fun d hd => rules_tsdfBudget hd)]
  simp only [List.append_nil, List.nil_append]
  rw [validateTsdfBudgetP]

/-- C2, witness: the amended theorem applied to the 110%-total fixture with
`link: Link16`; the single error's message cites the sum `110%`. -/
theorem totalTsdfBudget_link16_cases_witness :
    (validateNetworkP (tsdfNet [⟨"link", .identifier "Link16", sp 26⟩])).filter
        (fun d => d.rule == some "total-tsdf-budget") =
      [{ message := "Total TSDF across all nets is 110%, which exceeds the 100% budget. Nets: A (60%), B (50%).",
         severity := .error, span := sp 20, rule := some "total-tsdf-budget",
         specRef := some "MIL-STD-6016 §4.3.2" }] := by
  rw [totalTsdfBudget_link16_cases (tsdfNet [⟨"link", .identifier "Link16", sp 26⟩])
    (by decide)]
  have hnets : (tsdfNet [⟨"link", .identifier "Link16", sp 26⟩]).nets = tsdfNets := rfl
  rw [hnets, tsdfScan_tsdfNets]
  rw [if_pos (by norm_num)]
  decide

/-! ### C3 — valid-classification only runs behind the link dispatch -/

/-- C3 fixture: a network with an invalid `classification` identifier and
the given extra leading properties. -/
def classNet (props : List PropertyAssignment) : NetworkDeclaration :=
  ⟨"X", props ++ [⟨"classification", .identifier "BOGUS", sp 30⟩],
   [], [], [], none, none, sp 31⟩

/-- C3, counterexample: with no `link` property at all, an invalid
`classification` identifier produces **no** diagnostic —
`validateClassification` is only called from the Link-16 and Link-22
suites, not for every network. -/
theorem validClassification_skipped_without_link :
    findProp (classNet []).properties "classification" =
      some ⟨"classification", .identifier "BOGUS", sp 30⟩ ∧
    VALID_CLASSIFICATION_IDS.contains "BOGUS" = false ∧
    validate ⟨[classNet []], sp 32⟩ = [] := by
  refine ⟨by decide, by decide, by decide⟩

/-- C3, amended: *when the `link` property resolves to `Link16` or
`Link22`*, a `classification` property whose (first occurrence's) value is
an identifier outside the declared classification IDs yields exactly one
`valid-classification` error on that property's span. -/
theorem validClassification_behind_link_dispatch (n : NetworkDeclaration)
    (p : PropertyAssignment) (v : String)
    (hlink : getPropertyValue n.properties "link" = some "Link16" ∨
      getPropertyValue n.properties "link" = some "Link22")
    (hp : findProp n.properties "classification" = some p)
    (hv : p.value = .identifier v)
    (hbad : VALID_CLASSIFICATION_IDS.contains v = false) :
    (validateNetworkP n).filter (fun d => d.rule == some "valid-classification") =
      [{ message := "Invalid classification '" ++ v ++ "'. Expected one of: " ++
           joinComma VALID_CLASSIFICATION_IDS ++ ".",
         severity := .error, span := p.span,
         rule := some "valid-classification" }] := by
  have hclass : validateClassificationP n =
      [{ message := "Invalid classification '" ++ v ++ "'. Expected one of: " ++
           joinComma VALID_CLASSIFICATION_IDS ++ ".",
         severity := .error, span := p.span,
         rule := some "valid-classification" }] := by
    simp only [validateClassificationP, hp, hv, hbad]
    simp
  have hclassfilter :
      (validateClassificationP n).filter
        (fun d => d.rule == some "valid-classification") =
        validateClassificationP n :=
    @filter_rule_self (validateClassificationP n) _
      (fun d hd => rules_classification hd)
  rcases hlink with h | h
  · have hred : linkDispatchP n = validateLink16NetworkP n := by
      rw [linkDispatchP, h]
      simp
    rw [validateNetworkP, hred, validateLink16NetworkP]
    simp only [List.filter_append]
    rw [@filter_rule_nil (ncsRequiredP n) _
        (fun d hd => by rw [rules_ncsRequired hd]; decide),
      @filter_rule_nil (validateTsdfBudgetP n) _
        (fun d hd => by rw [rules_tsdfBudget hd]; decide),
      @filter_rule_nil (validateNpgSubscriberCoverageP n) _
        (fun d hd => by rw [rules_npgSubscriberCoverage hd]; decide),
      @filter_rule_nil (validatePpliRequiredP n) _
        (fun d hd => by rw [rules_ppliRequired hd]; decide),
      @filter_rule_nil (validateMessageNpgMatchP n) _
        (fun d hd => by rw [rules_messageNpgMatch hd]; decide),
      @filter_rule_nil (validateStackingConsistencyP n) _
        (fun d hd => by rw [rules_stackingConsistency hd]; decide),
      @filter_rule_nil (validateNpgReferencesP n) _
        (fun d hd => by rw [rules_npgReferences hd]; decide),
      @filter_rule_nil (validateJMessageReferencesP n) _
        (fun d hd => by rw [rules_jMessageReferences hd]; decide),
      @filter_rule_nil (validateParticipantReferencesP n) _
        (fun d hd => by rw [rules_participantReferences hd]; decide),
      @filter_rule_nil (validateLink16TerminalPropertiesP n) _
        (fun d hd => by
          rcases rules_link16TerminalProperties hd with h | h | h | h <;>
            rw [h] <;> decide),
      @filter_rule_nil (validateLink16NetPropertiesP n) _
        (fun d hd => by
          rcases rules_link16NetProperties hd with h | h | h <;>
            rw [h] <;> decide),
      @filter_rule_nil (validateTrackNumberUniquenessP n) _
        (fun d hd => by rw [rules_trackUniq hd]; decide),
      @filter_rule_nil (validateNetNumberUniquenessP n) _
        (fun d hd => by rw [rules_netUniq hd]; decide),
      hclassfilter, hclass]
    simp
  · have hred : linkDispatchP n = validateLink22NetworkP n := by
      rw [linkDispatchP, h]
      simp
    rw [validateNetworkP, hred, validateLink22NetworkP]
    simp only [List.filter_append]
    rw [@filter_rule_nil (link22ForwardingP n) _
        (fun d hd => by rw [rules_link22Forwarding hd]; decide),
      @filter_rule_nil (link22ControllerRequiredP n) _
        (fun d hd => by rw [rules_link22ControllerRequired hd]; decide),
      @filter_rule_nil (validateLink22SubnetworkPropertiesP n) _
        (fun d hd => by
          rcases rules_link22SubnetworkProperties hd with h | h | h | h | h | h <;>
            rw [h] <;> decide),
      @filter_rule_nil (validateLink22UnitIdUniquenessP n) _
        (fun d hd => by rw [rules_uidUniq hd]; decide),
      @filter_rule_nil (validateTrackNumberUniquenessP n) _
        (fun d hd => by rw [rules_trackUniq hd]; decide),
      @filter_rule_nil (validateNetNumberUniquenessP n) _
        (fun d hd => by rw [rules_netUniq hd]; decide),
      hclassfilter, hclass]
    simp

/-- C3, witness: the amended theorem applied to the `BOGUS`-classification
fixture with `link: Link16`. -/
theorem validClassification_behind_link_dispatch_witness :
    (validateNetworkP (classNet [⟨"link", .identifier "Link16", sp 33⟩])).filter
        (fun d => d.rule == some "valid-classification") =
      [{ message := "Invalid classification 'BOGUS'. Expected one of: " ++
           joinComma VALID_CLASSIFICATION_IDS ++ ".",
         severity := .error, span := sp 30,
         rule := some "valid-classification" }] :=
  validClassification_behind_link_dispatch
    (classNet [⟨"link", .identifier "Link16", sp 33⟩])
    ⟨"classification", .identifier "BOGUS", sp 30⟩ "BOGUS"
    (Or.inl (by decide)) (by decide) (by decide) (by decide)

/-! ### C1 — overall diagnostic order -/

/-- The rule-catalog order the claim asserts: the four level-2 rules first
(`valid-link-type`, `valid-classification`, `track-number-uniqueness`,
`net-number-uniqueness`), then the link-specific rules in the spec's §4.4
listing order (each code once, at first mention). -/
def claimRuleOrder : List String :=
  ["valid-link-type", "valid-classification", "track-number-uniqueness",
   "net-number-uniqueness",
   "ncs-required", "valid-role", "valid-platform-type", "valid-track-number",
   "valid-net-number", "valid-tsdf", "total-tsdf-budget",
   "stacking-consistency", "npg-subscriber-coverage", "ppli-required",
   "valid-npg-reference", "valid-j-message-reference", "message-npg-match",
   "participant-reference", "required-property",
   "valid-operating-mode", "valid-data-rate", "valid-unit-id",
   "valid-forwarding", "link22-controller-required", "link22-forwarding",
   "unit-id-uniqueness"]

/-- The output the claim describes: each rule's diagnostics grouped
together, groups concatenated in catalog order. -/
def claimOrderOutput (doc : DocumentNode) : List Diagnostic :=
  claimRuleOrder.flatMap
    (fun r => (validate doc).filter (fun d => d.rule == some r))

/-- C1, counterexample: a Link-16 network with no terminals and a bogus
classification emits `ncs-required` *before* `valid-classification`
(the Link-16 suite runs `validateClassification` last), while the claimed
catalog order puts every `valid-classification` diagnostic first. -/
theorem validate_not_rule_catalog_ordered :
    validate ⟨[classNet [⟨"link", .identifier "Link16", sp 34⟩]], sp 35⟩ ≠
      claimOrderOutput
        ⟨[classNet [⟨"link", .identifier "Link16", sp 34⟩]], sp 35⟩ := by
  decide

/-- C1, amended: `validate`'s output is, per network in document order, the
concatenation of the rule *functions'* outputs in the order the validator
calls them — the link dispatch (for Link16: `ncs-required`,
`total-tsdf-budget`, `npg-subscriber-coverage`, `ppli-required`,
`message-npg-match`, `stacking-consistency`, `valid-npg-reference`,
`valid-j-message-reference`, `participant-reference`, the terminal property
checks, the net property checks, then `valid-classification`; for Link22:
`link22-forwarding`, `link22-controller-required`, the subnetwork property
checks, `valid-classification`, then `unit-id-uniqueness`), followed by
`track-number-uniqueness` and `net-number-uniqueness`; within a single
rule function, diagnostics are in document order (`validateNetworkP`
unfolds to exactly that concatenation). -/
theorem validate_emission_order (doc : DocumentNode) :
    validate doc = doc.networks.flatMap validateNetworkP := by
  rw [validate]
  suffices h : ∀ (l : List NetworkDeclaration) (acc : List Diagnostic),
      l.foldl (fun diagnostics network => validateNetwork network diagnostics)
        acc = acc ++ l.flatMap validateNetworkP by
    simpa using h doc.networks []
  intro l
  induction l with
  | nil =>
    intro acc
    simp
  | cons n ls ih =>
    intro acc
    rw [List.foldl_cons, ih]
    simp [validateNetwork, validateNetworkP, List.append_assoc]

/-- C10, witness for the amended theorem: both conjuncts applied to the
concrete fixture pair (case change on member `B`'s unit id). -/
theorem unitIdUniqueness_case_insensitive_witness :
    (validateLink22UnitIdUniquenessP (l22net "0x1A3F")).map dropMsg =
      (validateLink22UnitIdUniquenessP (l22net "0x1a3f")).map dropMsg ∧
    (validateLink22UnitIdUniquenessP (l22net "0x1a3f")).map dropMsg =
      [(Severity.warning, sp 1, some "unit-id-uniqueness",
        some "STANAG 5522 §4.1")] :=
  ⟨unitIdUniqueness_case_insensitive.1 (l22net "0x1A3F") (l22net "0x1a3f")
      (by decide),
   unitIdUniqueness_case_insensitive.2 (l22net "0x1a3f") "A" "B" "0x1a3f"
      (sp 0) (sp 1) (by decide) (by decide) (by decide)⟩

/-! ## Lexer (`src/engine/lexer.ts`)

The scanner is state-passing: `LexState` carries the remaining characters
and the `pos`/`line`/`column` counters.  Every token the TypeScript lexer
pushes has as value exactly the consumed source slice and as span the
position at the start of the lexeme with the consumed length, so
`scanTok` returns the token *type* (`none` for skipped whitespace) and the
consumed count, and the driver builds the token.  The driver recursion is
fuel-indexed (structural, so concrete runs compute); `scanTok_pos` and
`lexRunF_fuel_irrelevant` show the `tokenize` fuel of `length + 1` never
runs out. -/

/-- `lexer.ts` — `isDigit`. -/
def isDigit (c : Char) : Bool := '0' ≤ c && c ≤ '9'

/-- `lexer.ts` — `isHexDigit`. -/
def isHexDigit (c : Char) : Bool :=
  ('0' ≤ c && c ≤ '9') || ('a' ≤ c && c ≤ 'f') || ('A' ≤ c && c ≤ 'F')

/-- `lexer.ts` — `isIdentStart`. -/
def isIdentStart (c : Char) : Bool :=
  ('a' ≤ c && c ≤ 'z') || ('A' ≤ c && c ≤ 'Z') || c = '_'

/-- `lexer.ts` — `isIdentPart`. -/
def isIdentPart (c : Char) : Bool :=
  isIdentStart c || isDigit c || c = '-' || c = '_'

/-- A JavaScript regex word character (`\w`), as `\b` classifies it. -/
def jsWordChar (c : Char) : Bool :=
  ('a' ≤ c && c ≤ 'z') || ('A' ≤ c && c ≤ 'Z') || isDigit c || c = '_'

/-- `\b` at the current point: end of input or a non-word character. -/
def atWordBoundary : List Char → Bool
  | [] => true
  | c :: _ => !jsWordChar c

/-- `lexer.ts` — the duration-suffix regex `/^(s|ms|min|h)\b/` on the rest
of the input: the alternation is leftmost-first and the alternatives'
spellings make at most one of them a prefix; the match succeeds only at a
word boundary.  Returns the matched suffix length. -/
def durMatch : List Char → Option Nat
  | 's' :: r => if atWordBoundary r then some 1 else none
  | 'm' :: 's' :: r => if atWordBoundary r then some 2 else none
  | 'm' :: 'i' :: 'n' :: r => if atWordBoundary r then some 3 else none
  | 'h' :: r => if atWordBoundary r then some 1 else none
  | _ => none

/-- `lexer.ts` — the `0x`/`0X` test at the top of `scanNumber`
(`source[pos] === '0' && (peek(1) === 'x' || peek(1) === 'X')`). -/
def isHexStart (cs : List Char) : Bool :=
  match cs with
  | c0 :: c1 :: _ => c0 = '0' && (c1 = 'x' || c1 = 'X')
  | _ => false

/-- `lexer.ts` — the decimal-point step of `scanNumber`
(`source[pos] === '.' && isDigit(source[pos+1])`): given the count `d` of
integer digits and the rest after them, the count including an optional
`.`-and-digits fraction. -/
def fracLen (d : Nat) (r1 : List Char) : Nat :=
  match r1 with
  | c0 :: c1 :: r =>
    if c0 = '.' && isDigit c1 then d + 1 + ((c1 :: r).takeWhile isDigit).length
    else d
  | _ => d

/-- `lexer.ts` — the suffix step of `scanNumber`: given the rest after
the (possibly fractional) number of length `d2`, classify `%`, a duration
suffix at a word boundary, or a plain number. -/
def suffixTok (r2 : List Char) (d2 : Nat) : TokenType × Nat :=
  if r2.head? = some '%' then (.percent, d2 + 1)
  else
    match durMatch r2 with
    | some k => (.duration, d2 + k)
    | none => (.number, d2)

/-- `lexer.ts` — `scanNumber` (type and consumed count): hex `0x`/`0X`
prefix, else digits, optional fraction, then `%`, duration suffix, or a
plain number. -/
def scanNumberTok (cs : List Char) : TokenType × Nat :=
  if isHexStart cs then
    (.hexNumber, 2 + ((cs.drop 2).takeWhile isHexDigit).length)
  else
    let d := (cs.takeWhile isDigit).length
    let d2 := fracLen d (cs.drop d)
    suffixTok (cs.drop d2) d2

/-- `lexer.ts` — `scanJMessage` (consumed count): `J`, digits, optionally
`/` and more digits. -/
def scanJTok (cs : List Char) : Nat :=
  let d1 := ((cs.drop 1).takeWhile isDigit).length
  match cs.drop (1 + d1) with
  | '/' :: r => 1 + d1 + 1 + (r.takeWhile isDigit).length
  | _ => 1 + d1

/-- `lexer.ts` — `scanString` (consumed count): opening quote, characters
up to a quote or newline, and the closing quote when present. -/
def scanStringTok (cs : List Char) : Nat :=
  let body := ((cs.drop 1).takeWhile (fun c => c ≠ '"' && c ≠ '\n')).length
  match cs.drop (1 + body) with
  | '"' :: _ => 1 + body + 1
  | _ => 1 + body

/-- `lexer.ts` — `scanIdentifier` (type and consumed count): identifier
characters, classified into boolean literals, keywords, and identifiers. -/
def scanIdentTok (cs : List Char) : TokenType × Nat :=
  let n := (cs.takeWhile isIdentPart).length
  let value := String.mk (cs.take n)
  if value = "true" || value = "false" then (.boolean, n)
  else if KEYWORDS.contains value then (.keyword, n)
  else (.identifier, n)

/-- `lexer.ts` — `scanOperator` (type and consumed count). -/
def scanOpTok (c : Char) (next : Option Char) : TokenType × Nat :=
  if c = '>' && next = some '=' then (.greaterThanOrEqual, 2)
  else if c = '<' && next = some '=' then (.lessThanOrEqual, 2)
  else if c = '=' && next = some '=' then (.equalEqual, 2)
  else if c = '!' && next = some '=' then (.notEqual, 2)
  else if c = '>' then (.greaterThan, 1)
  else if c = '<' then (.lessThan, 1)
  else (.unknown, 1)

/-- `lexer.ts` — the single-character punctuation `switch` in `scanToken`. -/
def punctTok (c : Char) : Option TokenType :=
  if c = '{' then some .lbrace
  else if c = '}' then some .rbrace
  else if c = '[' then some .lbracket
  else if c = ']' then some .rbracket
  else if c = ':' then some .colon
  else if c = ',' then some .comma
  else none

/-- `lexer.ts` — the tail of `scanToken` after the lexeme classes: the
punctuation switch, the comparison-operator check, and the final
`Unknown` single character. -/
def scanTailTok (c : Char) (next : Option Char) : Option TokenType × Nat :=
  match punctTok c with
  | some ty => (some ty, 1)
  | none =>
    if c = '>' || c = '<' || c = '=' || c = '!' then
      (some (scanOpTok c next).1, (scanOpTok c next).2)
    else (some .unknown, 1)

/-- `lexer.ts` — the body of `scanToken` for a non-empty input
`c :: cs'`: the dispatch checks in source order; `none` is the whitespace
case, which consumes without emitting. -/
def scanTok1 (c : Char) (cs' : List Char) : Option TokenType × Nat :=
  if c = ' ' || c = '\t' || c = '\r' then
    (none, ((c :: cs').takeWhile (fun a => a = ' ' || a = '\t' || a = '\r')).length)
  else if c = '\n' then (some .newline, 1)
  else if c = '-' && cs'.head? = some '-' then
    (some .comment, ((c :: cs').takeWhile (fun a => a ≠ '\n')).length)
  else if c = '"' then (some .string, scanStringTok (c :: cs'))
  else if isDigit c then
    (some (scanNumberTok (c :: cs')).1, (scanNumberTok (c :: cs')).2)
  else if c = 'J' && (cs'.head?.elim false isDigit) then
    (some .jmessage, scanJTok (c :: cs'))
  else if isIdentStart c then
    (some (scanIdentTok (c :: cs')).1, (scanIdentTok (c :: cs')).2)
  else scanTailTok c cs'.head?

/-- `lexer.ts` — `scanToken` (only called with input remaining; the empty
case is a formal placeholder). -/
def scanTok (cs : List Char) : Option TokenType × Nat :=
  match cs with
  | [] => (none, 1)
  | c :: cs' => scanTok1 c cs'

/-- The lexer's cursor state: remaining input and the `pos`/`line`/`column`
counters of `Lexer`. -/
structure LexState where
  rest : List Char
  pos : Nat
  line : Nat
  col : Nat
deriving DecidableEq, Repr

/-- `lexer.ts` — `advance`: consume one character, updating line/column. -/
def adv1 (s : LexState) : LexState :=
  match s.rest with
  | [] => s
  | c :: cs =>
    if c = '\n' then ⟨cs, s.pos + 1, s.line + 1, 1⟩
    else ⟨cs, s.pos + 1, s.line, s.col + 1⟩

/-- `n` advances. -/
def advN : Nat → LexState → LexState
  | 0, s => s
  | n + 1, s => advN n (adv1 s)

/-- The span of a lexeme starting at `s` with consumed length `n`
(`makeSpan` with the length already final). -/
def spanAt (s : LexState) (n : Nat) : SourceSpan :=
  ⟨(s.line : Int), (s.col : Int), (s.pos : Int), (n : Int)⟩

/-- `lexer.ts` — the `tokenize` scanning loop, fuel-indexed: while input
remains, scan one token (whitespace emits nothing) and advance by the
consumed count. -/
def lexRunF : Nat → LexState → List Token
  | 0, _ => []
  | fuel + 1, s =>
    match s.rest with
    | [] => []
    | _ :: _ =>
      (match (scanTok s.rest).1 with
       | some ty =>
         [⟨ty, String.mk (s.rest.take (scanTok s.rest).2),
           spanAt s (scanTok s.rest).2⟩]
       | none => []) ++ lexRunF fuel (advN (scanTok s.rest).2 s)

/-- `lexer.ts` — `tokenize`: run the scanner over the whole source, then
push the synthetic `EOF` token at the final position. -/
def tokenize (src : List Char) : List Token :=
  lexRunF (src.length + 1) ⟨src, 0, 1, 1⟩ ++
    [⟨.eof, "", spanAt (advN src.length ⟨src, 0, 1, 1⟩) 0⟩]

/-- `lexer.ts` — `lex` / `lexWithTrivia` (both return all tokens). -/
def lex (src : List Char) : List Token := tokenize src

/-- Is a token trivia in the sense of the parser-side filter
(`Comment`, `Whitespace`, `Newline`)? -/
def isTrivia (t : Token) : Bool :=
  t.type == .comment || t.type == .whitespace || t.type == .newline

/-- `lexer.ts` — `lexSignificant`: tokens with trivia filtered out. -/
def lexSignificant (src : List Char) : List Token :=
  (tokenize src).filter (fun t => !isTrivia t)

/-! ### C7 — which trivia the lexer emits -/

/-- The suffix step never yields a trivia token type. -/
theorem suffixTok_not_ws (r2 : List Char) (d2 : Nat) :
    (suffixTok r2 d2).1 ≠ .whitespace := by
  simp only [suffixTok]
  repeat' split
  all_goals simp

/-- The number scanner never yields a trivia token type. -/
theorem scanNumberTok_not_ws (cs : List Char) :
    (scanNumberTok cs).1 ≠ .whitespace := by
  rw [scanNumberTok]
  split
  · simp
  · exact suffixTok_not_ws _ _

/-- The identifier scanner never yields a trivia token type. -/
theorem scanIdentTok_not_ws (cs : List Char) :
    (scanIdentTok cs).1 ≠ .whitespace := by
  simp only [scanIdentTok]
  repeat' split
  all_goals simp

/-- The operator scanner never yields a trivia token type. -/
theorem scanOpTok_not_ws {c : Char} {next : Option Char} :
    (scanOpTok c next).1 ≠ .whitespace := by
  simp only [scanOpTok]
  repeat' split
  all_goals simp

/-- The possible punctuation token types. -/
theorem punctTok_not_ws {c : Char} {ty : TokenType}
    (h : punctTok c = some ty) : ty ≠ .whitespace := by
  simp only [punctTok] at h
  repeat' split at h
  all_goals first
    | (rcases h with ⟨⟩; decide)
    | simp_all

/-- The punctuation/operator/unknown tail never yields a trivia token. -/
theorem scanTailTok_not_ws {c : Char} {next : Option Char} :
    (scanTailTok c next).1 ≠ some .whitespace := by
  rw [scanTailTok]
  split
  · rename_i ty hty
    simpa using punctTok_not_ws hty
  · split
    · have h := @scanOpTok_not_ws c next
      simpa using h
    · simp

/-- `scanToken` never emits a `Whitespace` token: the whitespace branch
consumes without pushing. -/
theorem scanTok_not_ws {cs : List Char} :
    (scanTok cs).1 ≠ some .whitespace := by
  match cs with
  | [] => decide
  | c :: cs' =>
    show (scanTok1 c cs').1 ≠ some .whitespace
    unfold scanTok1
    repeat' split
    all_goals try simp
    · simpa using scanNumberTok_not_ws (c :: cs')
    · simpa using scanIdentTok_not_ws (c :: cs')
    · exact @scanTailTok_not_ws c cs'.head?

/-- No token of a scanner run is `Whitespace`-typed. -/
theorem lexRunF_no_ws {fuel : Nat} {s : LexState} {t : Token}
    (ht : t ∈ lexRunF fuel s) : t.type ≠ .whitespace := by
  induction fuel generalizing s with
  | zero => simp [lexRunF] at ht
  | succ fuel ih =>
    rw [lexRunF] at ht
    split at ht
    · simp at ht
    · rw [List.mem_append] at ht
      rcases ht with h | h
      · split at h
        · rename_i ty hty
          rcases List.mem_singleton.mp h with rfl
          show ty ≠ .whitespace
          intro hw
          subst hw
          exact scanTok_not_ws hty
        · simp at h
      · exact ih h

/-- C7, amended: the lexer preserves newline and comment trivia but
**never** emits a `Whitespace` token — runs of spaces, tabs and carriage
returns are consumed and dropped inside the lexer itself, not by the
parser-side filter. -/
theorem tokenize_no_whitespace_tokens (src : List Char) :
    ∀ t ∈ tokenize src, t.type ≠ TokenType.whitespace := by
  intro t ht
  rw [tokenize, List.mem_append] at ht
  rcases ht with h | h
  · exact lexRunF_no_ws h
  · rcases List.mem_singleton.mp h with rfl
    simp

/-- C7, witness for the amended theorem: the `EOF` token of the one-space
source is not `Whitespace`-typed. -/
theorem tokenize_no_whitespace_tokens_witness :
    Token.type ⟨.eof, "", ⟨1, 2, 1, 0⟩⟩ ≠ TokenType.whitespace :=
  tokenize_no_whitespace_tokens [' '] ⟨.eof, "", ⟨1, 2, 1, 0⟩⟩ (by decide)

/-- C7, counterexample: on the one-space source the token stream is just
`EOF` — the whitespace is not represented by any token, although the claim
says whitespace tokens are present in the stream. -/
theorem whitespace_source_has_no_whitespace_token :
    tokenize [' '] = [⟨.eof, "", ⟨1, 2, 1, 0⟩⟩] := by
  decide

/-! ### C6 — duration suffix and the word boundary -/

/-- `takeWhile` stops exactly at the end of an all-satisfying prefix. -/
theorem takeWhile_append_cons {α : Type} {p : α → Bool} (l : List α) (c : α)
    (r : List α) (hl : ∀ x ∈ l, p x = true) (hc : p c = false) :
    (l ++ c :: r).takeWhile p = l := by
  induction l with
  | nil => simp [List.takeWhile_cons, hc]
  | cons a l ih =>
    simp only [List.cons_append, List.takeWhile_cons, hl a (by simp), if_true,
      ih (fun x hx => hl x (by simp [hx]))]

/-- C6, amended: after scanning digits, the `s`/`ms`/`min`/`h` suffix
promotes to `Duration` exactly when it is followed by end of input or by a
character that is **not** a JavaScript word character (letter, digit or
underscore — the `\b` class, which does *not* include the hyphen):
a word character after the suffix leaves a plain `Number` of the digits. -/
theorem isHexStart_cons2_false {a b : Char} {l : List Char}
    (h : a ≠ '0' ∨ (b ≠ 'x' ∧ b ≠ 'X')) : isHexStart (a :: b :: l) = false := by
  show (decide (a = '0') && (decide (b = 'x') || decide (b = 'X'))) = false
  rcases h with h0 | ⟨hx, hX⟩
  · simp [h0]
  · simp [hx, hX]

/-- A digit is neither `x` nor `X`. -/
theorem isDigit_ne_xX {ch : Char} (h : isDigit ch = true) :
    ch ≠ 'x' ∧ ch ≠ 'X' := by
  constructor <;> (rintro rfl; exact absurd h (by decide))

/-- No fraction is consumed when the next character is not a dot. -/
theorem fracLen_cons_ne_dot (d : Nat) (c₀ : Char) (r : List Char)
    (h : c₀ ≠ '.') : fracLen d (c₀ :: r) = d := by
  cases r with
  | nil => rfl
  | cons c₁ r => simp [fracLen, h]

/-- The suffix step with no percent sign falls through to the duration
regex. -/
theorem suffixTok_cons_ne_pct (c₀ : Char) (r : List Char) (d2 : Nat)
    (h : c₀ ≠ '%') :
    suffixTok (c₀ :: r) d2 =
      (match durMatch (c₀ :: r) with
       | some k => (TokenType.duration, d2 + k)
       | none => (TokenType.number, d2)) := by
  rw [suffixTok, if_neg (by simp [h])]

theorem durMatch_s (r : List Char) :
    durMatch ('s' :: r) = if atWordBoundary r then some 1 else none := rfl

theorem durMatch_ms (r : List Char) :
    durMatch ('m' :: 's' :: r) = if atWordBoundary r then some 2 else none := rfl

theorem durMatch_min (r : List Char) :
    durMatch ('m' :: 'i' :: 'n' :: r) =
      if atWordBoundary r then some 3 else none := rfl

theorem durMatch_h (r : List Char) :
    durMatch ('h' :: r) = if atWordBoundary r then some 1 else none := rfl

/-- C6, amended: after scanning digits, the `s`/`ms`/`min`/`h` suffix
promotes to `Duration` exactly when it is followed by end of input or by a
character that is **not** a JavaScript word character (letter, digit or
underscore — the `\b` class, which does *not* include the hyphen):
a word character after the suffix leaves a plain `Number` of the digits. -/
theorem scanNumber_duration_word_boundary (ds u : List Char) (c : Char)
    (rest : List Char) (hne : ds ≠ []) (hds : ∀ x ∈ ds, isDigit x = true)
    (hu : u = ['s'] ∨ u = ['m', 's'] ∨ u = ['m', 'i', 'n'] ∨ u = ['h']) :
    (jsWordChar c = false →
      scanNumberTok (ds ++ u ++ c :: rest) =
        (.duration, ds.length + u.length)) ∧
    (jsWordChar c = true →
      scanNumberTok (ds ++ u ++ c :: rest) = (.number, ds.length)) := by
  have huhead : ∃ u₀ u', u = u₀ :: u' ∧ isDigit u₀ = false ∧ u₀ ≠ '.' ∧
      u₀ ≠ '%' := by
    rcases hu with rfl | rfl | rfl | rfl
    · exact ⟨'s', [], rfl, by decide, by decide, by decide⟩
    · exact ⟨'m', ['s'], rfl, by decide, by decide, by decide⟩
    · exact ⟨'m', ['i', 'n'], rfl, by decide, by decide, by decide⟩
    · exact ⟨'h', [], rfl, by decide, by decide, by decide⟩
  obtain ⟨u₀, u', hu01, hu₀, hdot, hpct⟩ := huhead
  have hxX : ∀ b : Char, b ∈ (u₀ :: u') ∨ isDigit b = true →
      b ≠ 'x' ∧ b ≠ 'X' := by
    intro b hb
    rcases hb with hb | hb
    · rcases hu with h4 | h4 | h4 | h4 <;> rw [hu01] at h4 <;> rw [h4] at hb <;>
        (constructor <;> (rintro rfl; revert hb; decide))
    · exact isDigit_ne_xX hb
  have hhex : isHexStart (ds ++ u ++ c :: rest) = false := by
    match ds, hne with
    | [d], _ =>
      have : [d] ++ u ++ c :: rest = d :: u₀ :: (u' ++ c :: rest) := by
        simp [hu01]
      rw [this]
      exact isHexStart_cons2_false (Or.inr (hxX u₀ (Or.inl (by simp))))
    | d₁ :: d₂ :: ds', _ =>
      have : (d₁ :: d₂ :: ds') ++ u ++ c :: rest =
          d₁ :: d₂ :: (ds' ++ u ++ c :: rest) := by simp
      rw [this]
      exact isHexStart_cons2_false
        (Or.inr (hxX d₂ (Or.inr (hds d₂ (by simp)))))
  subst hu01
  have htw : ((ds ++ (u₀ :: u') ++ c :: rest).takeWhile isDigit) = ds := by
    rw [List.append_assoc, List.cons_append]
    exact takeWhile_append_cons ds u₀ (u' ++ c :: rest) hds hu₀
  have hdrop : (ds ++ (u₀ :: u') ++ c :: rest).drop ds.length =
      u₀ :: (u' ++ c :: rest) := by
    rw [List.append_assoc, List.cons_append, List.drop_left]
  have hfrac : fracLen ((ds ++ (u₀ :: u') ++ c :: rest).takeWhile isDigit).length
      ((ds ++ (u₀ :: u') ++ c :: rest).drop
        ((ds ++ (u₀ :: u') ++ c :: rest).takeWhile isDigit).length) = ds.length := by
    rw [htw, hdrop]
    exact fracLen_cons_ne_dot ds.length u₀ (u' ++ c :: rest) hdot
  have hmain : scanNumberTok (ds ++ (u₀ :: u') ++ c :: rest) =
      suffixTok (u₀ :: (u' ++ c :: rest)) ds.length := by
    rw [scanNumberTok, if_neg (by rw [hhex]; exact Bool.false_ne_true)]
    simp only [hfrac, hdrop]
  rw [hmain, suffixTok_cons_ne_pct u₀ (u' ++ c :: rest) ds.length hpct]
  constructor
  · intro hc
    have hbnd : atWordBoundary (c :: rest) = true := by
      simp [atWordBoundary, hc]
    rcases hu with h4 | h4 | h4 | h4 <;>
      (rw [List.cons.injEq] at h4
       obtain ⟨rfl, rfl⟩ := h4) <;>
      simp [durMatch_s, durMatch_ms, durMatch_min, durMatch_h, hbnd]
  · intro hc
    have hbnd : atWordBoundary (c :: rest) = false := by
      simp [atWordBoundary, hc]
    rcases hu with h4 | h4 | h4 | h4 <;>
      (rw [List.cons.injEq] at h4
       obtain ⟨rfl, rfl⟩ := h4) <;>
      simp [durMatch_s, durMatch_ms, durMatch_min, durMatch_h, hbnd]

/-- C6, witness for the amended theorem: `"60s"` before `"-"` (not a word
character) is promoted to a 3-character `Duration`, and before `"x"` (a
word character) stays a 2-character `Number`. -/
theorem scanNumber_duration_word_boundary_witness :
    scanNumberTok (['6', '0'] ++ ['s'] ++ '-' :: ['x']) =
      (.duration, 3) ∧
    scanNumberTok (['6', '0'] ++ ['s'] ++ 'x' :: []) = (.number, 2) :=
  ⟨(scanNumber_duration_word_boundary ['6', '0'] ['s'] '-' ['x'] (by decide)
      (by decide) (Or.inl rfl)).1 (by decide),
   (scanNumber_duration_word_boundary ['6', '0'] ['s'] 'x' [] (by decide)
      (by decide) (Or.inl rfl)).2 (by decide)⟩

/-- C6, counterexample: in `"60s-x"` the suffix `s` is followed by a
hyphen, which *is* identifier-continue, yet the lexer emits a `Duration`
token `"60s"` (the claim says this must stay a `Number`): the code's
boundary test is the regex `\b`, whose word class does not contain the
hyphen. -/
theorem duration_promoted_before_hyphen :
    (tokenize ['6', '0', 's', '-', 'x']).head? =
      some ⟨.duration, "60s", ⟨1, 1, 0, 3⟩⟩ ∧
    isIdentPart '-' = true := by
  constructor
  · decide
  · decide

/-! ## Parser (`src/engine/parser.ts`)

State-passing embedding of the recursive-descent parser.  The mutable
`Parser` fields `pos` and `diagnostics` become `PState`; the token array
is a fixed argument.  The `while` loops are fuel-indexed, each entered
with fuel `tks.length + 1`, and a loop that exhausts its fuel yields
`none`; `parse_terminates` proves the fuel — one unit per loop iteration,
and every iteration advances the cursor — always suffices, which is the
O(n)-advances termination bound. -/

/-- Parser cursor and diagnostics (`Parser.pos`, `Parser.diagnostics`). -/
structure PState where
  pos : Nat
  diagnostics : List Diagnostic
deriving DecidableEq, Repr

/-- `parser.ts` — the fallback token `current()` fabricates past the end
(unreachable for lexer-produced streams, which end in `EOF`). -/
def dummyTok : Token := ⟨.eof, "", ⟨1, 1, 0, 0⟩⟩

/-- `parser.ts` — `current()`. -/
def current (tks : List Token) (st : PState) : Token :=
  tks.getD st.pos dummyTok

/-- `parser.ts` — `currentValue()`. -/
def currentValue (tks : List Token) (st : PState) : String :=
  (current tks st).value

/-- `parser.ts` — `currentSpan()`. -/
def currentSpan (tks : List Token) (st : PState) : SourceSpan :=
  (current tks st).span

/-- `parser.ts` — `prevSpan()`. -/
def prevSpan (tks : List Token) (st : PState) : SourceSpan :=
  if st.pos > 0 then (tks.getD (st.pos - 1) dummyTok).span
  else currentSpan tks st

/-- `parser.ts` — `isAtEnd()`. -/
def isAtEnd (tks : List Token) (st : PState) : Bool :=
  (current tks st).type == .eof

/-- `parser.ts` — `check(type)`. -/
def check (tks : List Token) (st : PState) (ty : TokenType) : Bool :=
  (current tks st).type == ty

/-- `parser.ts` — `check(type, value)`. -/
def checkV (tks : List Token) (st : PState) (ty : TokenType) (v : String) :
    Bool :=
  (current tks st).type == ty && (current tks st).value == v

/-- `parser.ts` — `advance()` (the returned token is unused by every
caller that matters; cursor movement is the effect). -/
def advance (tks : List Token) (st : PState) : PState :=
  if isAtEnd tks st then st else { st with pos := st.pos + 1 }

/-- `parser.ts` — `error(message)`: push a rule-less parse error at the
current span. -/
def pushErr (tks : List Token) (st : PState) (msg : String) : PState :=
  { st with diagnostics := st.diagnostics ++
      [{ message := msg, severity := .error, span := currentSpan tks st }] }

/-- `parser.ts` — `expect(type, value)`. -/
def expectV (tks : List Token) (st : PState) (ty : TokenType) (v : String) :
    Bool × PState :=
  if checkV tks st ty v then (true, advance tks st)
  else
    (false, pushErr tks st
      ("Expected '" ++ v ++ "', got '" ++ currentValue tks st ++ "'"))

/-- The enum value strings of `TokenType` (TypeScript string enum), used
by `expectToken`'s fallback message. -/
def tokenTypeName : TokenType → String
  | .string => "String" | .number => "Number" | .percent => "Percent"
  | .duration => "Duration" | .boolean => "Boolean" | .hexNumber => "HexNumber"
  | .keyword => "Keyword" | .identifier => "Identifier" | .jmessage => "JMessage"
  | .lbrace => "LBrace" | .rbrace => "RBrace" | .lbracket => "LBracket"
  | .rbracket => "RBracket" | .colon => "Colon" | .comma => "Comma"
  | .greaterThanOrEqual => "GreaterThanOrEqual"
  | .lessThanOrEqual => "LessThanOrEqual"
  | .greaterThan => "GreaterThan" | .lessThan => "LessThan"
  | .equalEqual => "EqualEqual" | .notEqual => "NotEqual"
  | .comment => "Comment" | .whitespace => "Whitespace" | .newline => "Newline"
  | .eof => "EOF" | .unknown => "Unknown"

/-- `parser.ts` — the `expected` display name in `expectToken`. -/
def expectedName (ty : TokenType) : String :=
  if ty = .lbrace then "\x7b"
  else if ty = .rbrace then "\x7d"
  else if ty = .rbracket then "]"
  else if ty = .colon then ":"
  else tokenTypeName ty

/-- `parser.ts` — `expectToken(type)`. -/
def expectToken (tks : List Token) (st : PState) (ty : TokenType) :
    Bool × PState :=
  if check tks st ty then (true, advance tks st)
  else
    (false, pushErr tks st
      ("Expected '" ++ expectedName ty ++ "', got '" ++
        currentValue tks st ++ "'"))

/-- JavaScript `value.slice(1, -1)` (strip the surrounding quotes). -/
def jsSliceInner (s : String) : String :=
  String.mk ((s.data.drop 1).dropLast)

/-- `parser.ts` — `expectString()`. -/
def expectString (tks : List Token) (st : PState) : String × PState :=
  if check tks st .string then
    (jsSliceInner (currentValue tks st), advance tks st)
  else
    ("<missing>", pushErr tks st
      ("Expected string, got '" ++ currentValue tks st ++ "'"))

/-- `parser.ts` — `mergeSpans(start, end)`. -/
def mergeSpans (s e : SourceSpan) : SourceSpan :=
  ⟨s.line, s.column, s.offset, (e.offset + e.length) - s.offset⟩

/-- `parser.ts` — is the current token one of the declaration keywords
`synchronize` stops at? -/
def atDeclKeyword (tks : List Token) (st : PState) : Bool :=
  checkV tks st .keyword "network" || checkV tks st .keyword "terminal" ||
  checkV tks st .keyword "net" || checkV tks st .keyword "subnetwork" ||
  checkV tks st .keyword "messages" || checkV tks st .keyword "filters"

/-- `parser.ts` — the `synchronize()` loop, fuel-indexed. -/
def synchronizeF (tks : List Token) : Nat → PState → Option PState
  | 0, _ => none
  | fuel + 1, st =>
    if isAtEnd tks st then some st
    else if check tks st .rbrace then some (advance tks st)
    else if atDeclKeyword tks st then some st
    else synchronizeF tks fuel (advance tks st)

/-- `parser.ts` — `synchronize()`. -/
def synchronize (tks : List Token) (st : PState) : Option PState :=
  synchronizeF tks (tks.length + 1) st

/-- Digit run value, for JavaScript number parsing. -/
def decDigitsVal (ds : List Char) : Nat :=
  ds.foldl (fun a c => 10 * a + (c.toNat - '0'.toNat)) 0

/-- JavaScript `parseFloat` / `Number(...)` on the numeric lexemes the
lexer produces (digits with an optional fraction; `parseFloat` ignores a
trailing `%`). -/
def jsParseFloat (s : String) : Rat :=
  let cs := s.data
  let ip := cs.takeWhile isDigit
  match cs.drop ip.length with
  | '.' :: r =>
    let fp := r.takeWhile isDigit
    (decDigitsVal ip : Rat) + (decDigitsVal fp : Rat) / ((10 : Rat) ^ fp.length)
  | _ => (decDigitsVal ip : Rat)

/-- `parser.ts` — the loop of `parseArrayValue`, fuel-indexed, collecting
the element strings. -/
def arrLoopF (tks : List Token) :
    Nat → PState → List String → Option (List String × PState)
  | 0, _, _ => none
  | fuel + 1, st, elems =>
    if !check tks st .rbracket && !isAtEnd tks st then
      let (elems, st) :=
        if check tks st .identifier || check tks st .keyword ||
            check tks st .jmessage then
          (elems ++ [currentValue tks st], advance tks st)
        else if check tks st .string then
          (elems ++ [jsSliceInner (currentValue tks st)], advance tks st)
        else
          (elems, advance tks (pushErr tks st
            ("Unexpected token '" ++ currentValue tks st ++ "' in array")))
      let st := if check tks st .comma then advance tks st else st
      arrLoopF tks fuel st elems
    else some (elems, st)

/-- `parser.ts` — `parseArrayValue()`: skip `[`, collect elements, expect
`]` (the array node is produced even when `]` is missing). -/
def parseArrayValue (tks : List Token) (st : PState) :
    Option (Option PropertyValue × PState) := do
  let st := advance tks st
  let (elems, st) ← arrLoopF tks (tks.length + 1) st []
  let (_, st) := expectToken tks st .rbracket
  some (some (.array elems), st)

/-- `parser.ts` — `parsePropertyValue()`: one token (or an array) builds
the tagged value; `JMessage` and every other unlisted token type fall to
the default branch and yield `null` without consuming. -/
def parsePropertyValue (tks : List Token) (st : PState) :
    Option (Option PropertyValue × PState) :=
  let token := current tks st
  match token.type with
  | .string => some (some (.string (jsSliceInner token.value)), advance tks st)
  | .number => some (some (.number (jsParseFloat token.value)), advance tks st)
  | .percent => some (some (.percent (jsParseFloat token.value)), advance tks st)
  | .duration => some (some (.duration token.value), advance tks st)
  | .boolean => some (some (.boolean (token.value == "true")), advance tks st)
  | .hexNumber => some (some (.hex token.value), advance tks st)
  | .identifier => some (some (.identifier token.value), advance tks st)
  | .keyword => some (some (.identifier token.value), advance tks st)
  | .lbracket => parseArrayValue tks st
  | _ => some (none, st)

/-- `parser.ts` — `parsePropertyAssignment()`. -/
def parsePropertyAssignment (tks : List Token) (st : PState) :
    Option (Option PropertyAssignment × PState) := do
  let startSpan := currentSpan tks st
  let key := currentValue tks st
  let st := advance tks st
  match expectToken tks st .colon with
  | (false, st) => some (none, st)
  | (true, st) =>
    let (v?, st) ← parsePropertyValue tks st
    match v? with
    | none =>
      some (none, pushErr tks st ("Expected value for property '" ++ key ++ "'"))
    | some value =>
      let st := if check tks st .comma then advance tks st else st
      some (some ⟨key, value, mergeSpans startSpan (prevSpan tks st)⟩, st)

/-- `parser.ts` — the loop of `parsePropertyBlock()`, fuel-indexed. -/
def propBlockF (tks : List Token) :
    Nat → PState → List PropertyAssignment →
      Option (List PropertyAssignment × PState)
  | 0, _, _ => none
  | fuel + 1, st, props =>
    if !check tks st .rbrace && !isAtEnd tks st then
      if check tks st .keyword || check tks st .identifier then do
        let (p?, st) ← parsePropertyAssignment tks st
        match p? with
        | some p => propBlockF tks fuel st (props ++ [p])
        | none => propBlockF tks fuel st props
      else
        propBlockF tks fuel (advance tks (pushErr tks st
          ("Unexpected token '" ++ currentValue tks st ++
            "' in property block"))) props
    else some (props, st)

/-- `parser.ts` — `parsePropertyBlock()`. -/
def parsePropertyBlock (tks : List Token) (st : PState) :
    Option (List PropertyAssignment × PState) :=
  propBlockF tks (tks.length + 1) st []

/-- `parser.ts` — the shared shape of `parseTerminalDeclaration`,
`parseNetDeclaration` and `parseMemberDeclaration` (the three are
line-for-line identical up to the keyword and node constructor): keyword,
string name, `{`, property block, `}`; a missing `{` synchronizes and
yields no node. -/
def parseSimpleDecl (tks : List Token) (kw : String) (st : PState) :
    Option (Option (String × List PropertyAssignment × SourceSpan) × PState) := do
  let startSpan := currentSpan tks st
  let (_, st) := expectV tks st .keyword kw
  let (name, st) := expectString tks st
  match expectToken tks st .lbrace with
  | (false, st) => do
    let st ← synchronize tks st
    some (none, st)
  | (true, st) => do
    let (props, st) ← parsePropertyBlock tks st
    let endSpan := currentSpan tks st
    let (_, st) := expectToken tks st .rbrace
    some (some (name, props, mergeSpans startSpan endSpan), st)

/-- `parser.ts` — `parseTerminalDeclaration()`. -/
def parseTerminalDeclaration (tks : List Token) (st : PState) :
    Option (Option TerminalDeclaration × PState) := do
  let (r?, st) ← parseSimpleDecl tks "terminal" st
  some (r?.map (fun r => ⟨r.1, r.2.1, r.2.2⟩), st)

/-- `parser.ts` — `parseNetDeclaration()`. -/
def parseNetDeclaration (tks : List Token) (st : PState) :
    Option (Option NetDeclaration × PState) := do
  let (r?, st) ← parseSimpleDecl tks "net" st
  some (r?.map (fun r => ⟨r.1, r.2.1, r.2.2⟩), st)

/-- `parser.ts` — `parseMemberDeclaration()`. -/
def parseMemberDeclaration (tks : List Token) (st : PState) :
    Option (Option MemberDeclaration × PState) := do
  let (r?, st) ← parseSimpleDecl tks "member" st
  some (r?.map (fun r => ⟨r.1, r.2.1, r.2.2⟩), st)

/-- `parser.ts` — the body loop of `parseSubnetworkDeclaration`. -/
def subnetBodyF (tks : List Token) :
    Nat → PState → List PropertyAssignment → List MemberDeclaration →
      Option ((List PropertyAssignment × List MemberDeclaration) × PState)
  | 0, _, _, _ => none
  | fuel + 1, st, props, members =>
    if !check tks st .rbrace && !isAtEnd tks st then
      if checkV tks st .keyword "member" then do
        let (m?, st) ← parseMemberDeclaration tks st
        match m? with
        | some m => subnetBodyF tks fuel st props (members ++ [m])
        | none => subnetBodyF tks fuel st props members
      else if check tks st .keyword || check tks st .identifier then do
        let (p?, st) ← parsePropertyAssignment tks st
        match p? with
        | some p => subnetBodyF tks fuel st (props ++ [p]) members
        | none => subnetBodyF tks fuel st props members
      else
        subnetBodyF tks fuel (advance tks (pushErr tks st
          ("Unexpected token '" ++ currentValue tks st ++
            "' in subnetwork body"))) props members
    else some ((props, members), st)

/-- `parser.ts` — `parseSubnetworkDeclaration()`. -/
def parseSubnetworkDeclaration (tks : List Token) (st : PState) :
    Option (Option SubnetworkDeclaration × PState) := do
  let startSpan := currentSpan tks st
  let (_, st) := expectV tks st .keyword "subnetwork"
  let (name, st) := expectString tks st
  match expectToken tks st .lbrace with
  | (false, st) => do
    let st ← synchronize tks st
    some (none, st)
  | (true, st) => do
    let ((props, members), st) ← subnetBodyF tks (tks.length + 1) st [] []
    let endSpan := currentSpan tks st
    let (_, st) := expectToken tks st .rbrace
    some (some ⟨name, props, members, mergeSpans startSpan endSpan⟩, st)

/-- `parser.ts` — `parseMessageEntry()`. -/
def parseMessageEntry (tks : List Token) (st : PState) :
    Option (Option MessageEntry × PState) := do
  let startSpan := currentSpan tks st
  let messageId := currentValue tks st
  let st := advance tks st
  match expectToken tks st .lbrace with
  | (false, st) => do
    let st ← synchronize tks st
    some (none, st)
  | (true, st) => do
    let (props, st) ← parsePropertyBlock tks st
    let endSpan := currentSpan tks st
    let (_, st) := expectToken tks st .rbrace
    some (some ⟨messageId, props, mergeSpans startSpan endSpan⟩, st)

/-- `parser.ts` — the entry loop of `parseMessageCatalog`. -/
def msgCatF (tks : List Token) :
    Nat → PState → List MessageEntry → Option (List MessageEntry × PState)
  | 0, _, _ => none
  | fuel + 1, st, entries =>
    if !check tks st .rbrace && !isAtEnd tks st then
      if check tks st .jmessage then do
        let (e?, st) ← parseMessageEntry tks st
        match e? with
        | some e => msgCatF tks fuel st (entries ++ [e])
        | none => msgCatF tks fuel st entries
      else
        msgCatF tks fuel (advance tks (pushErr tks st
          ("Expected J-message identifier, got '" ++
            currentValue tks st ++ "'"))) entries
    else some (entries, st)

/-- `parser.ts` — `parseMessageCatalog()`. -/
def parseMessageCatalog (tks : List Token) (st : PState) :
    Option (Option MessageCatalog × PState) := do
  let startSpan := currentSpan tks st
  let (_, st) := expectV tks st .keyword "messages"
  match expectToken tks st .lbrace with
  | (false, st) => do
    let st ← synchronize tks st
    some (none, st)
  | (true, st) => do
    let (entries, st) ← msgCatF tks (tks.length + 1) st []
    let endSpan := currentSpan tks st
    let (_, st) := expectToken tks st .rbrace
    some (some ⟨entries, mergeSpans startSpan endSpan⟩, st)

/-- `parser.ts` — `parseCondition()` (loop-free, hence no fuel). -/
def parseCondition (tks : List Token) (st : PState) :
    Option ConditionExpression × PState :=
  let startSpan := currentSpan tks st
  if !check tks st .keyword && !check tks st .identifier then
    (none, pushErr tks st "Expected field name in condition")
  else
    let field := currentValue tks st
    let st := advance tks st
    let opToken := current tks st
    let op? : Option CompareOp :=
      match opToken.type with
      | .greaterThanOrEqual => some .ge
      | .lessThanOrEqual => some .le
      | .greaterThan => some .gt
      | .lessThan => some .lt
      | .equalEqual => some .eq
      | .notEqual => some .ne
      | _ => none
    match op? with
    | none =>
      (none, pushErr tks st
        ("Expected comparison operator, got '" ++ currentValue tks st ++ "'"))
    | some operator =>
      let st := advance tks st
      let value := currentValue tks st
      let endSpan := currentSpan tks st
      let st := advance tks st
      (some ⟨field, operator, value, mergeSpans startSpan endSpan⟩, st)

/-- `parser.ts` — `parseWhereClause()` (loop-free). -/
def parseWhereClause (tks : List Token) (st : PState) :
    Option WhereClause × PState :=
  let startSpan := currentSpan tks st
  let (_, st) := expectV tks st .keyword "where"
  match expectToken tks st .lbrace with
  | (false, st) => (none, st)
  | (true, st) =>
    let (condition?, st) := parseCondition tks st
    let endSpan := currentSpan tks st
    let (_, st) := expectToken tks st .rbrace
    match condition? with
    | none => (none, st)
    | some condition =>
      (some ⟨condition, mergeSpans startSpan endSpan⟩, st)

/-- `parser.ts` — `parseFilterRule()` (loop-free). -/
def parseFilterRule (tks : List Token) (st : PState) :
    Option FilterRule × PState :=
  let startSpan := currentSpan tks st
  let act? : Option (FilterAction × String) :=
    if checkV tks st .keyword "accept" then some (.accept, "accept")
    else if checkV tks st .keyword "drop" then some (.drop, "drop")
    else none
  match act? with
  | none =>
    (none, advance tks (pushErr tks st
      ("Expected 'accept' or 'drop', got '" ++ currentValue tks st ++ "'")))
  | some (action, actionName) =>
    let st := advance tks st
    if !check tks st .jmessage then
      (none, pushErr tks st
        ("Expected J-message identifier after '" ++ actionName ++ "'"))
    else
      let messageId := currentValue tks st
      let st := advance tks st
      let (whereClause, st) :=
        if checkV tks st .keyword "where" then parseWhereClause tks st
        else (none, st)
      (some ⟨action, messageId, whereClause,
        mergeSpans startSpan (prevSpan tks st)⟩, st)

/-- `parser.ts` — the rule loop inside an `inbound`/`outbound` section. -/
def filterRulesF (tks : List Token) :
    Nat → PState → List FilterRule → Option (List FilterRule × PState)
  | 0, _, _ => none
  | fuel + 1, st, rules =>
    if !check tks st .rbrace && !isAtEnd tks st then
      let (r?, st) := parseFilterRule tks st
      match r? with
      | some r => filterRulesF tks fuel st (rules ++ [r])
      | none => filterRulesF tks fuel st rules
    else some (rules, st)

/-- `parser.ts` — the section loop of `parseFilterBlock`. -/
def filterSectionsF (tks : List Token) :
    Nat → PState → List FilterRule → List FilterRule →
      Option ((List FilterRule × List FilterRule) × PState)
  | 0, _, _, _ => none
  | fuel + 1, st, inbound, outbound =>
    if !check tks st .rbrace && !isAtEnd tks st then
      if checkV tks st .keyword "inbound" then
        let st := advance tks st
        match expectToken tks st .lbrace with
        | (false, st) => do
          let st ← synchronize tks st
          filterSectionsF tks fuel st inbound outbound
        | (true, st) => do
          let (rules, st) ← filterRulesF tks (tks.length + 1) st []
          let (_, st) := expectToken tks st .rbrace
          filterSectionsF tks fuel st (inbound ++ rules) outbound
      else if checkV tks st .keyword "outbound" then
        let st := advance tks st
        match expectToken tks st .lbrace with
        | (false, st) => do
          let st ← synchronize tks st
          filterSectionsF tks fuel st inbound outbound
        | (true, st) => do
          let (rules, st) ← filterRulesF tks (tks.length + 1) st []
          let (_, st) := expectToken tks st .rbrace
          filterSectionsF tks fuel st inbound (outbound ++ rules)
      else
        filterSectionsF tks fuel (advance tks (pushErr tks st
          ("Expected 'inbound' or 'outbound', got '" ++
            currentValue tks st ++ "'"))) inbound outbound
    else some ((inbound, outbound), st)

/-- `parser.ts` — `parseFilterBlock()`. -/
def parseFilterBlock (tks : List Token) (st : PState) :
    Option (Option FilterBlock × PState) := do
  let startSpan := currentSpan tks st
  let (_, st) := expectV tks st .keyword "filters"
  match expectToken tks st .lbrace with
  | (false, st) => do
    let st ← synchronize tks st
    some (none, st)
  | (true, st) => do
    let ((inbound, outbound), st) ← filterSectionsF tks (tks.length + 1) st [] []
    let endSpan := currentSpan tks st
    let (_, st) := expectToken tks st .rbrace
    some (some ⟨inbound, outbound, mergeSpans startSpan endSpan⟩, st)

/-- Accumulator of `parseNetworkDeclaration`'s body loop (the six local
arrays and slots of the TypeScript function). -/
structure NetAcc where
  properties : List PropertyAssignment
  terminals : List TerminalDeclaration
  nets : List NetDeclaration
  subnetworks : List SubnetworkDeclaration
  messages : Option MessageCatalog
  filters : Option FilterBlock
deriving DecidableEq, Repr

/-- `parser.ts` — the body loop of `parseNetworkDeclaration`. -/
def netBodyF (tks : List Token) :
    Nat → PState → NetAcc → Option (NetAcc × PState)
  | 0, _, _ => none
  | fuel + 1, st, acc =>
    if !check tks st .rbrace && !isAtEnd tks st then
      if checkV tks st .keyword "terminal" then do
        let (t?, st) ← parseTerminalDeclaration tks st
        match t? with
        | some t =>
          netBodyF tks fuel st { acc with terminals := acc.terminals ++ [t] }
        | none => netBodyF tks fuel st acc
      else if checkV tks st .keyword "net" then do
        let (n?, st) ← parseNetDeclaration tks st
        match n? with
        | some n => netBodyF tks fuel st { acc with nets := acc.nets ++ [n] }
        | none => netBodyF tks fuel st acc
      else if checkV tks st .keyword "subnetwork" then do
        let (s?, st) ← parseSubnetworkDeclaration tks st
        match s? with
        | some s =>
          netBodyF tks fuel st { acc with subnetworks := acc.subnetworks ++ [s] }
        | none => netBodyF tks fuel st acc
      else if checkV tks st .keyword "messages" then do
        let (m?, st) ← parseMessageCatalog tks st
        netBodyF tks fuel st { acc with messages := m? }
      else if checkV tks st .keyword "filters" then do
        let (f?, st) ← parseFilterBlock tks st
        netBodyF tks fuel st { acc with filters := f? }
      else if check tks st .keyword || check tks st .identifier then do
        let (p?, st) ← parsePropertyAssignment tks st
        match p? with
        | some p =>
          netBodyF tks fuel st { acc with properties := acc.properties ++ [p] }
        | none => netBodyF tks fuel st acc
      else
        netBodyF tks fuel (advance tks (pushErr tks st
          ("Unexpected token '" ++ currentValue tks st ++
            "' in network body"))) acc
    else some (acc, st)

/-- `parser.ts` — `parseNetworkDeclaration()`. -/
def parseNetworkDeclaration (tks : List Token) (st : PState) :
    Option (Option NetworkDeclaration × PState) := do
  let startSpan := currentSpan tks st
  let (_, st) := expectV tks st .keyword "network"
  let (name, st) := expectString tks st
  match expectToken tks st .lbrace with
  | (false, st) => do
    let st ← synchronize tks st
    some (none, st)
  | (true, st) => do
    let (acc, st) ← netBodyF tks (tks.length + 1) st ⟨[], [], [], [], none, none⟩
    let endSpan := currentSpan tks st
    let (_, st) := expectToken tks st .rbrace
    some (some ⟨name, acc.properties, acc.terminals, acc.nets, acc.subnetworks,
      acc.messages, acc.filters, mergeSpans startSpan endSpan⟩, st)

/-- `parser.ts` — the top-level loop of `parse()`. -/
def parseDocF (tks : List Token) :
    Nat → PState → List NetworkDeclaration →
      Option (List NetworkDeclaration × PState)
  | 0, _, _ => none
  | fuel + 1, st, networks =>
    if !isAtEnd tks st then
      if checkV tks st .keyword "network" then do
        let (n?, st) ← parseNetworkDeclaration tks st
        match n? with
        | some n => parseDocF tks fuel st (networks ++ [n])
        | none => parseDocF tks fuel st networks
      else
        parseDocF tks fuel (advance tks (pushErr tks st
          ("Expected 'network' declaration, got '" ++
            currentValue tks st ++ "'"))) networks
    else some (networks, st)

/-- `parser.ts` — `parse(source)` on an already-filtered token stream. -/
def parseToks (tks : List Token) : Option ParseResult := do
  let st : PState := ⟨0, []⟩
  let startSpan := currentSpan tks st
  let (networks, st) ← parseDocF tks (tks.length + 1) st []
  let endSpan := currentSpan tks st
  some ⟨⟨networks, mergeSpans startSpan endSpan⟩, st.diagnostics⟩

/-- `parser.ts` — `parse(source)`: lex (trivia filtered as in the
constructor) and run the top-level loop. -/
def parse (src : List Char) : Option ParseResult :=
  parseToks (lexSignificant src)

/-- C8 counterexample: parsing `network "X" \x7b npg_message: J3/2 \x7d`
produces NO Property node — the network's property list is empty — and the
parser reports "Expected value for property 'npg_message'" followed by
"Unexpected token 'J3/2' in network body": a j-message value token is not
accepted as a property value. -/
theorem jmessage_property_not_accepted :
    (parse "network \"X\" \x7b npg_message: J3/2 \x7d".data).map
        (fun r => (r.ast.networks.map (fun n => n.properties),
          r.diagnostics.map (fun d => d.message))) =
      some ([[]],
        ["Expected value for property 'npg_message'",
         "Unexpected token 'J3/2' in network body"]) := by
  decide

/-- C8 (amended): `parsePropertyValue` has no case for the JMessage token
type: whenever the current token is a j-message, it returns `null` without
consuming anything or reporting, so `parsePropertyAssignment` then emits
"Expected value for property '<key>'" and yields no Property node. -/
theorem parsePropertyValue_jmessage_none (tks : List Token) (st : PState)
    (h : (current tks st).type = .jmessage) :
    parsePropertyValue tks st = some (none, st) := by
  simp only [parsePropertyValue, h]

/-- C8 witness for the amended theorem at a concrete j-message token. -/
theorem parsePropertyValue_jmessage_none_witness :
    (current [⟨.jmessage, "J3/2", sp 0⟩] ⟨0, []⟩).type = .jmessage ∧
      parsePropertyValue [⟨.jmessage, "J3/2", sp 0⟩] ⟨0, []⟩ =
        some (none, ⟨0, []⟩) :=
  ⟨rfl, parsePropertyValue_jmessage_none [⟨.jmessage, "J3/2", sp 0⟩] ⟨0, []⟩ rfl⟩

/-! ### Token-stream well-formedness (C5, C9)

The parser's fuel bounds and the span invariants of C9 rest on four facts
about the lexer's output: every consumed count is between 1 and the
remaining input, token spans lie inside the source, offsets are
monotone, and the stream is body-then-`EOF`. -/

/-- A `takeWhile` prefix is no longer than the list. -/
theorem twLe {α : Type} (p : α → Bool) (l : List α) :
    (l.takeWhile p).length ≤ l.length :=
  (List.takeWhile_sublist p).length_le

/-- The duration regex consumes no more than the rest of the input. -/
theorem durMatch_le (l : List Char) (k : Nat) (h : durMatch l = some k) :
    k ≤ l.length := by
  unfold durMatch at h
  split at h <;> simp_all <;> omega

/-- `scanJMessage` consumes no more than the remaining input. -/
theorem scanJTok_le (cs : List Char) (hne : cs ≠ []) :
    scanJTok cs ≤ cs.length := by
  have hcs : 0 < cs.length := List.length_pos.mpr hne
  have hd1 : ((cs.drop 1).takeWhile isDigit).length ≤ cs.length - 1 := by
    have h1 := twLe isDigit (cs.drop 1)
    rw [List.length_drop] at h1
    exact h1
  simp only [scanJTok]
  split
  all_goals rename_i heq
  · rename_i r
    have hlen := congrArg List.length heq
    rw [List.length_drop] at hlen
    simp only [List.length_cons] at hlen
    have hr := twLe isDigit r
    omega
  · omega

/-- `scanString` consumes no more than the remaining input. -/
theorem scanStringTok_le (cs : List Char) (hne : cs ≠ []) :
    scanStringTok cs ≤ cs.length := by
  have hcs : 0 < cs.length := List.length_pos.mpr hne
  have hb : ((cs.drop 1).takeWhile (fun c => c ≠ '"' && c ≠ '\n')).length ≤
      cs.length - 1 := by
    have h1 := twLe (fun c => c ≠ '"' && c ≠ '\n') (cs.drop 1)
    rw [List.length_drop] at h1
    exact h1
  simp only [scanStringTok]
  split
  all_goals rename_i heq
  · rename_i r
    have hlen := congrArg List.length heq
    rw [List.length_drop] at hlen
    simp only [List.length_cons] at hlen
    omega
  · omega

/-- The hex test looks at two characters. -/
theorem isHexStart_len {cs : List Char} (h : isHexStart cs = true) :
    2 ≤ cs.length := by
  unfold isHexStart at h
  split at h
  · rename_i c0 c1 r
    simp only [List.length_cons]
    omega
  · cases h

/-- The fraction step consumes no more than the rest after the digits. -/
theorem fracLen_le (d : Nat) (r1 : List Char) : fracLen d r1 ≤ d + r1.length := by
  unfold fracLen
  split
  · rename_i c0 c1 r
    split
    · have h1 := twLe isDigit (c1 :: r)
      simp only [List.length_cons] at h1 ⊢
      omega
    · simp only [List.length_cons]
      omega
  · omega

/-- The fraction step consumes at least the digits. -/
theorem fracLen_ge (d : Nat) (r1 : List Char) : d ≤ fracLen d r1 := by
  unfold fracLen
  split
  · split <;> omega
  · omega

/-- The suffix step consumes no more than the rest after the number. -/
theorem suffixTok_le (r2 : List Char) (d2 : Nat) :
    (suffixTok r2 d2).2 ≤ d2 + r2.length := by
  unfold suffixTok
  split
  · rename_i hpct
    have hr : 0 < r2.length := by
      cases r2 with
      | nil => simp at hpct
      | cons a l => simp
    simp only
    omega
  · split
    · rename_i k hk
      have h1 := durMatch_le r2 k hk
      simp only
      omega
    · simp only
      omega

/-- The suffix step consumes at least the number itself. -/
theorem suffixTok_ge (r2 : List Char) (d2 : Nat) : d2 ≤ (suffixTok r2 d2).2 := by
  unfold suffixTok
  split
  · simp only
    omega
  · split <;> simp only <;> omega

/-- `scanNumber` consumes no more than the remaining input. -/
theorem scanNumberTok_le (cs : List Char) :
    (scanNumberTok cs).2 ≤ cs.length := by
  simp only [scanNumberTok]
  split
  · rename_i hhex
    have h2 := isHexStart_len hhex
    have h3 := twLe isHexDigit (cs.drop 2)
    rw [List.length_drop] at h3
    simp only
    omega
  · have hd := twLe isDigit cs
    have hf := fracLen_le ((cs.takeWhile isDigit).length)
      (cs.drop ((cs.takeWhile isDigit).length))
    rw [List.length_drop] at hf
    have hs := suffixTok_le
      (cs.drop (fracLen ((cs.takeWhile isDigit).length)
        (cs.drop ((cs.takeWhile isDigit).length))))
      (fracLen ((cs.takeWhile isDigit).length)
        (cs.drop ((cs.takeWhile isDigit).length)))
    rw [List.length_drop] at hs
    omega

/-- `scanNumber` consumes at least one character (the leading digit). -/
theorem scanNumberTok_pos (c : Char) (cs' : List Char) (h : isDigit c = true) :
    1 ≤ (scanNumberTok (c :: cs')).2 := by
  simp only [scanNumberTok]
  split
  · simp only
    omega
  · have hd : 1 ≤ ((c :: cs').takeWhile isDigit).length := by
      rw [List.takeWhile_cons_of_pos h]
      simp
    have hf := fracLen_ge (((c :: cs').takeWhile isDigit).length)
      ((c :: cs').drop (((c :: cs').takeWhile isDigit).length))
    have hs := suffixTok_ge
      ((c :: cs').drop (fracLen (((c :: cs').takeWhile isDigit).length)
        ((c :: cs').drop (((c :: cs').takeWhile isDigit).length))))
      (fracLen (((c :: cs').takeWhile isDigit).length)
        ((c :: cs').drop (((c :: cs').takeWhile isDigit).length)))
    omega

/-- `scanIdentifier` consumes no more than the remaining input. -/
theorem scanIdentTok_le (cs : List Char) : (scanIdentTok cs).2 ≤ cs.length := by
  simp only [scanIdentTok]
  have h1 := twLe isIdentPart cs
  repeat' split
  all_goals simpa using h1

/-- `scanIdentifier` consumes at least one character. -/
theorem scanIdentTok_pos (c : Char) (cs' : List Char)
    (h : isIdentStart c = true) : 1 ≤ (scanIdentTok (c :: cs')).2 := by
  have hp : isIdentPart c = true := by simp [isIdentPart, h]
  have h1 : 1 ≤ ((c :: cs').takeWhile isIdentPart).length := by
    rw [List.takeWhile_cons_of_pos hp]
    simp
  simp only [scanIdentTok]
  repeat' split
  all_goals simpa using h1

/-- `scanJMessage` consumes at least one character. -/
theorem scanJTok_pos (cs : List Char) : 1 ≤ scanJTok cs := by
  simp only [scanJTok]
  split <;> omega

/-- `scanString` consumes at least one character. -/
theorem scanStringTok_pos (cs : List Char) : 1 ≤ scanStringTok cs := by
  simp only [scanStringTok]
  split <;> omega

/-- `scanOperator` consumes one or two characters, two only when a second
character exists. -/
theorem scanOpTok_le (c : Char) (cs' : List Char) :
    (scanOpTok c cs'.head?).2 ≤ 1 + cs'.length := by
  cases cs' with
  | nil =>
    unfold scanOpTok
    repeat' split
    all_goals simp_all
  | cons a l =>
    unfold scanOpTok
    repeat' split
    all_goals simp only [List.length_cons] <;> omega

/-- `scanOperator` consumes at least one character. -/
theorem scanOpTok_pos (c : Char) (next : Option Char) :
    1 ≤ (scanOpTok c next).2 := by
  unfold scanOpTok
  repeat' split
  all_goals simp

/-- The `scanToken` tail consumes one or two characters, bounded by the
remaining input. -/
theorem scanTailTok_le (c : Char) (cs' : List Char) :
    (scanTailTok c cs'.head?).2 ≤ 1 + cs'.length := by
  unfold scanTailTok
  split
  · simp only
    omega
  · split
    · exact scanOpTok_le c cs'
    · simp only
      omega

/-- The `scanToken` tail consumes at least one character. -/
theorem scanTailTok_pos (c : Char) (next : Option Char) :
    1 ≤ (scanTailTok c next).2 := by
  unfold scanTailTok
  split
  · simp only
    omega
  · split
    · exact scanOpTok_pos c next
    · simp only
      omega

/-- One `scanToken` step consumes no more than the remaining input. -/
theorem scanTok1_le (c : Char) (cs' : List Char) :
    (scanTok1 c cs').2 ≤ (c :: cs').length := by
  simp only [scanTok1]
  split
  · exact twLe _ (c :: cs')
  · split
    · simp only [List.length_cons]
      omega
    · split
      · exact twLe _ (c :: cs')
      · split
        · exact scanStringTok_le (c :: cs') (by simp)
        · split
          · exact scanNumberTok_le (c :: cs')
          · split
            · exact scanJTok_le (c :: cs') (by simp)
            · split
              · exact scanIdentTok_le (c :: cs')
              · simpa only [List.length_cons, Nat.add_comm] using
                  scanTailTok_le c cs'

/-- One `scanToken` step consumes at least one character. -/
theorem scanTok1_pos (c : Char) (cs' : List Char) : 1 ≤ (scanTok1 c cs').2 := by
  simp only [scanTok1]
  split
  · rename_i hws
    have htw := @List.takeWhile_cons_of_pos Char
      (fun a => a = ' ' || a = '\t' || a = '\r') c cs' hws
    rw [htw]
    simp
  · split
    · omega
    · split
      · rename_i hcm
        obtain ⟨hc, -⟩ : c = '-' ∧ cs'.head? = some '-' := by simpa using hcm
        subst hc
        have htw := @List.takeWhile_cons_of_pos Char
          (fun a => a ≠ '\n') '-' cs' (by decide)
        rw [htw]
        simp
      · split
        · exact scanStringTok_pos (c :: cs')
        · split
          · rename_i hdig
            exact scanNumberTok_pos c cs' hdig
          · split
            · exact scanJTok_pos (c :: cs')
            · split
              · rename_i hid
                exact scanIdentTok_pos c cs' hid
              · exact scanTailTok_pos c cs'.head?

/-- `scanToken` bounds: at least one character, at most the rest. -/
theorem scanTok_bounds (cs : List Char) (hne : cs ≠ []) :
    1 ≤ (scanTok cs).2 ∧ (scanTok cs).2 ≤ cs.length := by
  cases cs with
  | nil => exact absurd rfl hne
  | cons c cs' => exact ⟨scanTok1_pos c cs', scanTok1_le c cs'⟩

/-- `advN` within the remaining input moves `pos` by exactly `n` and drops
`n` characters. -/
theorem advN_spec (n : Nat) : ∀ (s : LexState), n ≤ s.rest.length →
    (advN n s).pos = s.pos + n ∧ (advN n s).rest = s.rest.drop n := by
  induction n with
  | zero => intro s h; simp [advN]
  | succ n ih =>
    intro s h
    obtain ⟨rest, pos, line, col⟩ := s
    cases rest with
    | nil => simp at h
    | cons c cs =>
      simp only [List.length_cons] at h
      have hstep : advN (n + 1) (⟨c :: cs, pos, line, col⟩ : LexState) =
          advN n (adv1 ⟨c :: cs, pos, line, col⟩) := rfl
      by_cases hc : c = '\n'
      · have h1 : adv1 (⟨c :: cs, pos, line, col⟩ : LexState) =
            ⟨cs, pos + 1, line + 1, 1⟩ := by
          simp [adv1, hc]
        rw [hstep, h1]
        obtain ⟨hp, hr⟩ := ih ⟨cs, pos + 1, line + 1, 1⟩
          (show n ≤ cs.length by omega)
        refine ⟨by rw [hp]; simp; omega, by rw [hr]; simp⟩
      · have h1 : adv1 (⟨c :: cs, pos, line, col⟩ : LexState) =
            ⟨cs, pos + 1, line, col + 1⟩ := by
          simp [adv1, hc]
        rw [hstep, h1]
        obtain ⟨hp, hr⟩ := ih ⟨cs, pos + 1, line, col + 1⟩
          (show n ≤ cs.length by omega)
        refine ⟨by rw [hp]; simp; omega, by rw [hr]; simp⟩

/-- The suffix step never yields `EOF`. -/
theorem suffixTok_not_eof (r2 : List Char) (d2 : Nat) :
    (suffixTok r2 d2).1 ≠ .eof := by
  simp only [suffixTok]
  repeat' split
  all_goals simp

/-- The number scanner never yields `EOF`. -/
theorem scanNumberTok_not_eof (cs : List Char) :
    (scanNumberTok cs).1 ≠ .eof := by
  rw [scanNumberTok]
  split
  · simp
  · exact suffixTok_not_eof _ _

/-- The identifier scanner never yields `EOF`. -/
theorem scanIdentTok_not_eof (cs : List Char) :
    (scanIdentTok cs).1 ≠ .eof := by
  simp only [scanIdentTok]
  repeat' split
  all_goals simp

/-- The operator scanner never yields `EOF`. -/
theorem scanOpTok_not_eof {c : Char} {next : Option Char} :
    (scanOpTok c next).1 ≠ .eof := by
  simp only [scanOpTok]
  repeat' split
  all_goals simp

/-- Punctuation never yields `EOF`. -/
theorem punctTok_not_eof {c : Char} {ty : TokenType}
    (h : punctTok c = some ty) : ty ≠ .eof := by
  simp only [punctTok] at h
  repeat' split at h
  all_goals first
    | (rcases h with ⟨⟩; decide)
    | simp_all

/-- The `scanToken` tail never yields `EOF`. -/
theorem scanTailTok_not_eof {c : Char} {next : Option Char} :
    (scanTailTok c next).1 ≠ some .eof := by
  rw [scanTailTok]
  split
  · rename_i ty hty
    simpa using punctTok_not_eof hty
  · split
    · have h := @scanOpTok_not_eof c next
      simpa using h
    · simp

/-- `scanToken` never emits an `EOF` token (that token is pushed only by
`tokenize` itself, once, at the end). -/
theorem scanTok_not_eof {cs : List Char} :
    (scanTok cs).1 ≠ some .eof := by
  match cs with
  | [] => decide
  | c :: cs' =>
    show (scanTok1 c cs').1 ≠ some .eof
    unfold scanTok1
    repeat' split
    all_goals try simp
    · simpa using scanNumberTok_not_eof (c :: cs')
    · simpa using scanIdentTok_not_eof (c :: cs')
    · exact @scanTailTok_not_eof c cs'.head?

/-- The scanner-loop tokens: offsets start at the state's position, spans
stay inside the source (`L` is the total length), lengths are
non-negative, no token is `EOF`, and offsets are monotone. -/
theorem lexRunF_wf : ∀ (fuel : Nat) (s : LexState) (L : Nat),
    s.rest.length < fuel → s.pos + s.rest.length = L →
    (∀ t ∈ lexRunF fuel s,
        (s.pos : Int) ≤ t.span.offset ∧ 0 ≤ t.span.length ∧
          t.span.offset + t.span.length ≤ (L : Int) ∧ t.type ≠ .eof) ∧
      (lexRunF fuel s).Pairwise (fun a b => a.span.offset ≤ b.span.offset) := by
  intro fuel
  induction fuel with
  | zero =>
    intro s L h1 h2
    exact absurd h1 (by omega)
  | succ fuel ih =>
    intro s L h1 h2
    obtain ⟨rest, pos, line, col⟩ := s
    cases rest with
    | nil =>
      rw [lexRunF]
      exact ⟨by simp, by simp⟩
    | cons c cs' =>
      simp only [List.length_cons] at h1 h2
      obtain ⟨hn1, hn2⟩ := scanTok_bounds (c :: cs') (by simp)
      simp only [List.length_cons] at hn2
      obtain ⟨hadvp, hadvr⟩ :=
        advN_spec ((scanTok (c :: cs')).2) ⟨c :: cs', pos, line, col⟩
          (show (scanTok (c :: cs')).2 ≤ (c :: cs').length by
            simp only [List.length_cons]; omega)
      have hadvp' : (advN (scanTok (c :: cs')).2
          (⟨c :: cs', pos, line, col⟩ : LexState)).pos =
          pos + (scanTok (c :: cs')).2 := hadvp
      have hadvl : (advN (scanTok (c :: cs')).2
          (⟨c :: cs', pos, line, col⟩ : LexState)).rest.length =
          cs'.length + 1 - (scanTok (c :: cs')).2 := by
        rw [hadvr, List.length_drop]
        simp only [List.length_cons]
      obtain ⟨ihmem, ihpw⟩ := ih
        (advN (scanTok (c :: cs')).2 ⟨c :: cs', pos, line, col⟩) L
        (by rw [hadvl]; omega)
        (by rw [hadvp', hadvl]; omega)
      simp only [lexRunF]
      have hmemHead : ∀ t ∈ (match (scanTok (c :: cs')).1 with
          | some ty =>
            [(⟨ty, String.mk ((c :: cs').take (scanTok (c :: cs')).2),
              spanAt ⟨c :: cs', pos, line, col⟩ (scanTok (c :: cs')).2⟩ : Token)]
          | none => ([] : List Token)),
          (pos : Int) ≤ t.span.offset ∧ 0 ≤ t.span.length ∧
            t.span.offset + t.span.length ≤ (L : Int) ∧ t.type ≠ .eof := by
        split
        · rename_i ty hty
          intro t ht
          rcases List.mem_singleton.mp ht with rfl
          refine ⟨le_refl _, by simp [spanAt], ?_, ?_⟩
          · show (pos : Int) + ((scanTok (c :: cs')).2 : Int) ≤ (L : Int)
            have hple : pos + (scanTok (c :: cs')).2 ≤ L := by omega
            exact_mod_cast hple
          · show ty ≠ .eof
            intro hw
            subst hw
            exact scanTok_not_eof hty
        · intro t ht
          simp at ht
      constructor
      · intro t ht
        rw [List.mem_append] at ht
        rcases ht with h | h
        · exact hmemHead t h
        · obtain ⟨ho, hl, hb, he⟩ := ihmem t h
          refine ⟨le_trans ?_ ho, hl, hb, he⟩
          rw [hadvp']
          exact_mod_cast Nat.le_add_right pos (scanTok (c :: cs')).2
      · rw [List.pairwise_append]
        refine ⟨?_, ihpw, ?_⟩
        · split
          · exact List.pairwise_singleton _ _
          · exact List.Pairwise.nil
        · intro a ha b hb
          have hao : a.span.offset = (pos : Int) := by
            revert ha
            split
            · intro ha
              rcases List.mem_singleton.mp ha with rfl
              rfl
            · intro ha
              simp at ha
          obtain ⟨ho, h2', h3', h4'⟩ := ihmem b hb
          rw [hao]
          refine le_trans ?_ ho
          rw [hadvp']
          exact_mod_cast Nat.le_add_right pos (scanTok (c :: cs')).2

/-- C9's span condition: non-negative length, and the span ends inside a
source of length `L`. -/
def goodSpan (L : Int) (s : SourceSpan) : Prop :=
  0 ≤ s.length ∧ s.offset + s.length ≤ L

/-- What the parser relies on about its token stream: spans inside the
source, monotone offsets, and a body-then-`EOF` shape. -/
structure TokensWF (L : Int) (tks : List Token) : Prop where
  good : ∀ t ∈ tks, goodSpan L t.span
  mono : tks.Pairwise (fun a b => a.span.offset ≤ b.span.offset)
  shape : ∃ B e, tks = B ++ [e] ∧ (∀ t ∈ B, t.type ≠ TokenType.eof) ∧
    e.type = TokenType.eof
  nonnegL : 0 ≤ L

/-- The parser's token stream (`lexSignificant`) is well-formed for any
source. -/
theorem lexSignificant_wf (src : List Char) :
    TokensWF (src.length : Int) (lexSignificant src) := by
  obtain ⟨hmem, hpw⟩ := lexRunF_wf (src.length + 1) ⟨src, 0, 1, 1⟩ src.length
    (show src.length < src.length + 1 by omega)
    (show 0 + src.length = src.length by omega)
  have hp := (advN_spec src.length ⟨src, 0, 1, 1⟩
    (show src.length ≤ src.length from le_refl _)).1
  have heoff : (spanAt (advN src.length ⟨src, 0, 1, 1⟩) 0).offset =
      (src.length : Int) := by
    show ((advN src.length (⟨src, 0, 1, 1⟩ : LexState)).pos : Int) = _
    rw [hp]
    simp
  have hsig : lexSignificant src =
      (lexRunF (src.length + 1) ⟨src, 0, 1, 1⟩).filter (fun t => !isTrivia t) ++
        [⟨.eof, "", spanAt (advN src.length ⟨src, 0, 1, 1⟩) 0⟩] := by
    rw [lexSignificant, tokenize, List.filter_append]
    rfl
  refine ⟨?_, ?_, ?_, by exact_mod_cast Nat.zero_le _⟩
  · rw [hsig]
    intro t ht
    rcases List.mem_append.mp ht with h | h
    · obtain ⟨-, hl, hb, -⟩ := hmem t (List.mem_of_mem_filter h)
      exact ⟨hl, hb⟩
    · rcases List.mem_singleton.mp h with rfl
      refine ⟨le_refl _, ?_⟩
      show (spanAt (advN src.length ⟨src, 0, 1, 1⟩) 0).offset + ((0 : Nat) : Int) ≤ _
      rw [heoff]
      simp
  · rw [hsig]
    have hsub : List.Sublist
        ((lexRunF (src.length + 1) ⟨src, 0, 1, 1⟩).filter
          (fun t => !isTrivia t) ++
          [(⟨.eof, "", spanAt (advN src.length ⟨src, 0, 1, 1⟩) 0⟩ : Token)])
        (lexRunF (src.length + 1) ⟨src, 0, 1, 1⟩ ++
          [⟨.eof, "", spanAt (advN src.length ⟨src, 0, 1, 1⟩) 0⟩]) :=
      List.Sublist.append (List.filter_sublist _) (List.Sublist.refl _)
    refine List.Pairwise.sublist hsub ?_
    rw [List.pairwise_append]
    refine ⟨hpw, List.pairwise_singleton _ _, ?_⟩
    intro a ha b hb
    rcases List.mem_singleton.mp hb with rfl
    obtain ⟨-, hl, hb2, -⟩ := hmem a ha
    show a.span.offset ≤ (spanAt (advN src.length ⟨src, 0, 1, 1⟩) 0).offset
    rw [heoff]
    omega
  · refine ⟨(lexRunF (src.length + 1) ⟨src, 0, 1, 1⟩).filter
      (fun t => !isTrivia t),
      ⟨.eof, "", spanAt (advN src.length ⟨src, 0, 1, 1⟩) 0⟩, hsig, ?_, rfl⟩
    intro t ht
    exact (hmem t (List.mem_of_mem_filter ht)).2.2.2

/-! ### Parser cursor invariants over a well-formed stream -/

/-- In-range `getD` is indexing. -/
theorem getD_lt {l : List Token} {i : Nat} (h : i < l.length) :
    l.getD i dummyTok = l[i] := by
  rw [List.getD_eq_getElem?_getD, List.getElem?_eq_getElem h]
  rfl

/-- Out-of-range `getD` is the fallback. -/
theorem getD_ge {l : List Token} {i : Nat} (h : l.length ≤ i) :
    l.getD i dummyTok = dummyTok := by
  rw [List.getD_eq_getElem?_getD, List.getElem?_eq_none h]
  rfl

/-- `currentSpan` always satisfies the span condition. -/
theorem currentSpan_good {L : Int} {tks : List Token} (wf : TokensWF L tks)
    (st : PState) : goodSpan L (currentSpan tks st) := by
  rw [currentSpan, current]
  by_cases hp : st.pos < tks.length
  · rw [getD_lt hp]
    exact wf.good _ (List.getElem_mem hp)
  · rw [getD_ge (by omega)]
    exact ⟨le_refl _, by simpa using wf.nonnegL⟩

/-- `prevSpan` always satisfies the span condition. -/
theorem prevSpan_good {L : Int} {tks : List Token} (wf : TokensWF L tks)
    (st : PState) : goodSpan L (prevSpan tks st) := by
  rw [prevSpan]
  split
  · by_cases hp : st.pos - 1 < tks.length
    · rw [getD_lt hp]
      exact wf.good _ (List.getElem_mem hp)
    · rw [getD_ge (by omega)]
      exact ⟨le_refl _, by simpa using wf.nonnegL⟩
  · exact currentSpan_good wf st

/-- Token offsets are monotone in the index. -/
theorem offset_mono {L : Int} {tks : List Token} (wf : TokensWF L tks)
    {i j : Nat} (hj : j < tks.length) (hij : i ≤ j) :
    (tks.getD i dummyTok).span.offset ≤ (tks.getD j dummyTok).span.offset := by
  rcases Nat.eq_or_lt_of_le hij with rfl | hlt
  · exact le_refl _
  · have hi : i < tks.length := lt_trans hlt hj
    rw [getD_lt hi, getD_lt hj]
    exact List.pairwise_iff_getElem.mp wf.mono i j hi hj hlt

/-- A span at an earlier index starts before a later span ends. -/
theorem spanLE {L : Int} {tks : List Token} (wf : TokensWF L tks)
    {i j : Nat} (hj : j < tks.length) (hij : i ≤ j) :
    (tks.getD i dummyTok).span.offset ≤
      (tks.getD j dummyTok).span.offset + (tks.getD j dummyTok).span.length := by
  have h1 := offset_mono wf hj hij
  have h2 : 0 ≤ (tks.getD j dummyTok).span.length := by
    rw [getD_lt hj]
    exact (wf.good _ (List.getElem_mem hj)).1
  omega

/-- `mergeSpans` output is inside the source whenever the end span is and
the start does not pass the end. -/
theorem mergeSpans_good {L : Int} {s1 s2 : SourceSpan} (h2 : goodSpan L s2)
    (hle : s1.offset ≤ s2.offset + s2.length) :
    goodSpan L (mergeSpans s1 s2) := by
  obtain ⟨h2l, h2b⟩ := h2
  constructor
  · show (0 : Int) ≤ s2.offset + s2.length - s1.offset
    omega
  · show s1.offset + (s2.offset + s2.length - s1.offset) ≤ L
    omega

/-- A merge of the current spans at two cursor positions in order. -/
theorem mergeCC_good {L : Int} {tks : List Token} (wf : TokensWF L tks)
    {st1 st2 : PState} (h2 : st2.pos < tks.length) (hle : st1.pos ≤ st2.pos) :
    goodSpan L (mergeSpans (currentSpan tks st1) (currentSpan tks st2)) :=
  mergeSpans_good (currentSpan_good wf st2) (spanLE wf h2 hle)

/-- A merge of a current span with a strictly later previous span. -/
theorem mergeCP_good {L : Int} {tks : List Token} (wf : TokensWF L tks)
    {st1 st2 : PState} (h2 : st2.pos < tks.length) (hlt : st1.pos < st2.pos) :
    goodSpan L (mergeSpans (currentSpan tks st1) (prevSpan tks st2)) := by
  rw [prevSpan, if_pos (show st2.pos > 0 by omega)]
  exact mergeSpans_good
    (by
      rw [show (tks.getD (st2.pos - 1) dummyTok).span =
        currentSpan tks ⟨st2.pos - 1, st2.diagnostics⟩ from rfl]
      exact currentSpan_good wf _)
    (spanLE wf (show st2.pos - 1 < tks.length by omega)
      (show st1.pos ≤ st2.pos - 1 by omega))

/-- Not at `EOF` means at least two tokens remain past the cursor. -/
theorem isAtEnd_false_lt {L : Int} {tks : List Token} (wf : TokensWF L tks)
    {st : PState} (h : isAtEnd tks st = false) : st.pos + 1 < tks.length := by
  obtain ⟨B, e, rfl, hB, he⟩ := wf.shape
  rw [isAtEnd, current] at h
  by_cases hp : st.pos < B.length
  · simp only [List.length_append, List.length_cons, List.length_nil]
    omega
  · by_cases hq : st.pos < B.length + 1
    · have hpe : st.pos = B.length := by omega
      have hce : (B ++ [e]).getD st.pos dummyTok = e := by
        rw [List.getD_eq_getElem?_getD, hpe,
          List.getElem?_append_right (le_refl B.length)]
        simp
      rw [hce] at h
      rw [he] at h
      simp at h
    · have hce : (B ++ [e]).getD st.pos dummyTok = dummyTok := by
        refine getD_ge ?_
        simp only [List.length_append, List.length_cons, List.length_nil]
        omega
      rw [hce] at h
      simp [dummyTok] at h

/-- The cursor stays in range when not at `EOF`. -/
theorem isAtEnd_false_pos {L : Int} {tks : List Token} (wf : TokensWF L tks)
    {st : PState} (h : isAtEnd tks st = false) : st.pos < tks.length := by
  have := isAtEnd_false_lt wf h
  omega

/-- A successful `check` for a non-`EOF` type is off the end marker. -/
theorem check_not_end {tks : List Token} {st : PState} {ty : TokenType}
    (hty : ty ≠ TokenType.eof) (h : check tks st ty = true) :
    isAtEnd tks st = false := by
  rw [check] at h
  rw [isAtEnd]
  have hcur : (current tks st).type = ty := by simpa using h
  simp [hcur, hty]

/-- `checkV` implies `check`. -/
theorem checkV_check {tks : List Token} {st : PState} {ty : TokenType}
    {v : String} (h : checkV tks st ty v = true) : check tks st ty = true := by
  rw [checkV] at h
  rw [check]
  simp only [Bool.and_eq_true] at h
  exact h.1

/-- `advance` never moves backwards. -/
theorem advance_le (tks : List Token) (st : PState) :
    st.pos ≤ (advance tks st).pos := by
  rw [advance]
  split
  · exact le_refl _
  · simp

/-- `advance` keeps the cursor in range. -/
theorem advance_lt_len {L : Int} {tks : List Token} (wf : TokensWF L tks)
    {st : PState} (h : st.pos < tks.length) :
    (advance tks st).pos < tks.length := by
  rw [advance]
  split
  · exact h
  · rename_i hend
    have := isAtEnd_false_lt wf (by simpa using hend)
    simpa using this

/-- Off the end marker, `advance` moves forward one token. -/
theorem advance_succ {tks : List Token} {st : PState}
    (h : isAtEnd tks st = false) : (advance tks st).pos = st.pos + 1 := by
  rw [advance, if_neg (by simp [h])]

/-- `advance` preserves membership-in-range even at `EOF`. -/
theorem advance_pos_le_succ (tks : List Token) (st : PState) :
    (advance tks st).pos ≤ st.pos + 1 := by
  rw [advance]
  split
  · omega
  · simp

/-- `pushErr` does not move the cursor. -/
theorem pushErr_pos (tks : List Token) (st : PState) (m : String) :
    (pushErr tks st m).pos = st.pos := rfl

/-- Cursor bounds for `expectV`. -/
theorem expectV_bnd {L : Int} {tks : List Token} (wf : TokensWF L tks)
    {st st' : PState} {ty : TokenType} {v : String} {b : Bool}
    (h : expectV tks st ty v = (b, st')) (hp : st.pos < tks.length) :
    st.pos ≤ st'.pos ∧ st'.pos < tks.length := by
  rw [expectV] at h
  split at h
  · injection h with h1 h2
    subst h2
    exact ⟨advance_le tks st, advance_lt_len wf hp⟩
  · injection h with h1 h2
    subst h2
    exact ⟨le_refl _, hp⟩

/-- A satisfied `expectV` consumes exactly the checked token. -/
theorem expectV_checkV {tks : List Token} {st st' : PState} {ty : TokenType}
    {v : String} {b : Bool} (h : expectV tks st ty v = (b, st'))
    (hc : checkV tks st ty v = true) : st' = advance tks st := by
  rw [expectV, if_pos hc] at h
  injection h with h1 h2
  exact h2.symm

/-- Cursor bounds for `expectToken`. -/
theorem expectToken_bnd {L : Int} {tks : List Token} (wf : TokensWF L tks)
    {st st' : PState} {ty : TokenType} {b : Bool}
    (h : expectToken tks st ty = (b, st')) (hp : st.pos < tks.length) :
    st.pos ≤ st'.pos ∧ st'.pos < tks.length := by
  rw [expectToken] at h
  split at h
  · injection h with h1 h2
    subst h2
    exact ⟨advance_le tks st, advance_lt_len wf hp⟩
  · injection h with h1 h2
    subst h2
    exact ⟨le_refl _, hp⟩

/-- A successful `expectToken` checked and consumed its token. -/
theorem expectToken_true {tks : List Token} {st st' : PState} {ty : TokenType}
    (h : expectToken tks st ty = (true, st')) :
    check tks st ty = true ∧ st' = advance tks st := by
  rw [expectToken] at h
  split at h
  · rename_i hc
    injection h with h1 h2
    exact ⟨hc, h2.symm⟩
  · injection h with h1 h2
    exact Bool.noConfusion h1

/-- A failed `expectToken` does not move the cursor. -/
theorem expectToken_false {tks : List Token} {st st' : PState} {ty : TokenType}
    (h : expectToken tks st ty = (false, st')) : st'.pos = st.pos := by
  rw [expectToken] at h
  split at h
  · injection h with h1 h2
    exact Bool.noConfusion h1
  · injection h with h1 h2
    rw [← h2]
    rfl

/-- Cursor bounds for `expectString`. -/
theorem expectString_bnd {L : Int} {tks : List Token} (wf : TokensWF L tks)
    {st st' : PState} {v : String}
    (h : expectString tks st = (v, st')) (hp : st.pos < tks.length) :
    st.pos ≤ st'.pos ∧ st'.pos < tks.length := by
  rw [expectString] at h
  split at h
  · injection h with h1 h2
    subst h2
    exact ⟨advance_le tks st, advance_lt_len wf hp⟩
  · injection h with h1 h2
    subst h2
    exact ⟨le_refl _, hp⟩

/-- The synchronisation loop always finds its point within the fuel
`tks.length + 1`, moving only forward and staying in range. -/
theorem synchronizeF_ok {L : Int} {tks : List Token} (wf : TokensWF L tks) :
    ∀ (fuel : Nat) (st : PState), st.pos < tks.length →
      tks.length - st.pos < fuel →
      ∃ st', synchronizeF tks fuel st = some st' ∧
        st.pos ≤ st'.pos ∧ st'.pos < tks.length := by
  intro fuel
  induction fuel with
  | zero =>
    intro st hp hf
    omega
  | succ fuel ih =>
    intro st hp hf
    rw [synchronizeF]
    by_cases hend : isAtEnd tks st = true
    · rw [if_pos hend]
      exact ⟨st, rfl, le_refl _, hp⟩
    · rw [if_neg hend]
      have hend' : isAtEnd tks st = false := by
        revert hend
        cases isAtEnd tks st <;> simp
      have hlt := isAtEnd_false_lt wf hend'
      by_cases hrb : check tks st .rbrace = true
      · rw [if_pos hrb]
        exact ⟨advance tks st, rfl, advance_le tks st, advance_lt_len wf hp⟩
      · rw [if_neg hrb]
        by_cases hdk : atDeclKeyword tks st = true
        · rw [if_pos hdk]
          exact ⟨st, rfl, le_refl _, hp⟩
        · rw [if_neg hdk]
          have hsucc := advance_succ hend'
          obtain ⟨st', heq, hmono, hinv⟩ := ih (advance tks st)
            (by omega) (by omega)
          exact ⟨st', heq, by omega, hinv⟩

/-- `synchronize` succeeds with its stock fuel. -/
theorem synchronize_ok {L : Int} {tks : List Token} (wf : TokensWF L tks)
    (st : PState) (hp : st.pos < tks.length) :
    ∃ st', synchronize tks st = some st' ∧
      st.pos ≤ st'.pos ∧ st'.pos < tks.length :=
  synchronizeF_ok wf (tks.length + 1) st hp (by omega)

/-! ### Span collections over the AST (C9) -/

/-- Spans of a property list. -/
def spansProps (ps : List PropertyAssignment) : List SourceSpan :=
  ps.map (fun p => p.span)

/-- Spans of a terminal declaration. -/
def spansTerminal (t : TerminalDeclaration) : List SourceSpan :=
  t.span :: spansProps t.properties

/-- Spans of a net declaration. -/
def spansNet (t : NetDeclaration) : List SourceSpan :=
  t.span :: spansProps t.properties

/-- Spans of a member declaration. -/
def spansMember (m : MemberDeclaration) : List SourceSpan :=
  m.span :: spansProps m.properties

/-- Spans of a subnetwork declaration. -/
def spansSubnetwork (s : SubnetworkDeclaration) : List SourceSpan :=
  s.span :: (spansProps s.properties ++ (s.members.map spansMember).join)

/-- Spans of a message entry. -/
def spansMessageEntry (e : MessageEntry) : List SourceSpan :=
  e.span :: spansProps e.properties

/-- Spans of a message catalog. -/
def spansMessageCatalog (m : MessageCatalog) : List SourceSpan :=
  m.span :: (m.entries.map spansMessageEntry).join

/-- Spans of a where clause (and its condition). -/
def spansWhere (w : WhereClause) : List SourceSpan :=
  [w.span, w.condition.span]

/-- Spans of a filter rule. -/
def spansFilterRule (r : FilterRule) : List SourceSpan :=
  r.span :: r.whereClause.elim [] spansWhere

/-- Spans of a filter block. -/
def spansFilterBlock (f : FilterBlock) : List SourceSpan :=
  f.span :: ((f.inbound ++ f.outbound).map spansFilterRule).join

/-- Spans of a network declaration and all nodes below it. -/
def spansNetwork (n : NetworkDeclaration) : List SourceSpan :=
  n.span :: (spansProps n.properties ++
    (n.terminals.map spansTerminal).join ++
    (n.nets.map spansNet).join ++
    (n.subnetworks.map spansSubnetwork).join ++
    n.messages.elim [] spansMessageCatalog ++
    n.filters.elim [] spansFilterBlock)

/-- Spans of every node of a document. -/
def spansDoc (d : DocumentNode) : List SourceSpan :=
  d.span :: (d.networks.map spansNetwork).join

/-! ### Fuel sufficiency and span goodness, production by production -/

/-- The array-element loop terminates in range. -/
theorem arrLoopF_ok {L : Int} {tks : List Token} (wf : TokensWF L tks) :
    ∀ (fuel : Nat) (st : PState) (elems : List String),
      st.pos < tks.length → tks.length - st.pos < fuel →
      ∃ out st', arrLoopF tks fuel st elems = some (out, st') ∧
        st.pos ≤ st'.pos ∧ st'.pos < tks.length := by
  intro fuel
  induction fuel with
  | zero => intro st elems hp hf; omega
  | succ fuel ih =>
    intro st elems hp hf
    rw [arrLoopF]
    by_cases hg : (!check tks st .rbracket && !isAtEnd tks st) = true
    · rw [if_pos hg]
      have hend : isAtEnd tks st = false := by
        revert hg
        cases isAtEnd tks st <;> simp
      have hlt := isAtEnd_false_lt wf hend
      obtain ⟨elems1, st1, heq1, hpos1⟩ :
          ∃ elems1 st1,
            (if check tks st .identifier || check tks st .keyword ||
                check tks st .jmessage then
              (elems ++ [currentValue tks st], advance tks st)
            else if check tks st .string then
              (elems ++ [jsSliceInner (currentValue tks st)], advance tks st)
            else
              (elems, advance tks (pushErr tks st
                ("Unexpected token '" ++ currentValue tks st ++
                  "' in array")))) = (elems1, st1) ∧
            st1.pos = st.pos + 1 := by
        split
        · exact ⟨_, _, rfl, advance_succ hend⟩
        · split
          · exact ⟨_, _, rfl, advance_succ hend⟩
          · refine ⟨_, _, rfl, ?_⟩
            show (advance tks (pushErr tks st _)).pos = st.pos + 1
            rw [advance_succ (show isAtEnd tks (pushErr tks st _) = false
              from hend)]
            rfl
      rw [heq1]
      have hp1 : st1.pos < tks.length := by omega
      have h2a : st1.pos ≤
          (if check tks st1 .comma = true then advance tks st1 else st1).pos := by
        split
        · exact advance_le tks st1
        · exact le_refl _
      have h2b :
          (if check tks st1 .comma = true then advance tks st1 else st1).pos <
            tks.length := by
        split
        · exact advance_lt_len wf hp1
        · exact hp1
      obtain ⟨out, st', heq', hm', hi'⟩ := ih
        (if check tks st1 .comma = true then advance tks st1 else st1) elems1
        h2b (by omega)
      exact ⟨out, st', heq', by omega, hi'⟩
    · rw [if_neg hg]
      exact ⟨elems, st, rfl, le_refl _, hp⟩

/-- `parseArrayValue` terminates in range. -/
theorem parseArrayValue_ok {L : Int} {tks : List Token} (wf : TokensWF L tks)
    (st : PState) (hp : st.pos < tks.length) :
    ∃ v st', parseArrayValue tks st = some (v, st') ∧
      st.pos ≤ st'.pos ∧ st'.pos < tks.length := by
  obtain ⟨elems, st2, harr, hm2, hp2⟩ := arrLoopF_ok wf (tks.length + 1)
    (advance tks st) [] (advance_lt_len wf hp) (by omega)
  rcases hrb : expectToken tks st2 .rbracket with ⟨b3, st3⟩
  obtain ⟨hm3, hp3⟩ := expectToken_bnd wf hrb hp2
  refine ⟨some (.array elems), st3, ?_, ?_, hp3⟩
  · simp only [parseArrayValue, harr, Option.bind_eq_bind, Option.some_bind,
      hrb]
  · have := advance_le tks st
    omega

/-- `parsePropertyValue` terminates in range. -/
theorem parsePropertyValue_ok {L : Int} {tks : List Token}
    (wf : TokensWF L tks) (st : PState) (hp : st.pos < tks.length) :
    ∃ v st', parsePropertyValue tks st = some (v, st') ∧
      st.pos ≤ st'.pos ∧ st'.pos < tks.length := by
  cases hty : (current tks st).type
  all_goals simp only [parsePropertyValue, hty]
  all_goals first
    | exact parseArrayValue_ok wf st hp
    | exact ⟨_, _, rfl, advance_le tks st, advance_lt_len wf hp⟩
    | exact ⟨none, st, rfl, le_refl _, hp⟩

/-- `parsePropertyAssignment` terminates in range with a well-placed span,
moving strictly forward when entered off the end marker. -/
theorem parsePropertyAssignment_ok {L : Int} {tks : List Token}
    (wf : TokensWF L tks) (st : PState) (hp : st.pos < tks.length) :
    ∃ p st', parsePropertyAssignment tks st = some (p, st') ∧
      st.pos ≤ st'.pos ∧ st'.pos < tks.length ∧
      (∀ x ∈ p, goodSpan L x.span) ∧
      (isAtEnd tks st = false → st.pos < st'.pos) := by
  rcases hcol : expectToken tks (advance tks st) .colon with ⟨b2, st2⟩
  cases b2 with
  | false =>
    have h2 := expectToken_false hcol
    refine ⟨none, st2, ?_, ?_, ?_, by simp, ?_⟩
    · simp only [parsePropertyAssignment, hcol]
    · have := advance_le tks st
      omega
    · rw [h2]
      exact advance_lt_len wf hp
    · intro hend
      rw [h2, advance_succ hend]
      omega
  | true =>
    obtain ⟨hchk, hst2⟩ := expectToken_true hcol
    have hnotend1 : isAtEnd tks (advance tks st) = false :=
      check_not_end (by decide) hchk
    have hpos2 : st2.pos = (advance tks st).pos + 1 := by
      rw [hst2]
      exact advance_succ hnotend1
    have hp2 : st2.pos < tks.length := by
      rw [hst2]
      exact advance_lt_len wf (advance_lt_len wf hp)
    have hmono2 : st.pos + 1 ≤ st2.pos := by
      have := advance_le tks st
      omega
    obtain ⟨v, st3, hval, hm3, hp3⟩ := parsePropertyValue_ok wf st2 hp2
    cases v with
    | none =>
      refine ⟨none, pushErr tks st3
        ("Expected value for property '" ++ currentValue tks st ++ "'"),
        ?_, ?_, ?_, by simp, ?_⟩
      · simp only [parsePropertyAssignment, hcol, hval, Option.bind_eq_bind,
          Option.some_bind]
      · rw [pushErr_pos]
        omega
      · rw [pushErr_pos]
        exact hp3
      · intro hend
        rw [pushErr_pos]
        omega
    | some value =>
      have h4a : st3.pos ≤
          (if check tks st3 .comma = true then advance tks st3 else st3).pos := by
        split
        · exact advance_le tks st3
        · exact le_refl _
      have h4b :
          (if check tks st3 .comma = true then advance tks st3 else st3).pos <
            tks.length := by
        split
        · exact advance_lt_len wf hp3
        · exact hp3
      refine ⟨some ⟨currentValue tks st, value,
        mergeSpans (currentSpan tks st)
          (prevSpan tks
            (if check tks st3 .comma = true then advance tks st3 else st3))⟩,
        (if check tks st3 .comma = true then advance tks st3 else st3),
        ?_, by omega, h4b, ?_, by intro hend; omega⟩
      · simp only [parsePropertyAssignment, hcol, hval, Option.bind_eq_bind,
          Option.some_bind]
      · intro x hx
        rcases Option.mem_some_iff.mp hx with rfl
        exact mergeCP_good wf h4b (by omega)

/-- The property-block loop terminates in range, collecting well-placed
spans. -/
theorem propBlockF_ok {L : Int} {tks : List Token} (wf : TokensWF L tks) :
    ∀ (fuel : Nat) (st : PState) (props : List PropertyAssignment),
      st.pos < tks.length → tks.length - st.pos < fuel →
      (∀ p ∈ props, goodSpan L p.span) →
      ∃ out st', propBlockF tks fuel st props = some (out, st') ∧
        st.pos ≤ st'.pos ∧ st'.pos < tks.length ∧
        ∀ p ∈ out, goodSpan L p.span := by
  intro fuel
  induction fuel with
  | zero => intro st props hp hf hg; omega
  | succ fuel ih =>
    intro st props hp hf hgood
    rw [propBlockF]
    by_cases hg : (!check tks st .rbrace && !isAtEnd tks st) = true
    · rw [if_pos hg]
      have hend : isAtEnd tks st = false := by
        revert hg
        cases isAtEnd tks st <;> simp
      have hlt := isAtEnd_false_lt wf hend
      by_cases hki : (check tks st .keyword || check tks st .identifier) = true
      · rw [if_pos hki]
        obtain ⟨p, st1, hpa, hm1, hp1, hsp, hstrict⟩ :=
          parsePropertyAssignment_ok wf st hp
        have hlt1 : st.pos < st1.pos := hstrict hend
        simp only [hpa, Option.bind_eq_bind, Option.some_bind]
        cases p with
        | some pp =>
          obtain ⟨out, st', heq, hm', hi', hg'⟩ := ih st1 (props ++ [pp]) hp1
            (by omega)
            (by
              intro q hq
              rcases List.mem_append.mp hq with h | h
              · exact hgood q h
              · rcases List.mem_singleton.mp h with rfl
                exact hsp _ rfl)
          exact ⟨out, st', heq, by omega, hi', hg'⟩
        | none =>
          obtain ⟨out, st', heq, hm', hi', hg'⟩ := ih st1 props hp1 (by omega)
            hgood
          exact ⟨out, st', heq, by omega, hi', hg'⟩
      · rw [if_neg hki]
        have hpos1 : (advance tks (pushErr tks st
            ("Unexpected token '" ++ currentValue tks st ++
              "' in property block"))).pos = st.pos + 1 := by
          rw [advance_succ (show isAtEnd tks (pushErr tks st _) = false
            from hend)]
          rfl
        obtain ⟨out, st', heq, hm', hi', hg'⟩ := ih
          (advance tks (pushErr tks st
            ("Unexpected token '" ++ currentValue tks st ++
              "' in property block"))) props
          (by omega) (by omega) hgood
        exact ⟨out, st', heq, by omega, hi', hg'⟩
    · rw [if_neg hg]
      exact ⟨props, st, rfl, le_refl _, hp, hgood⟩

/-- `parsePropertyBlock` terminates in range. -/
theorem parsePropertyBlock_ok {L : Int} {tks : List Token}
    (wf : TokensWF L tks) (st : PState) (hp : st.pos < tks.length) :
    ∃ out st', parsePropertyBlock tks st = some (out, st') ∧
      st.pos ≤ st'.pos ∧ st'.pos < tks.length ∧
      ∀ p ∈ out, goodSpan L p.span :=
  propBlockF_ok wf (tks.length + 1) st [] hp (by omega) (by simp)

/-- The common terminal/net/member production terminates in range with
well-placed spans; under its keyword guard it moves strictly forward. -/
theorem parseSimpleDecl_ok {L : Int} {tks : List Token} (wf : TokensWF L tks)
    (kw : String) (st : PState) (hp : st.pos < tks.length) :
    ∃ r st', parseSimpleDecl tks kw st = some (r, st') ∧
      st.pos ≤ st'.pos ∧ st'.pos < tks.length ∧
      (∀ x ∈ r, goodSpan L x.2.2 ∧ ∀ p ∈ x.2.1, goodSpan L p.span) ∧
      (checkV tks st .keyword kw = true → st.pos < st'.pos) := by
  rcases hEV : expectV tks st .keyword kw with ⟨b1, st1⟩
  obtain ⟨hm1, hp1⟩ := expectV_bnd wf hEV hp
  rcases hES : expectString tks st1 with ⟨name, st2⟩
  obtain ⟨hm2, hp2⟩ := expectString_bnd wf hES hp1
  have hstrict : checkV tks st .keyword kw = true → st.pos + 1 ≤ st1.pos := by
    intro hc
    have h1 := expectV_checkV hEV hc
    rw [h1, advance_succ (check_not_end (by decide) (checkV_check hc))]
  rcases hET : expectToken tks st2 .lbrace with ⟨b3, st3⟩
  cases b3 with
  | false =>
    have h3 := expectToken_false hET
    obtain ⟨st4, hsync, hm4, hp4⟩ := synchronize_ok wf st3 (by
      rw [h3]
      exact hp2)
    refine ⟨none, st4, ?_, by omega, hp4, by simp,
      fun hc => by have := hstrict hc; omega⟩
    simp only [parseSimpleDecl, hEV, hES, hET, hsync, Option.bind_eq_bind,
      Option.some_bind]
  | true =>
    obtain ⟨hchk3, hst3⟩ := expectToken_true hET
    have hpos3 : st3.pos = st2.pos + 1 := by
      rw [hst3]
      exact advance_succ (check_not_end (by decide) hchk3)
    have hp3 : st3.pos < tks.length := by
      rw [hst3]
      exact advance_lt_len wf hp2
    obtain ⟨props, st4, hpb, hm4, hp4, hpg⟩ := parsePropertyBlock_ok wf st3 hp3
    rcases hRB : expectToken tks st4 .rbrace with ⟨b5, st5⟩
    obtain ⟨hm5, hp5⟩ := expectToken_bnd wf hRB hp4
    refine ⟨some (name, props,
      mergeSpans (currentSpan tks st) (currentSpan tks st4)), st5,
      ?_, by omega, hp5, ?_, fun hc => by have := hstrict hc; omega⟩
    · simp only [parseSimpleDecl, hEV, hES, hET, hpb, hRB, Option.bind_eq_bind,
        Option.some_bind]
    · intro x hx
      rcases Option.mem_some_iff.mp hx with rfl
      exact ⟨mergeCC_good wf hp4 (by omega), hpg⟩

/-- `parseTerminalDeclaration` terminates in range with good spans. -/
theorem parseTerminalDeclaration_ok {L : Int} {tks : List Token}
    (wf : TokensWF L tks) (st : PState) (hp : st.pos < tks.length) :
    ∃ t st', parseTerminalDeclaration tks st = some (t, st') ∧
      st.pos ≤ st'.pos ∧ st'.pos < tks.length ∧
      (∀ x ∈ t, ∀ s ∈ spansTerminal x, goodSpan L s) ∧
      (checkV tks st .keyword "terminal" = true → st.pos < st'.pos) := by
  obtain ⟨r, st', heq, hm, hp', hg, hs⟩ := parseSimpleDecl_ok wf "terminal" st hp
  refine ⟨r.map (fun x => ⟨x.1, x.2.1, x.2.2⟩), st', ?_, hm, hp', ?_, hs⟩
  · simp only [parseTerminalDeclaration, heq, Option.bind_eq_bind,
      Option.some_bind]
  · intro x hx s hsp
    cases r with
    | none => simp at hx
    | some y =>
      obtain rfl : (⟨y.1, y.2.1, y.2.2⟩ : _) = x := by simpa using hx
      obtain ⟨hgs, hgp⟩ := hg y rfl
      rcases List.mem_cons.mp hsp with rfl | hmem
      · exact hgs
      · obtain ⟨p, hpmem, rfl⟩ := List.mem_map.mp hmem
        exact hgp p hpmem

/-- `parseNetDeclaration` terminates in range with good spans. -/
theorem parseNetDeclaration_ok {L : Int} {tks : List Token}
    (wf : TokensWF L tks) (st : PState) (hp : st.pos < tks.length) :
    ∃ t st', parseNetDeclaration tks st = some (t, st') ∧
      st.pos ≤ st'.pos ∧ st'.pos < tks.length ∧
      (∀ x ∈ t, ∀ s ∈ spansNet x, goodSpan L s) ∧
      (checkV tks st .keyword "net" = true → st.pos < st'.pos) := by
  obtain ⟨r, st', heq, hm, hp', hg, hs⟩ := parseSimpleDecl_ok wf "net" st hp
  refine ⟨r.map (fun x => ⟨x.1, x.2.1, x.2.2⟩), st', ?_, hm, hp', ?_, hs⟩
  · simp only [parseNetDeclaration, heq, Option.bind_eq_bind, Option.some_bind]
  · intro x hx s hsp
    cases r with
    | none => simp at hx
    | some y =>
      obtain rfl : (⟨y.1, y.2.1, y.2.2⟩ : _) = x := by simpa using hx
      obtain ⟨hgs, hgp⟩ := hg y rfl
      rcases List.mem_cons.mp hsp with rfl | hmem
      · exact hgs
      · obtain ⟨p, hpmem, rfl⟩ := List.mem_map.mp hmem
        exact hgp p hpmem

/-- `parseMemberDeclaration` terminates in range with good spans. -/
theorem parseMemberDeclaration_ok {L : Int} {tks : List Token}
    (wf : TokensWF L tks) (st : PState) (hp : st.pos < tks.length) :
    ∃ t st', parseMemberDeclaration tks st = some (t, st') ∧
      st.pos ≤ st'.pos ∧ st'.pos < tks.length ∧
      (∀ x ∈ t, ∀ s ∈ spansMember x, goodSpan L s) ∧
      (checkV tks st .keyword "member" = true → st.pos < st'.pos) := by
  obtain ⟨r, st', heq, hm, hp', hg, hs⟩ := parseSimpleDecl_ok wf "member" st hp
  refine ⟨r.map (fun x => ⟨x.1, x.2.1, x.2.2⟩), st', ?_, hm, hp', ?_, hs⟩
  · simp only [parseMemberDeclaration, heq, Option.bind_eq_bind,
      Option.some_bind]
  · intro x hx s hsp
    cases r with
    | none => simp at hx
    | some y =>
      obtain rfl : (⟨y.1, y.2.1, y.2.2⟩ : _) = x := by simpa using hx
      obtain ⟨hgs, hgp⟩ := hg y rfl
      rcases List.mem_cons.mp hsp with rfl | hmem
      · exact hgs
      · obtain ⟨p, hpmem, rfl⟩ := List.mem_map.mp hmem
        exact hgp p hpmem

/-- The subnetwork body loop terminates in range with good spans. -/
theorem subnetBodyF_ok {L : Int} {tks : List Token} (wf : TokensWF L tks) :
    ∀ (fuel : Nat) (st : PState) (props : List PropertyAssignment)
      (members : List MemberDeclaration),
      st.pos < tks.length → tks.length - st.pos < fuel →
      (∀ p ∈ props, goodSpan L p.span) →
      (∀ m ∈ members, ∀ s ∈ spansMember m, goodSpan L s) →
      ∃ out st', subnetBodyF tks fuel st props members = some (out, st') ∧
        st.pos ≤ st'.pos ∧ st'.pos < tks.length ∧
        (∀ p ∈ out.1, goodSpan L p.span) ∧
        (∀ m ∈ out.2, ∀ s ∈ spansMember m, goodSpan L s) := by
  intro fuel
  induction fuel with
  | zero => intro st props members hp hf hg1 hg2; omega
  | succ fuel ih =>
    intro st props members hp hf hg1 hg2
    rw [subnetBodyF]
    by_cases hg : (!check tks st .rbrace && !isAtEnd tks st) = true
    · rw [if_pos hg]
      have hend : isAtEnd tks st = false := by
        revert hg
        cases isAtEnd tks st <;> simp
      have hlt := isAtEnd_false_lt wf hend
      by_cases hmem : checkV tks st .keyword "member" = true
      · rw [if_pos hmem]
        obtain ⟨m, st1, hmd, hm1, hp1, hsp, hstrict⟩ :=
          parseMemberDeclaration_ok wf st hp
        have hlt1 : st.pos < st1.pos := hstrict hmem
        simp only [hmd, Option.bind_eq_bind, Option.some_bind]
        cases m with
        | some mm =>
          obtain ⟨out, st', heq, hm', hi', hg1', hg2'⟩ := ih st1 props
            (members ++ [mm]) hp1 (by omega) hg1
            (by
              intro q hq
              rcases List.mem_append.mp hq with h | h
              · exact hg2 q h
              · rcases List.mem_singleton.mp h with rfl
                exact hsp _ rfl)
          exact ⟨out, st', heq, by omega, hi', hg1', hg2'⟩
        | none =>
          obtain ⟨out, st', heq, hm', hi', hg1', hg2'⟩ := ih st1 props members
            hp1 (by omega) hg1 hg2
          exact ⟨out, st', heq, by omega, hi', hg1', hg2'⟩
      · rw [if_neg hmem]
        by_cases hki : (check tks st .keyword || check tks st .identifier) = true
        · rw [if_pos hki]
          obtain ⟨p, st1, hpa, hm1, hp1, hsp, hstrict⟩ :=
            parsePropertyAssignment_ok wf st hp
          have hlt1 : st.pos < st1.pos := hstrict hend
          simp only [hpa, Option.bind_eq_bind, Option.some_bind]
          cases p with
          | some pp =>
            obtain ⟨out, st', heq, hm', hi', hg1', hg2'⟩ := ih st1
              (props ++ [pp]) members hp1 (by omega)
              (by
                intro q hq
                rcases List.mem_append.mp hq with h | h
                · exact hg1 q h
                · rcases List.mem_singleton.mp h with rfl
                  exact hsp _ rfl)
              hg2
            exact ⟨out, st', heq, by omega, hi', hg1', hg2'⟩
          | none =>
            obtain ⟨out, st', heq, hm', hi', hg1', hg2'⟩ := ih st1 props
              members hp1 (by omega) hg1 hg2
            exact ⟨out, st', heq, by omega, hi', hg1', hg2'⟩
        · rw [if_neg hki]
          have hpos1 : (advance tks (pushErr tks st
              ("Unexpected token '" ++ currentValue tks st ++
                "' in subnetwork body"))).pos = st.pos + 1 := by
            rw [advance_succ (show isAtEnd tks (pushErr tks st _) = false
              from hend)]
            rfl
          obtain ⟨out, st', heq, hm', hi', hg1', hg2'⟩ := ih
            (advance tks (pushErr tks st
              ("Unexpected token '" ++ currentValue tks st ++
                "' in subnetwork body"))) props members
            (by omega) (by omega) hg1 hg2
          exact ⟨out, st', heq, by omega, hi', hg1', hg2'⟩
    · rw [if_neg hg]
      exact ⟨(props, members), st, rfl, le_refl _, hp, hg1, hg2⟩

/-- `parseSubnetworkDeclaration` terminates in range with good spans. -/
theorem parseSubnetworkDeclaration_ok {L : Int} {tks : List Token}
    (wf : TokensWF L tks) (st : PState) (hp : st.pos < tks.length) :
    ∃ r st', parseSubnetworkDeclaration tks st = some (r, st') ∧
      st.pos ≤ st'.pos ∧ st'.pos < tks.length ∧
      (∀ x ∈ r, ∀ s ∈ spansSubnetwork x, goodSpan L s) ∧
      (checkV tks st .keyword "subnetwork" = true → st.pos < st'.pos) := by
  rcases hEV : expectV tks st .keyword "subnetwork" with ⟨b1, st1⟩
  obtain ⟨hm1, hp1⟩ := expectV_bnd wf hEV hp
  rcases hES : expectString tks st1 with ⟨name, st2⟩
  obtain ⟨hm2, hp2⟩ := expectString_bnd wf hES hp1
  have hstrict : checkV tks st .keyword "subnetwork" = true →
      st.pos + 1 ≤ st1.pos := by
    intro hc
    have h1 := expectV_checkV hEV hc
    rw [h1, advance_succ (check_not_end (by decide) (checkV_check hc))]
  rcases hET : expectToken tks st2 .lbrace with ⟨b3, st3⟩
  cases b3 with
  | false =>
    have h3 := expectToken_false hET
    obtain ⟨st4, hsync, hm4, hp4⟩ := synchronize_ok wf st3 (by
      rw [h3]
      exact hp2)
    refine ⟨none, st4, ?_, by omega, hp4, by simp,
      fun hc => by have := hstrict hc; omega⟩
    simp only [parseSubnetworkDeclaration, hEV, hES, hET, hsync,
      Option.bind_eq_bind, Option.some_bind]
  | true =>
    obtain ⟨hchk3, hst3⟩ := expectToken_true hET
    have hpos3 : st3.pos = st2.pos + 1 := by
      rw [hst3]
      exact advance_succ (check_not_end (by decide) hchk3)
    have hp3 : st3.pos < tks.length := by
      rw [hst3]
      exact advance_lt_len wf hp2
    obtain ⟨out, st4, hsb, hm4, hp4, hg1, hg2⟩ := subnetBodyF_ok wf
      (tks.length + 1) st3 [] [] hp3 (by omega) (by simp) (by simp)
    rcases hRB : expectToken tks st4 .rbrace with ⟨b5, st5⟩
    obtain ⟨hm5, hp5⟩ := expectToken_bnd wf hRB hp4
    refine ⟨some ⟨name, out.1, out.2,
      mergeSpans (currentSpan tks st) (currentSpan tks st4)⟩, st5,
      ?_, by omega, hp5, ?_, fun hc => by have := hstrict hc; omega⟩
    · simp only [parseSubnetworkDeclaration, hEV, hES, hET, hsb, hRB,
        Option.bind_eq_bind, Option.some_bind]
    · intro x hx s hsp
      rcases Option.mem_some_iff.mp hx with rfl
      rcases List.mem_cons.mp hsp with rfl | hmem
      · exact mergeCC_good wf hp4 (by omega)
      · rcases List.mem_append.mp hmem with h | h
        · obtain ⟨q, hq, rfl⟩ := List.mem_map.mp h
          exact hg1 q hq
        · obtain ⟨l2, hl2, hsl⟩ := List.mem_join.mp h
          obtain ⟨mm, hmm, rfl⟩ := List.mem_map.mp hl2
          exact hg2 mm hmm s hsl

/-- `parseMessageEntry` terminates in range with good spans, moving
strictly forward when entered off the end marker. -/
theorem parseMessageEntry_ok {L : Int} {tks : List Token}
    (wf : TokensWF L tks) (st : PState) (hp : st.pos < tks.length) :
    ∃ r st', parseMessageEntry tks st = some (r, st') ∧
      st.pos ≤ st'.pos ∧ st'.pos < tks.length ∧
      (∀ x ∈ r, ∀ s ∈ spansMessageEntry x, goodSpan L s) ∧
      (isAtEnd tks st = false → st.pos < st'.pos) := by
  rcases hET : expectToken tks (advance tks st) .lbrace with ⟨b2, st2⟩
  obtain ⟨hm2, hp2⟩ := expectToken_bnd wf hET (advance_lt_len wf hp)
  have hmono : st.pos ≤ (advance tks st).pos := advance_le tks st
  cases b2 with
  | false =>
    obtain ⟨st4, hsync, hm4, hp4⟩ := synchronize_ok wf st2 hp2
    refine ⟨none, st4, ?_, by omega, hp4, by simp, ?_⟩
    · simp only [parseMessageEntry, hET, hsync, Option.bind_eq_bind,
        Option.some_bind]
    · intro hend
      have := advance_succ hend
      have h2 := expectToken_false hET
      omega
  | true =>
    obtain ⟨hchk2, hst2⟩ := expectToken_true hET
    have hpos2 : st2.pos = (advance tks st).pos + 1 := by
      rw [hst2]
      exact advance_succ (check_not_end (by decide) hchk2)
    obtain ⟨props, st3, hpb, hm3, hp3, hpg⟩ := parsePropertyBlock_ok wf st2 hp2
    rcases hRB : expectToken tks st3 .rbrace with ⟨b4, st4⟩
    obtain ⟨hm4, hp4⟩ := expectToken_bnd wf hRB hp3
    refine ⟨some ⟨currentValue tks st, props,
      mergeSpans (currentSpan tks st) (currentSpan tks st3)⟩, st4,
      ?_, by omega, hp4, ?_, by intro hend; omega⟩
    · simp only [parseMessageEntry, hET, hpb, hRB, Option.bind_eq_bind,
        Option.some_bind]
    · intro x hx s hsp
      rcases Option.mem_some_iff.mp hx with rfl
      rcases List.mem_cons.mp hsp with rfl | hmem
      · exact mergeCC_good wf hp3 (by omega)
      · obtain ⟨q, hq, rfl⟩ := List.mem_map.mp hmem
        exact hpg q hq

/-- The message-catalog entry loop terminates in range with good spans. -/
theorem msgCatF_ok {L : Int} {tks : List Token} (wf : TokensWF L tks) :
    ∀ (fuel : Nat) (st : PState) (entries : List MessageEntry),
      st.pos < tks.length → tks.length - st.pos < fuel →
      (∀ e ∈ entries, ∀ s ∈ spansMessageEntry e, goodSpan L s) →
      ∃ out st', msgCatF tks fuel st entries = some (out, st') ∧
        st.pos ≤ st'.pos ∧ st'.pos < tks.length ∧
        ∀ e ∈ out, ∀ s ∈ spansMessageEntry e, goodSpan L s := by
  intro fuel
  induction fuel with
  | zero => intro st entries hp hf hg1; omega
  | succ fuel ih =>
    intro st entries hp hf hg1
    rw [msgCatF]
    by_cases hg : (!check tks st .rbrace && !isAtEnd tks st) = true
    · rw [if_pos hg]
      have hend : isAtEnd tks st = false := by
        revert hg
        cases isAtEnd tks st <;> simp
      have hlt := isAtEnd_false_lt wf hend
      by_cases hj : check tks st .jmessage = true
      · rw [if_pos hj]
        obtain ⟨e, st1, hme, hm1, hp1, hsp, hstrict⟩ :=
          parseMessageEntry_ok wf st hp
        have hlt1 : st.pos < st1.pos := hstrict hend
        simp only [hme, Option.bind_eq_bind, Option.some_bind]
        cases e with
        | some ee =>
          obtain ⟨out, st', heq, hm', hi', hg'⟩ := ih st1 (entries ++ [ee])
            hp1 (by omega)
            (by
              intro q hq
              rcases List.mem_append.mp hq with h | h
              · exact hg1 q h
              · rcases List.mem_singleton.mp h with rfl
                exact hsp _ rfl)
          exact ⟨out, st', heq, by omega, hi', hg'⟩
        | none =>
          obtain ⟨out, st', heq, hm', hi', hg'⟩ := ih st1 entries hp1
            (by omega) hg1
          exact ⟨out, st', heq, by omega, hi', hg'⟩
      · rw [if_neg hj]
        have hpos1 : (advance tks (pushErr tks st
            ("Expected J-message identifier, got '" ++
              currentValue tks st ++ "'"))).pos = st.pos + 1 := by
          rw [advance_succ (show isAtEnd tks (pushErr tks st _) = false
            from hend)]
          rfl
        obtain ⟨out, st', heq, hm', hi', hg'⟩ := ih
          (advance tks (pushErr tks st
            ("Expected J-message identifier, got '" ++
              currentValue tks st ++ "'"))) entries
          (by omega) (by omega) hg1
        exact ⟨out, st', heq, by omega, hi', hg'⟩
    · rw [if_neg hg]
      exact ⟨entries, st, rfl, le_refl _, hp, hg1⟩

/-- `parseMessageCatalog` terminates in range with good spans. -/
theorem parseMessageCatalog_ok {L : Int} {tks : List Token}
    (wf : TokensWF L tks) (st : PState) (hp : st.pos < tks.length) :
    ∃ r st', parseMessageCatalog tks st = some (r, st') ∧
      st.pos ≤ st'.pos ∧ st'.pos < tks.length ∧
      (∀ x ∈ r, ∀ s ∈ spansMessageCatalog x, goodSpan L s) ∧
      (checkV tks st .keyword "messages" = true → st.pos < st'.pos) := by
  rcases hEV : expectV tks st .keyword "messages" with ⟨b1, st1⟩
  obtain ⟨hm1, hp1⟩ := expectV_bnd wf hEV hp
  have hstrict : checkV tks st .keyword "messages" = true →
      st.pos + 1 ≤ st1.pos := by
    intro hc
    have h1 := expectV_checkV hEV hc
    rw [h1, advance_succ (check_not_end (by decide) (checkV_check hc))]
  rcases hET : expectToken tks st1 .lbrace with ⟨b2, st2⟩
  cases b2 with
  | false =>
    have h2 := expectToken_false hET
    obtain ⟨st4, hsync, hm4, hp4⟩ := synchronize_ok wf st2 (by
      rw [h2]
      exact hp1)
    refine ⟨none, st4, ?_, by omega, hp4, by simp,
      fun hc => by have := hstrict hc; omega⟩
    simp only [parseMessageCatalog, hEV, hET, hsync, Option.bind_eq_bind,
      Option.some_bind]
  | true =>
    obtain ⟨hchk2, hst2⟩ := expectToken_true hET
    have hpos2 : st2.pos = st1.pos + 1 := by
      rw [hst2]
      exact advance_succ (check_not_end (by decide) hchk2)
    have hp2 : st2.pos < tks.length := by
      rw [hst2]
      exact advance_lt_len wf hp1
    obtain ⟨entries, st3, hmc, hm3, hp3, heg⟩ := msgCatF_ok wf
      (tks.length + 1) st2 [] hp2 (by omega) (by simp)
    rcases hRB : expectToken tks st3 .rbrace with ⟨b4, st4⟩
    obtain ⟨hm4, hp4⟩ := expectToken_bnd wf hRB hp3
    refine ⟨some ⟨entries,
      mergeSpans (currentSpan tks st) (currentSpan tks st3)⟩, st4,
      ?_, by omega, hp4, ?_, fun hc => by have := hstrict hc; omega⟩
    · simp only [parseMessageCatalog, hEV, hET, hmc, hRB, Option.bind_eq_bind,
        Option.some_bind]
    · intro x hx s hsp
      rcases Option.mem_some_iff.mp hx with rfl
      rcases List.mem_cons.mp hsp with rfl | hmem
      · exact mergeCC_good wf hp3 (by omega)
      · obtain ⟨l2, hl2, hsl⟩ := List.mem_join.mp hmem
        obtain ⟨ee, hee, rfl⟩ := List.mem_map.mp hl2
        exact heg ee hee s hsl

/-- `parseCondition` stays in range and places its span well. -/
theorem parseCondition_ok {L : Int} {tks : List Token} (wf : TokensWF L tks)
    (st : PState) (hp : st.pos < tks.length) :
    ∃ c st', parseCondition tks st = (c, st') ∧
      st.pos ≤ st'.pos ∧ st'.pos < tks.length ∧
      ∀ x ∈ c, goodSpan L x.span := by
  by_cases hfield : (!check tks st .keyword && !check tks st .identifier) =
      true
  · refine ⟨none, pushErr tks st "Expected field name in condition", ?_,
      le_refl _, hp, by simp⟩
    simp only [parseCondition, if_pos hfield]
  · have hm1 := advance_le tks st
    have hp1 := advance_lt_len wf hp
    have hm2 := advance_le tks (advance tks st)
    have hp2 := advance_lt_len wf hp1
    have hm3 := advance_le tks (advance tks (advance tks st))
    have hp3 := advance_lt_len wf hp2
    cases hty : (current tks (advance tks st)).type
    all_goals simp only [parseCondition, if_neg hfield, hty]
    all_goals first
      | exact ⟨_, _, rfl, by rw [pushErr_pos]; omega,
          by rw [pushErr_pos]; exact hp1, by simp⟩
      | exact ⟨_, _, rfl, by omega, hp3, by
          intro x hx
          rcases Option.mem_some_iff.mp hx with rfl
          exact mergeCC_good wf hp2 (by omega)⟩

/-- `parseWhereClause` stays in range and places its spans well. -/
theorem parseWhereClause_ok {L : Int} {tks : List Token} (wf : TokensWF L tks)
    (st : PState) (hp : st.pos < tks.length) :
    ∃ w st', parseWhereClause tks st = (w, st') ∧
      st.pos ≤ st'.pos ∧ st'.pos < tks.length ∧
      ∀ x ∈ w, ∀ s ∈ spansWhere x, goodSpan L s := by
  rcases hEV : expectV tks st .keyword "where" with ⟨b1, st1⟩
  obtain ⟨hm1, hp1⟩ := expectV_bnd wf hEV hp
  rcases hET : expectToken tks st1 .lbrace with ⟨b2, st2⟩
  obtain ⟨hm2, hp2⟩ := expectToken_bnd wf hET hp1
  cases b2 with
  | false =>
    refine ⟨none, st2, ?_, by omega, hp2, by simp⟩
    simp only [parseWhereClause, hEV, hET]
  | true =>
    obtain ⟨c, st3, hcond, hm3, hp3, hcg⟩ := parseCondition_ok wf st2 hp2
    rcases hRB : expectToken tks st3 .rbrace with ⟨b4, st4⟩
    obtain ⟨hm4, hp4⟩ := expectToken_bnd wf hRB hp3
    cases c with
    | none =>
      refine ⟨none, st4, ?_, by omega, hp4, by simp⟩
      simp only [parseWhereClause, hEV, hET, hcond, hRB]
    | some cond =>
      refine ⟨some ⟨cond,
        mergeSpans (currentSpan tks st) (currentSpan tks st3)⟩, st4,
        ?_, by omega, hp4, ?_⟩
      · simp only [parseWhereClause, hEV, hET, hcond, hRB]
      · intro x hx s hsp
        rcases Option.mem_some_iff.mp hx with rfl
        rcases List.mem_cons.mp hsp with rfl | hmem
        · exact mergeCC_good wf hp3 (by omega)
        · rcases List.mem_singleton.mp hmem with rfl
          exact hcg cond rfl

/-- `parseFilterRule` stays in range with good spans and moves strictly
forward when entered off the end marker. -/
theorem parseFilterRule_ok {L : Int} {tks : List Token} (wf : TokensWF L tks)
    (st : PState) (hp : st.pos < tks.length) :
    ∃ r st', parseFilterRule tks st = (r, st') ∧
      st.pos ≤ st'.pos ∧ st'.pos < tks.length ∧
      (∀ x ∈ r, ∀ s ∈ spansFilterRule x, goodSpan L s) ∧
      (isAtEnd tks st = false → st.pos < st'.pos) := by
  have hbody : ∀ (action : FilterAction) (actionName : String),
      checkV tks st .keyword "accept" = true ∨
        checkV tks st .keyword "drop" = true →
      ∃ r st', (let st1 := advance tks st
        if !check tks st1 .jmessage then
          ((none : Option FilterRule), pushErr tks st1
            ("Expected J-message identifier after '" ++ actionName ++ "'"))
        else
          let messageId := currentValue tks st1
          let st2 := advance tks st1
          let ws := if checkV tks st2 .keyword "where" then
              parseWhereClause tks st2
            else (none, st2)
          (some ⟨action, messageId, ws.1,
            mergeSpans (currentSpan tks st) (prevSpan tks ws.2)⟩, ws.2)) =
          (r, st') ∧
        st.pos + 1 ≤ st'.pos ∧ st'.pos < tks.length ∧
        (∀ x ∈ r, ∀ s ∈ spansFilterRule x, goodSpan L s) := by
    intro action actionName hacc
    have hend0 : isAtEnd tks st = false := by
      rcases hacc with h | h
      · exact check_not_end (by decide) (checkV_check h)
      · exact check_not_end (by decide) (checkV_check h)
    have hpos1 : (advance tks st).pos = st.pos + 1 := advance_succ hend0
    have hp1 : (advance tks st).pos < tks.length := advance_lt_len wf hp
    by_cases hj : check tks (advance tks st) .jmessage = true
    · rw [if_neg (by simp [hj])]
      have hend1 : isAtEnd tks (advance tks st) = false :=
        check_not_end (by decide) hj
      have hpos2 : (advance tks (advance tks st)).pos = st.pos + 2 := by
        rw [advance_succ hend1]
        omega
      have hp2 : (advance tks (advance tks st)).pos < tks.length :=
        advance_lt_len wf hp1
      obtain ⟨w, st3, hwc, hm3, hp3, hwg⟩ :
          ∃ w st3, (if checkV tks (advance tks (advance tks st)) .keyword
              "where" = true then
              parseWhereClause tks (advance tks (advance tks st))
            else (none, advance tks (advance tks st))) = (w, st3) ∧
            (advance tks (advance tks st)).pos ≤ st3.pos ∧
            st3.pos < tks.length ∧
            ∀ x ∈ w, ∀ s ∈ spansWhere x, goodSpan L s := by
        split
        · exact parseWhereClause_ok wf (advance tks (advance tks st)) hp2
        · exact ⟨none, advance tks (advance tks st), rfl, le_refl _, hp2,
            by simp⟩
      simp only [hwc]
      refine ⟨_, _, rfl, by omega, hp3, ?_⟩
      intro x hx s hsp
      rcases Option.mem_some_iff.mp hx with rfl
      rcases List.mem_cons.mp hsp with rfl | hmem
      · exact mergeCP_good wf hp3 (by omega)
      · cases w with
        | none => simp at hmem
        | some ww => exact hwg ww rfl s (by simpa using hmem)
    · rw [if_pos (by simp [hj])]
      refine ⟨none, _, rfl, ?_, ?_, by simp⟩
      · show st.pos + 1 ≤ (pushErr tks (advance tks st) _).pos
        rw [pushErr_pos]
        omega
      · show (pushErr tks (advance tks st) _).pos < tks.length
        rw [pushErr_pos]
        exact hp1
  by_cases ha : checkV tks st .keyword "accept" = true
  · obtain ⟨r, st', heq, hm', hp', hg'⟩ := hbody .accept "accept" (Or.inl ha)
    refine ⟨r, st', ?_, by omega, hp', hg', fun _ => by omega⟩
    simp only [parseFilterRule, if_pos ha]
    exact heq
  · by_cases hd : checkV tks st .keyword "drop" = true
    · obtain ⟨r, st', heq, hm', hp', hg'⟩ := hbody .drop "drop" (Or.inr hd)
      refine ⟨r, st', ?_, by omega, hp', hg', fun _ => by omega⟩
      simp only [parseFilterRule, if_neg ha, if_pos hd]
      exact heq
    · refine ⟨none, advance tks (pushErr tks st
        ("Expected 'accept' or 'drop', got '" ++ currentValue tks st ++ "'")),
        ?_, ?_, ?_, by simp, ?_⟩
      · simp only [parseFilterRule, if_neg ha, if_neg hd]
      · exact le_trans (le_of_eq (pushErr_pos tks st _).symm)
          (advance_le tks _)
      · exact advance_lt_len wf (by
          rw [pushErr_pos]
          exact hp)
      · intro hend
        have h1 : (advance tks (pushErr tks st
            ("Expected 'accept' or 'drop', got '" ++ currentValue tks st ++
              "'"))).pos = st.pos + 1 := by
          rw [advance_succ (show isAtEnd tks (pushErr tks st _) = false
            from hend)]
          rfl
        omega

/-- The filter-rule loop terminates in range with good spans. -/
theorem filterRulesF_ok {L : Int} {tks : List Token} (wf : TokensWF L tks) :
    ∀ (fuel : Nat) (st : PState) (rules : List FilterRule),
      st.pos < tks.length → tks.length - st.pos < fuel →
      (∀ r ∈ rules, ∀ s ∈ spansFilterRule r, goodSpan L s) →
      ∃ out st', filterRulesF tks fuel st rules = some (out, st') ∧
        st.pos ≤ st'.pos ∧ st'.pos < tks.length ∧
        ∀ r ∈ out, ∀ s ∈ spansFilterRule r, goodSpan L s := by
  intro fuel
  induction fuel with
  | zero => intro st rules hp hf hg1; omega
  | succ fuel ih =>
    intro st rules hp hf hg1
    rw [filterRulesF]
    by_cases hg : (!check tks st .rbrace && !isAtEnd tks st) = true
    · rw [if_pos hg]
      have hend : isAtEnd tks st = false := by
        revert hg
        cases isAtEnd tks st <;> simp
      obtain ⟨r, st1, hfr, hm1, hp1, hsp, hstrict⟩ := parseFilterRule_ok wf st hp
      have hlt1 : st.pos < st1.pos := hstrict hend
      simp only [hfr]
      cases r with
      | some rr =>
        obtain ⟨out, st', heq, hm', hi', hg'⟩ := ih st1 (rules ++ [rr]) hp1
          (by omega)
          (by
            intro q hq
            rcases List.mem_append.mp hq with h | h
            · exact hg1 q h
            · rcases List.mem_singleton.mp h with rfl
              exact hsp _ rfl)
        exact ⟨out, st', heq, by omega, hi', hg'⟩
      | none =>
        obtain ⟨out, st', heq, hm', hi', hg'⟩ := ih st1 rules hp1 (by omega) hg1
        exact ⟨out, st', heq, by omega, hi', hg'⟩
    · rw [if_neg hg]
      exact ⟨rules, st, rfl, le_refl _, hp, hg1⟩

/-- The filter-section loop terminates in range with good spans. -/
theorem filterSectionsF_ok {L : Int} {tks : List Token} (wf : TokensWF L tks) :
    ∀ (fuel : Nat) (st : PState) (inb outb : List FilterRule),
      st.pos < tks.length → tks.length - st.pos < fuel →
      (∀ r ∈ inb, ∀ s ∈ spansFilterRule r, goodSpan L s) →
      (∀ r ∈ outb, ∀ s ∈ spansFilterRule r, goodSpan L s) →
      ∃ out st', filterSectionsF tks fuel st inb outb = some (out, st') ∧
        st.pos ≤ st'.pos ∧ st'.pos < tks.length ∧
        (∀ r ∈ out.1, ∀ s ∈ spansFilterRule r, goodSpan L s) ∧
        (∀ r ∈ out.2, ∀ s ∈ spansFilterRule r, goodSpan L s) := by
  intro fuel
  induction fuel with
  | zero => intro st inb outb hp hf hg1 hg2; omega
  | succ fuel ih =>
    intro st inb outb hp hf hg1 hg2
    rw [filterSectionsF]
    by_cases hg : (!check tks st .rbrace && !isAtEnd tks st) = true
    · rw [if_pos hg]
      have hend : isAtEnd tks st = false := by
        revert hg
        cases isAtEnd tks st <;> simp
      have hlt := isAtEnd_false_lt wf hend
      have hpos1 : (advance tks st).pos = st.pos + 1 := advance_succ hend
      have hp1 : (advance tks st).pos < tks.length := advance_lt_len wf hp
      by_cases hib : checkV tks st .keyword "inbound" = true
      · rw [if_pos hib]
        rcases hET : expectToken tks (advance tks st) .lbrace with ⟨b2, st2⟩
        obtain ⟨hm2, hp2⟩ := expectToken_bnd wf hET hp1
        cases b2 with
        | false =>
          have h2 := expectToken_false hET
          obtain ⟨st3, hsync, hm3, hp3⟩ := synchronize_ok wf st2 hp2
          obtain ⟨out, st', heq, hm', hi', hg1', hg2'⟩ := ih st3 inb outb hp3
            (by omega) hg1 hg2
          refine ⟨out, st', ?_, by omega, hi', hg1', hg2'⟩
          simp only [hET, hsync, Option.bind_eq_bind, Option.some_bind, heq]
        | true =>
          obtain ⟨hchk2, hst2⟩ := expectToken_true hET
          have hpos2 : st2.pos = st.pos + 2 := by
            rw [hst2, advance_succ (check_not_end (by decide) hchk2)]
            omega
          obtain ⟨rules, st3, hrl, hm3, hp3, hrg⟩ := filterRulesF_ok wf
            (tks.length + 1) st2 [] hp2 (by omega) (by simp)
          rcases hRB : expectToken tks st3 .rbrace with ⟨b4, st4⟩
          obtain ⟨hm4, hp4⟩ := expectToken_bnd wf hRB hp3
          obtain ⟨out, st', heq, hm', hi', hg1', hg2'⟩ := ih st4 (inb ++ rules)
            outb hp4 (by omega)
            (by
              intro q hq
              rcases List.mem_append.mp hq with h | h
              · exact hg1 q h
              · exact hrg q h)
            hg2
          refine ⟨out, st', ?_, by omega, hi', hg1', hg2'⟩
          simp only [hET, hrl, hRB, Option.bind_eq_bind, Option.some_bind, heq]
      · rw [if_neg hib]
        by_cases hob : checkV tks st .keyword "outbound" = true
        · rw [if_pos hob]
          rcases hET : expectToken tks (advance tks st) .lbrace with ⟨b2, st2⟩
          obtain ⟨hm2, hp2⟩ := expectToken_bnd wf hET hp1
          cases b2 with
          | false =>
            have h2 := expectToken_false hET
            obtain ⟨st3, hsync, hm3, hp3⟩ := synchronize_ok wf st2 hp2
            obtain ⟨out, st', heq, hm', hi', hg1', hg2'⟩ := ih st3 inb outb hp3
              (by omega) hg1 hg2
            refine ⟨out, st', ?_, by omega, hi', hg1', hg2'⟩
            simp only [hET, hsync, Option.bind_eq_bind, Option.some_bind, heq]
          | true =>
            obtain ⟨hchk2, hst2⟩ := expectToken_true hET
            have hpos2 : st2.pos = st.pos + 2 := by
              rw [hst2, advance_succ (check_not_end (by decide) hchk2)]
              omega
            obtain ⟨rules, st3, hrl, hm3, hp3, hrg⟩ := filterRulesF_ok wf
              (tks.length + 1) st2 [] hp2 (by omega) (by simp)
            rcases hRB : expectToken tks st3 .rbrace with ⟨b4, st4⟩
            obtain ⟨hm4, hp4⟩ := expectToken_bnd wf hRB hp3
            obtain ⟨out, st', heq, hm', hi', hg1', hg2'⟩ := ih st4 inb
              (outb ++ rules) hp4 (by omega) hg1
              (by
                intro q hq
                rcases List.mem_append.mp hq with h | h
                · exact hg2 q h
                · exact hrg q h)
            refine ⟨out, st', ?_, by omega, hi', hg1', hg2'⟩
            simp only [hET, hrl, hRB, Option.bind_eq_bind, Option.some_bind,
              heq]
        · rw [if_neg hob]
          have hpos1' : (advance tks (pushErr tks st
              ("Expected 'inbound' or 'outbound', got '" ++
                currentValue tks st ++ "'"))).pos = st.pos + 1 := by
            rw [advance_succ (show isAtEnd tks (pushErr tks st _) = false
              from hend)]
            rfl
          obtain ⟨out, st', heq, hm', hi', hg1', hg2'⟩ := ih
            (advance tks (pushErr tks st
              ("Expected 'inbound' or 'outbound', got '" ++
                currentValue tks st ++ "'"))) inb outb
            (by omega) (by omega) hg1 hg2
          exact ⟨out, st', heq, by omega, hi', hg1', hg2'⟩
    · rw [if_neg hg]
      exact ⟨(inb, outb), st, rfl, le_refl _, hp, hg1, hg2⟩

/-- `parseFilterBlock` terminates in range with good spans. -/
theorem parseFilterBlock_ok {L : Int} {tks : List Token} (wf : TokensWF L tks)
    (st : PState) (hp : st.pos < tks.length) :
    ∃ r st', parseFilterBlock tks st = some (r, st') ∧
      st.pos ≤ st'.pos ∧ st'.pos < tks.length ∧
      (∀ x ∈ r, ∀ s ∈ spansFilterBlock x, goodSpan L s) ∧
      (checkV tks st .keyword "filters" = true → st.pos < st'.pos) := by
  rcases hEV : expectV tks st .keyword "filters" with ⟨b1, st1⟩
  obtain ⟨hm1, hp1⟩ := expectV_bnd wf hEV hp
  have hstrict : checkV tks st .keyword "filters" = true →
      st.pos + 1 ≤ st1.pos := by
    intro hc
    have h1 := expectV_checkV hEV hc
    rw [h1, advance_succ (check_not_end (by decide) (checkV_check hc))]
  rcases hET : expectToken tks st1 .lbrace with ⟨b2, st2⟩
  cases b2 with
  | false =>
    have h2 := expectToken_false hET
    obtain ⟨st4, hsync, hm4, hp4⟩ := synchronize_ok wf st2 (by
      rw [h2]
      exact hp1)
    refine ⟨none, st4, ?_, by omega, hp4, by simp,
      fun hc => by have := hstrict hc; omega⟩
    simp only [parseFilterBlock, hEV, hET, hsync, Option.bind_eq_bind,
      Option.some_bind]
  | true =>
    obtain ⟨hchk2, hst2⟩ := expectToken_true hET
    have hpos2 : st2.pos = st1.pos + 1 := by
      rw [hst2]
      exact advance_succ (check_not_end (by decide) hchk2)
    have hp2 : st2.pos < tks.length := by
      rw [hst2]
      exact advance_lt_len wf hp1
    obtain ⟨out, st3, hfs, hm3, hp3, hg1, hg2⟩ := filterSectionsF_ok wf
      (tks.length + 1) st2 [] [] hp2 (by omega) (by simp) (by simp)
    rcases hRB : expectToken tks st3 .rbrace with ⟨b4, st4⟩
    obtain ⟨hm4, hp4⟩ := expectToken_bnd wf hRB hp3
    refine ⟨some ⟨out.1, out.2,
      mergeSpans (currentSpan tks st) (currentSpan tks st3)⟩, st4,
      ?_, by omega, hp4, ?_, fun hc => by have := hstrict hc; omega⟩
    · simp only [parseFilterBlock, hEV, hET, hfs, hRB, Option.bind_eq_bind,
        Option.some_bind]
    · intro x hx s hsp
      rcases Option.mem_some_iff.mp hx with rfl
      rcases List.mem_cons.mp hsp with rfl | hmem
      · exact mergeCC_good wf hp3 (by omega)
      · obtain ⟨l2, hl2, hsl⟩ := List.mem_join.mp hmem
        obtain ⟨rr, hrr, rfl⟩ := List.mem_map.mp hl2
        rcases List.mem_append.mp hrr with h | h
        · exact hg1 rr h s hsl
        · exact hg2 rr h s hsl

/-- Span-goodness of all nodes accumulated in a network body. -/
def NetAccGood (L : Int) (acc : NetAcc) : Prop :=
  (∀ p ∈ acc.properties, goodSpan L p.span) ∧
  (∀ t ∈ acc.terminals, ∀ s ∈ spansTerminal t, goodSpan L s) ∧
  (∀ t ∈ acc.nets, ∀ s ∈ spansNet t, goodSpan L s) ∧
  (∀ t ∈ acc.subnetworks, ∀ s ∈ spansSubnetwork t, goodSpan L s) ∧
  (∀ m ∈ acc.messages, ∀ s ∈ spansMessageCatalog m, goodSpan L s) ∧
  (∀ f ∈ acc.filters, ∀ s ∈ spansFilterBlock f, goodSpan L s)

/-- The network body loop terminates in range with good spans. -/
theorem netBodyF_ok {L : Int} {tks : List Token} (wf : TokensWF L tks) :
    ∀ (fuel : Nat) (st : PState) (acc : NetAcc),
      st.pos < tks.length → tks.length - st.pos < fuel → NetAccGood L acc →
      ∃ out st', netBodyF tks fuel st acc = some (out, st') ∧
        st.pos ≤ st'.pos ∧ st'.pos < tks.length ∧ NetAccGood L out := by
  intro fuel
  induction fuel with
  | zero => intro st acc hp hf hg0; omega
  | succ fuel ih =>
    intro st acc hp hf hg0
    obtain ⟨hga, hgb, hgc, hgd, hge, hgf⟩ := hg0
    rw [netBodyF]
    by_cases hg : (!check tks st .rbrace && !isAtEnd tks st) = true
    · rw [if_pos hg]
      have hend : isAtEnd tks st = false := by
        revert hg
        cases isAtEnd tks st <;> simp
      have hlt := isAtEnd_false_lt wf hend
      by_cases h1 : checkV tks st .keyword "terminal" = true
      · rw [if_pos h1]
        obtain ⟨t, st1, htd, hm1, hp1, hsp, hstrict⟩ :=
          parseTerminalDeclaration_ok wf st hp
        have hlt1 : st.pos < st1.pos := hstrict h1
        simp only [htd, Option.bind_eq_bind, Option.some_bind]
        cases t with
        | some tt =>
          obtain ⟨out, st', heq, hm', hi', hg'⟩ := ih st1
            { acc with terminals := acc.terminals ++ [tt] } hp1 (by omega)
            (by
              refine ⟨hga, ?_, hgc, hgd, hge, hgf⟩
              intro q hq
              rcases List.mem_append.mp hq with h | h
              · exact hgb q h
              · rcases List.mem_singleton.mp h with rfl
                exact hsp _ rfl)
          exact ⟨out, st', heq, by omega, hi', hg'⟩
        | none =>
          obtain ⟨out, st', heq, hm', hi', hg'⟩ := ih st1 acc hp1 (by omega)
            ⟨hga, hgb, hgc, hgd, hge, hgf⟩
          exact ⟨out, st', heq, by omega, hi', hg'⟩
      · rw [if_neg h1]
        by_cases h2 : checkV tks st .keyword "net" = true
        · rw [if_pos h2]
          obtain ⟨t, st1, htd, hm1, hp1, hsp, hstrict⟩ :=
            parseNetDeclaration_ok wf st hp
          have hlt1 : st.pos < st1.pos := hstrict h2
          simp only [htd, Option.bind_eq_bind, Option.some_bind]
          cases t with
          | some tt =>
            obtain ⟨out, st', heq, hm', hi', hg'⟩ := ih st1
              { acc with nets := acc.nets ++ [tt] } hp1 (by omega)
              (by
                refine ⟨hga, hgb, ?_, hgd, hge, hgf⟩
                intro q hq
                rcases List.mem_append.mp hq with h | h
                · exact hgc q h
                · rcases List.mem_singleton.mp h with rfl
                  exact hsp _ rfl)
            exact ⟨out, st', heq, by omega, hi', hg'⟩
          | none =>
            obtain ⟨out, st', heq, hm', hi', hg'⟩ := ih st1 acc hp1 (by omega)
              ⟨hga, hgb, hgc, hgd, hge, hgf⟩
            exact ⟨out, st', heq, by omega, hi', hg'⟩
        · rw [if_neg h2]
          by_cases h3 : checkV tks st .keyword "subnetwork" = true
          · rw [if_pos h3]
            obtain ⟨t, st1, htd, hm1, hp1, hsp, hstrict⟩ :=
              parseSubnetworkDeclaration_ok wf st hp
            have hlt1 : st.pos < st1.pos := hstrict h3
            simp only [htd, Option.bind_eq_bind, Option.some_bind]
            cases t with
            | some tt =>
              obtain ⟨out, st', heq, hm', hi', hg'⟩ := ih st1
                { acc with subnetworks := acc.subnetworks ++ [tt] } hp1
                (by omega)
                (by
                  refine ⟨hga, hgb, hgc, ?_, hge, hgf⟩
                  intro q hq
                  rcases List.mem_append.mp hq with h | h
                  · exact hgd q h
                  · rcases List.mem_singleton.mp h with rfl
                    exact hsp _ rfl)
              exact ⟨out, st', heq, by omega, hi', hg'⟩
            | none =>
              obtain ⟨out, st', heq, hm', hi', hg'⟩ := ih st1 acc hp1
                (by omega) ⟨hga, hgb, hgc, hgd, hge, hgf⟩
              exact ⟨out, st', heq, by omega, hi', hg'⟩
          · rw [if_neg h3]
            by_cases h4 : checkV tks st .keyword "messages" = true
            · rw [if_pos h4]
              obtain ⟨m, st1, hmc, hm1, hp1, hsp, hstrict⟩ :=
                parseMessageCatalog_ok wf st hp
              have hlt1 : st.pos < st1.pos := hstrict h4
              simp only [hmc, Option.bind_eq_bind, Option.some_bind]
              obtain ⟨out, st', heq, hm', hi', hg'⟩ := ih st1
                { acc with messages := m } hp1 (by omega)
                ⟨hga, hgb, hgc, hgd, hsp, hgf⟩
              exact ⟨out, st', heq, by omega, hi', hg'⟩
            · rw [if_neg h4]
              by_cases h5 : checkV tks st .keyword "filters" = true
              · rw [if_pos h5]
                obtain ⟨f, st1, hfb, hm1, hp1, hsp, hstrict⟩ :=
                  parseFilterBlock_ok wf st hp
                have hlt1 : st.pos < st1.pos := hstrict h5
                simp only [hfb, Option.bind_eq_bind, Option.some_bind]
                obtain ⟨out, st', heq, hm', hi', hg'⟩ := ih st1
                  { acc with filters := f } hp1 (by omega)
                  ⟨hga, hgb, hgc, hgd, hge, hsp⟩
                exact ⟨out, st', heq, by omega, hi', hg'⟩
              · rw [if_neg h5]
                by_cases hki : (check tks st .keyword ||
                    check tks st .identifier) = true
                · rw [if_pos hki]
                  obtain ⟨p, st1, hpa, hm1, hp1, hsp, hstrict⟩ :=
                    parsePropertyAssignment_ok wf st hp
                  have hlt1 : st.pos < st1.pos := hstrict hend
                  simp only [hpa, Option.bind_eq_bind, Option.some_bind]
                  cases p with
                  | some pp =>
                    obtain ⟨out, st', heq, hm', hi', hg'⟩ := ih st1
                      { acc with properties := acc.properties ++ [pp] } hp1
                      (by omega)
                      (by
                        refine ⟨?_, hgb, hgc, hgd, hge, hgf⟩
                        intro q hq
                        rcases List.mem_append.mp hq with h | h
                        · exact hga q h
                        · rcases List.mem_singleton.mp h with rfl
                          exact hsp _ rfl)
                    exact ⟨out, st', heq, by omega, hi', hg'⟩
                  | none =>
                    obtain ⟨out, st', heq, hm', hi', hg'⟩ := ih st1 acc hp1
                      (by omega) ⟨hga, hgb, hgc, hgd, hge, hgf⟩
                    exact ⟨out, st', heq, by omega, hi', hg'⟩
                · rw [if_neg hki]
                  have hpos1 : (advance tks (pushErr tks st
                      ("Unexpected token '" ++ currentValue tks st ++
                        "' in network body"))).pos = st.pos + 1 := by
                    rw [advance_succ (show isAtEnd tks (pushErr tks st _) =
                      false from hend)]
                    rfl
                  obtain ⟨out, st', heq, hm', hi', hg'⟩ := ih
                    (advance tks (pushErr tks st
                      ("Unexpected token '" ++ currentValue tks st ++
                        "' in network body"))) acc
                    (by omega) (by omega) ⟨hga, hgb, hgc, hgd, hge, hgf⟩
                  exact ⟨out, st', heq, by omega, hi', hg'⟩
    · rw [if_neg hg]
      exact ⟨acc, st, rfl, le_refl _, hp, hga, hgb, hgc, hgd, hge, hgf⟩

/-- `parseNetworkDeclaration` terminates in range with good spans. -/
theorem parseNetworkDeclaration_ok {L : Int} {tks : List Token}
    (wf : TokensWF L tks) (st : PState) (hp : st.pos < tks.length) :
    ∃ r st', parseNetworkDeclaration tks st = some (r, st') ∧
      st.pos ≤ st'.pos ∧ st'.pos < tks.length ∧
      (∀ x ∈ r, ∀ s ∈ spansNetwork x, goodSpan L s) ∧
      (checkV tks st .keyword "network" = true → st.pos < st'.pos) := by
  rcases hEV : expectV tks st .keyword "network" with ⟨b1, st1⟩
  obtain ⟨hm1, hp1⟩ := expectV_bnd wf hEV hp
  rcases hES : expectString tks st1 with ⟨name, st2⟩
  obtain ⟨hm2, hp2⟩ := expectString_bnd wf hES hp1
  have hstrict : checkV tks st .keyword "network" = true →
      st.pos + 1 ≤ st1.pos := by
    intro hc
    have h1 := expectV_checkV hEV hc
    rw [h1, advance_succ (check_not_end (by decide) (checkV_check hc))]
  rcases hET : expectToken tks st2 .lbrace with ⟨b3, st3⟩
  cases b3 with
  | false =>
    have h3 := expectToken_false hET
    obtain ⟨st4, hsync, hm4, hp4⟩ := synchronize_ok wf st3 (by
      rw [h3]
      exact hp2)
    refine ⟨none, st4, ?_, by omega, hp4, by simp,
      fun hc => by have := hstrict hc; omega⟩
    simp only [parseNetworkDeclaration, hEV, hES, hET, hsync,
      Option.bind_eq_bind, Option.some_bind]
  | true =>
    obtain ⟨hchk3, hst3⟩ := expectToken_true hET
    have hpos3 : st3.pos = st2.pos + 1 := by
      rw [hst3]
      exact advance_succ (check_not_end (by decide) hchk3)
    have hp3 : st3.pos < tks.length := by
      rw [hst3]
      exact advance_lt_len wf hp2
    obtain ⟨acc, st4, hnb, hm4, hp4, hag⟩ := netBodyF_ok wf (tks.length + 1)
      st3 ⟨[], [], [], [], none, none⟩ hp3 (by omega)
      ⟨by simp, by simp, by simp, by simp, by simp, by simp⟩
    rcases hRB : expectToken tks st4 .rbrace with ⟨b5, st5⟩
    obtain ⟨hm5, hp5⟩ := expectToken_bnd wf hRB hp4
    obtain ⟨hga, hgb, hgc, hgd, hge, hgf⟩ := hag
    refine ⟨some ⟨name, acc.properties, acc.terminals, acc.nets,
      acc.subnetworks, acc.messages, acc.filters,
      mergeSpans (currentSpan tks st) (currentSpan tks st4)⟩, st5,
      ?_, by omega, hp5, ?_, fun hc => by have := hstrict hc; omega⟩
    · simp only [parseNetworkDeclaration, hEV, hES, hET, hnb, hRB,
        Option.bind_eq_bind, Option.some_bind]
    · intro x hx s hsp
      rcases Option.mem_some_iff.mp hx with rfl
      rcases List.mem_cons.mp hsp with rfl | hmem
      · exact mergeCC_good wf hp4 (by omega)
      · rcases List.mem_append.mp hmem with hmem | h
        · rcases List.mem_append.mp hmem with hmem | h
          · rcases List.mem_append.mp hmem with hmem | h
            · rcases List.mem_append.mp hmem with hmem | h
              · rcases List.mem_append.mp hmem with h | h
                · obtain ⟨q, hq, rfl⟩ := List.mem_map.mp h
                  exact hga q hq
                · obtain ⟨l2, hl2, hsl⟩ := List.mem_join.mp h
                  obtain ⟨q, hq, rfl⟩ := List.mem_map.mp hl2
                  exact hgb q hq s hsl
              · obtain ⟨l2, hl2, hsl⟩ := List.mem_join.mp h
                obtain ⟨q, hq, rfl⟩ := List.mem_map.mp hl2
                exact hgc q hq s hsl
            · obtain ⟨l2, hl2, hsl⟩ := List.mem_join.mp h
              obtain ⟨q, hq, rfl⟩ := List.mem_map.mp hl2
              exact hgd q hq s hsl
          · cases hmm : acc.messages with
            | none => rw [hmm] at h; simp [Option.elim] at h
            | some mm =>
              rw [hmm] at h
              exact hge mm (by rw [hmm]; rfl) s h
        · cases hff : acc.filters with
          | none => rw [hff] at h; simp [Option.elim] at h
          | some ff =>
            rw [hff] at h
            exact hgf ff (by rw [hff]; rfl) s h

/-- The top-level network loop terminates in range with good spans. -/
theorem parseDocF_ok {L : Int} {tks : List Token} (wf : TokensWF L tks) :
    ∀ (fuel : Nat) (st : PState) (networks : List NetworkDeclaration),
      st.pos < tks.length → tks.length - st.pos < fuel →
      (∀ n ∈ networks, ∀ s ∈ spansNetwork n, goodSpan L s) →
      ∃ out st', parseDocF tks fuel st networks = some (out, st') ∧
        st.pos ≤ st'.pos ∧ st'.pos < tks.length ∧
        ∀ n ∈ out, ∀ s ∈ spansNetwork n, goodSpan L s := by
  intro fuel
  induction fuel with
  | zero => intro st networks hp hf hg1; omega
  | succ fuel ih =>
    intro st networks hp hf hg1
    rw [parseDocF]
    by_cases hg : (!isAtEnd tks st) = true
    · rw [if_pos hg]
      have hend : isAtEnd tks st = false := by
        revert hg
        cases isAtEnd tks st <;> simp
      have hlt := isAtEnd_false_lt wf hend
      by_cases hnw : checkV tks st .keyword "network" = true
      · rw [if_pos hnw]
        obtain ⟨n, st1, hnd, hm1, hp1, hsp, hstrict⟩ :=
          parseNetworkDeclaration_ok wf st hp
        have hlt1 : st.pos < st1.pos := hstrict hnw
        simp only [hnd, Option.bind_eq_bind, Option.some_bind]
        cases n with
        | some nn =>
          obtain ⟨out, st', heq, hm', hi', hg'⟩ := ih st1 (networks ++ [nn])
            hp1 (by omega)
            (by
              intro q hq
              rcases List.mem_append.mp hq with h | h
              · exact hg1 q h
              · rcases List.mem_singleton.mp h with rfl
                exact hsp _ rfl)
          exact ⟨out, st', heq, by omega, hi', hg'⟩
        | none =>
          obtain ⟨out, st', heq, hm', hi', hg'⟩ := ih st1 networks hp1
            (by omega) hg1
          exact ⟨out, st', heq, by omega, hi', hg'⟩
      · rw [if_neg hnw]
        have hpos1 : (advance tks (pushErr tks st
            ("Expected 'network' declaration, got '" ++
              currentValue tks st ++ "'"))).pos = st.pos + 1 := by
          rw [advance_succ (show isAtEnd tks (pushErr tks st _) = false
            from hend)]
          rfl
        obtain ⟨out, st', heq, hm', hi', hg'⟩ := ih
          (advance tks (pushErr tks st
            ("Expected 'network' declaration, got '" ++
              currentValue tks st ++ "'"))) networks
          (by omega) (by omega) hg1
        exact ⟨out, st', heq, by omega, hi', hg'⟩
    · rw [if_neg hg]
      exact ⟨networks, st, rfl, le_refl _, hp, hg1⟩

/-- `parse` on a well-formed token stream yields a result whose every
node span is good. -/
theorem parseToks_ok {L : Int} {tks : List Token} (wf : TokensWF L tks) :
    ∃ r, parseToks tks = some r ∧ ∀ s ∈ spansDoc r.ast, goodSpan L s := by
  have hlen : 0 < tks.length := by
    obtain ⟨B, e, rfl, -, -⟩ := wf.shape
    simp
  obtain ⟨networks, st', hdoc, hm', hp', hg'⟩ := parseDocF_ok wf
    (tks.length + 1) ⟨0, []⟩ []
    (by simpa using hlen) (show tks.length - 0 < tks.length + 1 by omega) (by simp)
  refine ⟨⟨⟨networks,
    mergeSpans (currentSpan tks ⟨0, []⟩) (currentSpan tks st')⟩,
    st'.diagnostics⟩, ?_, ?_⟩
  · simp only [parseToks, hdoc, Option.bind_eq_bind, Option.some_bind]
  · intro s hsp
    rcases List.mem_cons.mp hsp with rfl | hmem
    · exact mergeCC_good wf hp' (by simpa using Nat.zero_le _)
    · obtain ⟨l2, hl2, hsl⟩ := List.mem_join.mp hmem
      obtain ⟨nn, hnn, rfl⟩ := List.mem_map.mp hl2
      exact hg' nn hnn s hsl

/-- `parse` always succeeds, with every node span inside the source. -/
theorem parse_ok (src : List Char) :
    ∃ r, parse src = some r ∧
      ∀ s ∈ spansDoc r.ast, goodSpan (src.length : Int) s :=
  parseToks_ok (lexSignificant_wf src)

/-- `appStore.ts` — the analysis pipeline: parse, then validate the AST,
with parse errors preceding validation diagnostics. -/
def analyze (src : List Char) : Option (DocumentNode × List Diagnostic) :=
  (parse src).map (fun r => (r.ast, r.diagnostics ++ validate r.ast))

/-- C5: for every source string the parser terminates successfully: every
loop of the recursive-descent parser (including `synchronize`-based error
recovery) runs on fuel `tokens + 1`, one unit per iteration, and each
iteration advances the monotone cursor, so the linear fuel — an O(n) bound
on token advances for n tokens — never runs out and `parse` always
returns a result (the embedding has no exceptions to throw: every failure
path of the TypeScript code pushes a diagnostic and continues). -/
theorem parse_never_fails (src : List Char) : (parse src).isSome = true := by
  obtain ⟨r, hr, -⟩ := parse_ok src
  rw [hr]
  rfl

/-- C9: for every source string, analysis (parse followed by validate)
terminates with a result; `ast.networks` is a (possibly empty) `List` in
document order by construction; and every AST node's span has
non-negative length and ends within the source. -/
theorem analyze_spans_in_range (src : List Char) :
    ∃ a, analyze src = some a ∧
      ∀ s ∈ spansDoc a.1,
        0 ≤ s.length ∧ s.offset + s.length ≤ (src.length : Int) := by
  obtain ⟨r, hr, hg⟩ := parse_ok src
  refine ⟨(r.ast, r.diagnostics ++ validate r.ast), ?_, ?_⟩
  · rw [analyze, hr]
    rfl
  · intro s hs
    exact hg s hs

end Tdl
